import Mathlib

/-!
# Verification of the Clair knowledge-lifecycle pipeline

Shallow embedding of the core services of the `ai-clair-5406` repository:

* `src/services/cleanup.js` — similarity deduplicator (`calculateSimilarity`,
  `flagDuplicateKnowledge`);
* `src/services/dayOrganizer.js` — snippet capture, reclassification pass and
  the day-organization orchestration;
* `src/services/dailySummary.js` — nightly compilation engine
  (`getRecentJournalEntries`, `archiveEntries`, `generateCategoryDoc`,
  `createVersionedDoc`, `runDailySummary`);
* the night compiler's ledger protocol (`runNightCompilation`).

The relational store is modelled as explicit lists of rows; timestamps are
integers (epoch milliseconds), dates are natural-number date codes.  The AI
collaborators are opaque functions passed as parameters, failures modelled
with `Except`.  Every definition is executable.
-/

namespace Clair

/-! ## JavaScript string splitting

`str.split(/\s+/)` splits on maximal whitespace runs, producing an empty
string at the start (resp. end) when the string starts (resp. ends) with
whitespace, and `[""]` for the empty string. -/

/-- State machine for `split(/\s+/)`: `skipping = true` while consuming a
whitespace run, `cur` holds the reversed characters of the current token. -/
def splitGo : List Char → Bool → List Char → List String
  | [], false, cur => [cur.reverse.asString]
  | [], true, _ => [""]
  | c :: cs, false, cur =>
    if c.isWhitespace then cur.reverse.asString :: splitGo cs true []
    else splitGo cs false (c :: cur)
  | c :: cs, true, _ =>
    if c.isWhitespace then splitGo cs true []
    else splitGo cs false [c]

/-- JavaScript `str.split(/\s+/)`. -/
def jsSplitWS (s : String) : List String := splitGo s.data false []

/-- JavaScript `str.toLowerCase()`, modelled character-wise. -/
def jsToLower (s : String) : String := String.mk (s.data.map Char.toLower)

/-! ## Similarity deduplicator (`src/services/cleanup.js`)

`calculateSimilarity` builds JavaScript `Set`s of the whitespace-separated
words of each string and returns `|A ∩ B| / |A ∪ B|`; the JS `Set`s are
modelled as `Finset String`. -/

/-- The `Set` of words of a string: `new Set(str.split(/\s+/))`. -/
def titleWords (s : String) : Finset String := (jsSplitWS s).toFinset

/-- `calculateSimilarity` (cleanup.js lines 265–273): Jaccard index of the
word sets of the two strings. -/
def calculateSimilarity (str1 str2 : String) : ℚ :=
  (((titleWords str1) ∩ (titleWords str2)).card : ℚ) /
    (((titleWords str1) ∪ (titleWords str2)).card : ℚ)

/-- `THRESHOLDS.duplicateSimilarity` (cleanup.js line 19). -/
def duplicateSimilarity : ℚ := 0.85

/-- A row of `dev_ai_knowledge`, with the columns the pipeline reads or
writes. -/
structure Knowledge where
  id : Nat
  project_path : String
  title : String
  summary : Option String := none
  content : Option String := none
  category : Option String := none
  cataloger : Option String := none
  captured_as_snippet : Option Bool := none
  discovered_in : Option String := none
  source : Option String := none
  created_at : Int := 0
  updated_at : Int := 0
  deriving Repr, DecidableEq

/-- One element of the `duplicates` array stored in a merge correction's
`details`. -/
structure DupEntry where
  id : Nat
  title : String
  similarity : ℚ
  deriving Repr, DecidableEq

/-- A row of `dev_ai_corrections` as inserted by `flagDuplicateKnowledge`
(`details` fields inlined). -/
structure Correction where
  item_type : String
  item_id : Nat
  correction_type : String
  primary_title : String
  duplicates : List DupEntry
  auto_detected : Bool
  status : String
  created_by : String
  deriving Repr, DecidableEq

/-- A duplicate cluster: the primary entry and the similar entries grouped
with it. -/
structure Cluster where
  primary : Knowledge
  duplicates : List DupEntry
  deriving Repr, DecidableEq

/-- Inner loop of `flagDuplicateKnowledge` (cleanup.js lines 153–170): scan
the entries after `entry`, skipping ids already in `checked`; same-category
entries whose lowercased titles reach the similarity threshold are collected
and their ids marked checked. -/
def findSimilarAux (entry : Knowledge) :
    List Knowledge → List Nat → List DupEntry × List Nat
  | [], checked => ([], checked)
  | other :: rest, checked =>
    if other.id ∈ checked then findSimilarAux entry rest checked
    else if entry.category = other.category then
      let sim := calculateSimilarity (jsToLower entry.title) (jsToLower other.title)
      if duplicateSimilarity ≤ sim then
        let (ds, checked') := findSimilarAux entry rest (other.id :: checked)
        (⟨other.id, other.title, sim⟩ :: ds, checked')
      else findSimilarAux entry rest checked
    else findSimilarAux entry rest checked

/-- Outer loop of `flagDuplicateKnowledge` (cleanup.js lines 147–179):
greedy single-pass clustering; an entry already assigned to a cluster is
skipped. -/
def clusterDuplicates : List Knowledge → List Nat → List Cluster
  | [], _ => []
  | k :: rest, checked =>
    if k.id ∈ checked then clusterDuplicates rest checked
    else
      match findSimilarAux k rest checked with
      | (similar, checked') =>
        if similar.isEmpty then clusterDuplicates rest checked'
        else ⟨k, similar⟩ :: clusterDuplicates rest (k.id :: checked')

/-- The merge `CorrectionRecord` inserted for one cluster
(cleanup.js lines 182–196). -/
def mergeCorrectionOf (c : Cluster) : Correction :=
  { item_type := "knowledge"
    item_id := c.primary.id
    correction_type := "merge"
    primary_title := c.primary.title
    duplicates := c.duplicates
    auto_detected := true
    status := "pending"
    created_by := "clair-cleanup" }

/-- `flagDuplicateKnowledge` on an already-loaded window of knowledge rows:
returns the list of merge corrections inserted (cleanup.js lines 139–197). -/
def flagDuplicateKnowledge (recent : List Knowledge) : List Correction :=
  if recent.length < 2 then []
  else (clusterDuplicates recent []).map mergeCorrectionOf

/-- Stable ordered insertion: `before a x` means `a` must precede `x`. -/
def insertSorted {α : Type} (before : α → α → Bool) (a : α) :
    List α → List α
  | [] => [a]
  | x :: xs => if before a x then a :: x :: xs else x :: insertSorted before a xs

/-- Insertion sort modelling a store `order by` clause. -/
def sortRows {α : Type} (before : α → α → Bool) (l : List α) : List α :=
  l.foldr (insertSorted before) []

/-- The window query of `flagDuplicateKnowledge` (cleanup.js lines 132–136):
all knowledge rows, newest first, limited to 500 — no project filter. -/
def knowledgeWindow (rows : List Knowledge) : List Knowledge :=
  (sortRows (fun a b => decide (b.created_at < a.created_at)) rows).take 500

/-- The full deduplication pass: load the window, then cluster and flag. -/
def runFlagDuplicateKnowledge (rows : List Knowledge) : List Correction :=
  flagDuplicateKnowledge (knowledgeWindow rows)

/-! ## Day organizer (`src/services/dayOrganizer.js`)

Snippet capture from knowledge/todos/bugs, the reclassification pass, and
the day-organization orchestration with its in-process overlap flag. -/

/-- JavaScript `a || b` on strings (empty string is falsy). -/
def jsOrStr (a b : String) : String := if a = "" then b else a

/-- JavaScript `a || b` where `a` is a nullable string. -/
def jsOrOpt (a b : Option String) : Option String :=
  match a with
  | some s => if s = "" then b else some s
  | none => b

/-- JavaScript `a || b` where `a` is nullable and `b` a plain string. -/
def jsOrDef (a : Option String) (b : String) : String :=
  match a with
  | some s => if s = "" then b else s
  | none => b

/-- JavaScript truthiness of a nullable string. -/
def jsTruthy (o : Option String) : Bool :=
  match o with
  | some s => s ≠ ""
  | none => false

/-- The 30-minute trailing window, in milliseconds. -/
def thirtyMinutes : Int := 30 * 60 * 1000

/-- Fallback `project_path` used by every capture insert. -/
def defaultProjectPath : String := "/var/www/NextBid_Dev/dev-studio-5000"

/-- The cataloger identity of the reclassification pass. -/
def organizerId : String := "clair-day-organizer"

/-- A row of `dev_ai_snippets` (schema in migration 002, lines 160–189). -/
structure Snippet where
  project_path : String
  snippet_type : String
  content : String
  context : Option String := none
  session_id : Option String := none
  snippet_date : Nat
  is_compiled : Bool := false
  compiled_into : Option Nat := none
  deriving Repr, DecidableEq

/-- A row of `dev_ai_todos`, with the columns the pipeline reads. -/
structure Todo where
  id : Nat
  project_path : String
  title : String
  description : Option String := none
  category : Option String := none
  status : String
  completed_at : Option Int := none
  created_at : Int := 0
  updated_at : Int := 0
  deriving Repr, DecidableEq

/-- A row of `dev_ai_bugs`, with the columns the pipeline reads. -/
structure Bug where
  id : Nat
  project_path : String
  title : String
  description : Option String := none
  resolution : Option String := none
  status : String
  updated_at : Int := 0
  deriving Repr, DecidableEq

/-- A row of the `dev_ai_clair_schedule` job ledger. -/
structure ScheduleJob where
  job_name : String
  status : String := "idle"
  last_run_at : Option Int := none
  last_result : Option String := none
  last_error : Option String := none
  deriving Repr, DecidableEq

/-- `updateJobStatus` (dayOrganizer.js lines 23–37, nightCompiler lines
19–29): set status, `last_run_at`, `last_result` and `last_error` on the
ledger row of the named job. -/
def updateJobStatus (jobName status : String) (now : Int)
    (result err : Option String) (sched : List ScheduleJob) :
    List ScheduleJob :=
  sched.map fun j =>
    if j.job_name = jobName then
      { j with status := status, last_run_at := some now,
               last_result := result, last_error := err }
    else j

/-- The store state touched by the daytime pipeline. -/
structure DayDB where
  knowledge : List Knowledge
  todos : List Todo
  bugs : List Bug
  snippets : List Snippet
  deriving Repr, DecidableEq

/-- Which source table a capture event consumed. -/
inductive SourceKind
  | knowledge
  | todo
  | bug
  deriving Repr, DecidableEq

/-- Ghost record of one snippet insert: which source row produced it
(mirrors the `captured++` counters of the capture functions). -/
structure CaptureEvent where
  kind : SourceKind
  sourceId : Nat
  deriving Repr, DecidableEq

/-- Number of capture events for one source row. -/
def countEvents (kind : SourceKind) (i : Nat) (log : List CaptureEvent) :
    Nat :=
  (log.filter fun e => decide (e.kind = kind) && decide (e.sourceId = i)).length

/-- The category→type map of `captureSnippets` (dayOrganizer.js lines
62–72), with the `|| 'conversation'` fallback. -/
def knowledgeTypeMap (category : Option String) : String :=
  match category with
  | some "bug-fix" => "bug_fix"
  | some "feature" => "feature"
  | some "config" => "config"
  | some "architecture" => "discussion"
  | some "workflow" => "discussion"
  | some "refactor" => "code_change"
  | some "documentation" => "discussion"
  | _ => "conversation"

/-- Derived snippet content for a knowledge row:
`k.title + (k.summary ? ": " + k.summary : "")`. -/
def knowledgeSnippetContent (k : Knowledge) : String :=
  k.title ++ (match k.summary with
    | some s => if s = "" then "" else ": " ++ s
    | none => "")

/-- The snippet inserted for one knowledge row (dayOrganizer.js lines
76–85). -/
def knowledgeSnippetOf (k : Knowledge) (today : Nat) : Snippet :=
  { project_path := jsOrStr k.project_path defaultProjectPath
    snippet_type := knowledgeTypeMap k.category
    content := knowledgeSnippetContent k
    context := k.content.map (fun c => c.take 500)
    session_id := jsOrOpt k.discovered_in k.source
    snippet_date := today }

/-- The selection query of `captureSnippets` (dayOrganizer.js lines 48–52):
recent knowledge rows not yet captured. -/
def captureKnowledgeSel (now : Int) (rows : List Knowledge) : List Knowledge :=
  rows.filter fun k =>
    decide (now - thirtyMinutes ≤ k.created_at) &&
      decide (k.captured_as_snippet = none)

/-- Loop body of `captureSnippets` (dayOrganizer.js lines 60–98): insert a
snippet for each selected row and mark the source row captured. -/
def captureKnowledgeGo (today : Nat) : List Knowledge → DayDB →
    DayDB × List CaptureEvent
  | [], db => (db, [])
  | k :: ks, db =>
    let db' :=
      { db with
        snippets := db.snippets ++ [knowledgeSnippetOf k today]
        knowledge := db.knowledge.map fun r =>
          if r.id = k.id then { r with captured_as_snippet := some true }
          else r }
    let (db'', evs) := captureKnowledgeGo today ks db'
    (db'', ⟨.knowledge, k.id⟩ :: evs)

/-- `captureSnippets` (dayOrganizer.js lines 43–105): select recent
uncaptured knowledge, insert a snippet for each and mark the source row
captured.  Returns the new state and the ghost list of inserts
(mirroring the `captured` counter). -/
def captureSnippets (now : Int) (today : Nat) (db : DayDB) :
    DayDB × List CaptureEvent :=
  captureKnowledgeGo today (captureKnowledgeSel now db.knowledge) db

/-- Derived snippet content for a completed todo. -/
def todoSnippetContent (t : Todo) : String := "COMPLETED: " ++ t.title

/-- Derived snippet content for a fixed bug. -/
def bugSnippetContent (b : Bug) : String := "BUG FIXED: " ++ b.title

/-- Number of snippets matching a content/date pair. -/
def matchCount (c : String) (today : Nat) (snips : List Snippet) : Nat :=
  (snips.filter fun s =>
    decide (s.content = c) && decide (s.snippet_date = today)).length

/-- The `.single()` duplicate probe of the todo/bug capture: the query
returns a row exactly when precisely one snippet matches content and
date. -/
def singleMatch (c : String) (today : Nat) (snips : List Snippet) : Bool :=
  matchCount c today snips = 1

/-- The selection query of `captureTodoSnippets` (dayOrganizer.js lines
115–119): recently completed todos. -/
def captureTodoSel (now : Int) (rows : List Todo) : List Todo :=
  rows.filter fun t =>
    decide (t.status = "completed") &&
      (match t.completed_at with
       | some c => decide (now - thirtyMinutes ≤ c)
       | none => false)

/-- The snippet inserted for one completed todo (dayOrganizer.js lines
139–147). -/
def todoSnippetOf (t : Todo) (today : Nat) : Snippet :=
  { project_path := jsOrStr t.project_path defaultProjectPath
    snippet_type := if t.category = some "bug" then "bug_fix" else "feature"
    content := todoSnippetContent t
    context := t.description
    snippet_date := today }

/-- Loop body of `captureTodoSnippets` (dayOrganizer.js lines 127–154):
skip when exactly one same-day snippet with the derived content exists,
insert otherwise. -/
def captureTodosGo (today : Nat) : List Todo → DayDB →
    DayDB × List CaptureEvent
  | [], db => (db, [])
  | t :: ts, db =>
    if singleMatch (todoSnippetContent t) today db.snippets then
      captureTodosGo today ts db
    else
      let db' := { db with snippets := db.snippets ++ [todoSnippetOf t today] }
      let (db'', evs) := captureTodosGo today ts db'
      (db'', ⟨.todo, t.id⟩ :: evs)

/-- `captureTodoSnippets` (dayOrganizer.js lines 110–161). -/
def captureTodoSnippets (now : Int) (today : Nat) (db : DayDB) :
    DayDB × List CaptureEvent :=
  captureTodosGo today (captureTodoSel now db.todos) db

/-- The selection query of `captureBugSnippets` (dayOrganizer.js lines
171–175): recently updated fixed bugs. -/
def captureBugSel (now : Int) (rows : List Bug) : List Bug :=
  rows.filter fun b =>
    decide (b.status = "fixed") && decide (now - thirtyMinutes ≤ b.updated_at)

/-- The snippet inserted for one fixed bug (dayOrganizer.js lines
194–202). -/
def bugSnippetOf (b : Bug) (today : Nat) : Snippet :=
  { project_path := jsOrStr b.project_path defaultProjectPath
    snippet_type := "bug_fix"
    content := bugSnippetContent b
    context := some (jsOrDef b.description "" ++
      "\nResolution: " ++ jsOrDef b.resolution "Not documented")
    snippet_date := today }

/-- Loop body of `captureBugSnippets` (dayOrganizer.js lines 183–209). -/
def captureBugsGo (today : Nat) : List Bug → DayDB →
    DayDB × List CaptureEvent
  | [], db => (db, [])
  | b :: bs, db =>
    if singleMatch (bugSnippetContent b) today db.snippets then
      captureBugsGo today bs db
    else
      let db' := { db with snippets := db.snippets ++ [bugSnippetOf b today] }
      let (db'', evs) := captureBugsGo today bs db'
      (db'', ⟨.bug, b.id⟩ :: evs)

/-- `captureBugSnippets` (dayOrganizer.js lines 166–216). -/
def captureBugSnippets (now : Int) (today : Nat) (db : DayDB) :
    DayDB × List CaptureEvent :=
  captureBugsGo today (captureBugSel now db.bugs) db

/-- One full capture step of the day pipeline: knowledge, then todos, then
bugs (runDayOrganization step 1). -/
def captureAll (now : Int) (today : Nat) (db : DayDB) :
    DayDB × List CaptureEvent :=
  let (db1, e1) := captureSnippets now today db
  let (db2, e2) := captureTodoSnippets now today db1
  let (db3, e3) := captureBugSnippets now today db2
  (db3, e1 ++ e2 ++ e3)

/-- The parsed classification verdict `{correct, suggested_category}`. -/
structure Verdict where
  correct : Bool
  suggested_category : Option String := none
  deriving Repr, DecidableEq

/-- The selection query of `organizeSusanBuckets` (dayOrganizer.js lines
225–229): recent rows whose cataloger is null or differs from the pass's
identity. -/
def organizeSelect (now : Int) (rows : List Knowledge) : List Knowledge :=
  rows.filter fun k =>
    decide (now - thirtyMinutes ≤ k.created_at) &&
      (decide (k.cataloger = none) || decide (k.cataloger ≠ some organizerId))

/-- An `update ... eq('id', item.id)` write: apply `f` to the rows whose id
matches the processed item's. -/
def organizeWrite (item : Knowledge) (f : Knowledge → Knowledge)
    (rows : List Knowledge) : List Knowledge :=
  rows.map fun r => if r.id = item.id then f r else r

/-- One iteration of the reclassification loop (dayOrganizer.js lines
237–280).  `ai` bundles the collaborator call and the `JSON.parse` of its
response; `.error` models either failing, in which case nothing is
written. -/
def organizeStep (ai : Knowledge → Except Unit Verdict) (now : Int)
    (rows : List Knowledge) (item : Knowledge) : List Knowledge × Nat :=
  if item.cataloger = some organizerId then (rows, 0)
  else
    match ai item with
    | .error _ => (rows, 0)
    | .ok v =>
      if v.correct = false ∧ jsTruthy v.suggested_category then
        (organizeWrite item
          (fun r => { r with category := v.suggested_category,
                             cataloger := some organizerId,
                             updated_at := now }) rows, 1)
      else
        (organizeWrite item
          (fun r => { r with cataloger := some organizerId }) rows, 0)

/-- The reclassification loop over the already-selected items. -/
def organizeGo (ai : Knowledge → Except Unit Verdict) (now : Int) :
    List Knowledge → List Knowledge → List Knowledge × Nat
  | [], rows => (rows, 0)
  | item :: items, rows =>
    let (rows', n) := organizeStep ai now rows item
    let (rows'', m) := organizeGo ai now items rows'
    (rows'', n + m)

/-- `organizeSusanBuckets` (dayOrganizer.js lines 221–283): run the
reclassification loop over the selected items; returns the updated table
and the count of recategorized items. -/
def organizeSusanBuckets (ai : Knowledge → Except Unit Verdict) (now : Int)
    (rows : List Knowledge) : List Knowledge × Nat :=
  organizeGo ai now (organizeSelect now rows) rows

/-- Process state of the day organizer: the module-level `isRunning` flag
plus the store. -/
structure DayState where
  isRunning : Bool := false
  sched : List ScheduleJob
  db : DayDB
  deriving Repr, DecidableEq

/-- Outcome of a day-organization firing. -/
inductive RunOutcome
  | skippedOverlap
  | completed
  deriving Repr, DecidableEq

/-- The ledger job name of the day pipeline. -/
def dayJobName : String := "Organize Susan Buckets"

/-- `runDayOrganization` (dayOrganizer.js lines 314–364): skip when the
in-process `isRunning` flag is set; otherwise mark the ledger running, run
capture and reclassification (`syncTodoStatus` performs no writes), and
mark the ledger completed. -/
def runDayOrganization (ai : Knowledge → Except Unit Verdict) (now : Int)
    (today : Nat) (s : DayState) : DayState × RunOutcome :=
  if s.isRunning then (s, .skippedOverlap)
  else
    let sched1 := updateJobStatus dayJobName "running" now none none s.sched
    let (db1, _) := captureAll now today s.db
    let (krows, _) := organizeSusanBuckets ai now db1.knowledge
    let db2 := { db1 with knowledge := krows }
    let sched2 :=
      updateJobStatus dayJobName "completed" now (some "success") none sched1
    ({ isRunning := false, sched := sched2, db := db2 }, .completed)

/-- The ledger job name of the night pipeline. -/
def nightJobName : String := "Daily Journal Entry"

/-- `runNightCompilation`'s ledger protocol (nightCompiler, part_003 lines
333–397).  The per-project tab processing touches only non-ledger tables
and is abstracted as its outcome `compile` (project count or thrown
error).  The returned flag records that a compilation run started: it is
always `true` — the function performs no overlap check of any kind. -/
def runNightCompilation (compile : Except String Nat) (now : Int)
    (sched : List ScheduleJob) : List ScheduleJob × Bool :=
  let sched1 := updateJobStatus nightJobName "running" now none none sched
  match compile with
  | .ok n =>
    (updateJobStatus nightJobName "completed" now (some (toString n)) none
      sched1, true)
  | .error e =>
    (updateJobStatus nightJobName "failed" now none (some e) sched1, true)

/-! ## Compilation engine (`src/services/dailySummary.js`)

The nightly job: per active project, gather the trailing 24-hour window of
journal entries, synthesize one document per non-empty category, and
archive the consumed entries with a back-reference to the first document
created for the project. -/

/-- The trailing 24-hour window, in milliseconds. -/
def twentyFourHours : Int := 24 * 60 * 60 * 1000

/-- The compiler's creator identity. -/
def summaryCreator : String := "clair-daily-summary"

/-- A row of `dev_ai_journal`, with the archival columns the service
writes. -/
structure Journal where
  id : Nat
  project_path : String
  entry_type : String
  title : String
  content : String
  created_by : Option String := none
  is_archived : Option Bool := none
  archived_at : Option Int := none
  archived_into : Option Nat := none
  created_at : Int := 0
  deriving Repr, DecidableEq

/-- The store state touched by the nightly job.  `nextId` generates fresh
primary keys for inserted documents; `snippets` is carried to record that
the job never touches `dev_ai_snippets`. -/
structure SummaryDB where
  journal : List Journal
  snippets : List Snippet
  nextId : Nat
  deriving Repr, DecidableEq

/-- The row filter of `getRecentJournalEntries` (dailySummary.js lines
21–28): same project, last 24 hours, not compiler-created, not
archived. -/
def journalSel (now : Int) (p : String) (e : Journal) : Bool :=
  decide (e.project_path = p) &&
    decide (now - twentyFourHours ≤ e.created_at) &&
    decide (e.created_by ≠ some summaryCreator) &&
    (decide (e.is_archived = none) || decide (e.is_archived = some false))

/-- `getRecentJournalEntries` (dailySummary.js lines 18–32): the filtered
rows ordered by `created_at` ascending. -/
def getRecentJournalEntries (now : Int) (db : SummaryDB) (p : String) :
    List Journal :=
  sortRows (fun a b => decide (a.created_at < b.created_at))
    (db.journal.filter (journalSel now p))

/-- JavaScript `[...new Set(xs)]`: deduplicate keeping first occurrences. -/
def jsSetDedup (l : List String) : List String :=
  l.foldl (fun acc p => if p ∈ acc then acc else acc ++ [p]) []

/-- The row filter of `getActiveProjects` (dailySummary.js lines 37–42):
as `journalSel` without the project restriction. -/
def activeSel (now : Int) (e : Journal) : Bool :=
  decide (now - twentyFourHours ≤ e.created_at) &&
    decide (e.created_by ≠ some summaryCreator) &&
    (decide (e.is_archived = none) || decide (e.is_archived = some false))

/-- `getActiveProjects` (dailySummary.js lines 34–46): distinct project
paths of the selectable rows. -/
def getActiveProjects (now : Int) (db : SummaryDB) : List String :=
  jsSetDedup ((db.journal.filter (activeSel now)).map (·.project_path))

/-- `archiveEntries` (dailySummary.js lines 48–59): mark the rows with the
given ids archived, `archived_into` pointing at `summaryId`. -/
def archiveEntries (now : Int) (entryIds : List Nat) (summaryId : Nat)
    (rows : List Journal) : List Journal :=
  if entryIds = [] then rows
  else
    rows.map fun e =>
      if e.id ∈ entryIds then
        { e with is_archived := some true, archived_at := some now,
                 archived_into := some summaryId }
      else e

/-- `categoryTitles` (dailySummary.js lines 64–69); absent keys render as
JavaScript `undefined`. -/
def categoryTitle (c : String) : String :=
  match c with
  | "work_log" => "Work Log"
  | "decision" => "Decisions"
  | "idea" => "Ideas & Proposals"
  | "lesson" => "Lessons Learned"
  | _ => "undefined"

/-- `categoryLabels` (dailySummary.js lines 153–158). -/
def categoryLabel (c : String) : String :=
  match c with
  | "work_log" => "📋 Work Log"
  | "decision" => "🎯 Decisions"
  | "idea" => "💡 Ideas"
  | "lesson" => "📚 Lessons"
  | _ => "undefined"

/-- One formatted entry block (dailySummary.js lines 71–76); the
locale-and-timezone-dependent `toLocaleTimeString` rendering is the
parameter `fmtTime`. -/
def formatEntry (fmtTime : Int → String) (e : Journal) : String :=
  "### " ++ fmtTime e.created_at ++ " - " ++ e.title ++ "\n" ++ e.content
    ++ "\n"

/-- JavaScript `array.join("\n")`. -/
def joinNL : List String → String
  | [] => ""
  | [x] => x
  | x :: xs => x ++ "\n" ++ joinNL xs

/-- `formattedEntries` (dailySummary.js lines 71–76): the timestamp-ordered
raw concatenation of the entries. -/
def formattedEntries (fmtTime : Int → String) (entries : List Journal) :
    String :=
  joinNL (entries.map (formatEntry fmtTime))

/-- The synthesis prompt of `generateCategoryDoc` (dailySummary.js lines
78–91). -/
def categoryPrompt (projectName category today fe : String) : String :=
  "Organize these " ++ categoryTitle category ++ " entries for \"" ++
    projectName ++ "\" from " ++ today ++ ".\n\nRULES:\n- ONLY use the " ++
    "information provided - do NOT invent anything\n- Keep ALL important " ++
    "details\n- Organize logically with clear structure\n- Include " ++
    "timestamps\n- Remove redundancy\n- Be concise but complete\n\nRaw " ++
    "entries:\n" ++ fe ++ "\n\nCreate a clean, organized document:"

/-- `generateCategoryDoc` (dailySummary.js lines 61–99): `null` on an empty
category; otherwise the collaborator's text, falling back to the raw
concatenation when the call throws. -/
def generateCategoryDoc (ai : String → Except Unit String)
    (fmtTime : Int → String) (projectName category : String)
    (entries : List Journal) (today : String) : Option String :=
  if entries.isEmpty then none
  else
    let fe := formattedEntries fmtTime entries
    some (match ai (categoryPrompt projectName category today fe) with
      | .ok r => r
      | .error _ => fe)

/-- `createVersionedDoc` (dailySummary.js lines 101–116): insert a new
compiler-created journal row and return it. -/
def createVersionedDoc (db : SummaryDB) (p category title content : String)
    (now : Int) : SummaryDB × Journal :=
  let doc : Journal :=
    { id := db.nextId, project_path := p, entry_type := category,
      title := title, content := content,
      created_by := some summaryCreator, created_at := now }
  ({ db with journal := db.journal ++ [doc], nextId := db.nextId + 1 }, doc)

/-- The fixed category order of the per-project loop (dailySummary.js lines
146–151: object-literal insertion order). -/
def summaryCategories : List String := ["work_log", "decision", "idea", "lesson"]

/-- The per-category loop of `runDailySummary` (dailySummary.js lines
161–177): skip empty categories, create a document from the synthesized
(or fallback) content when it is truthy, collecting created doc ids in
order. -/
def processCategories (ai : String → Except Unit String)
    (fmtTime : Int → String) (now : Int) (today projectName p : String)
    (entries : List Journal) (db : SummaryDB) :
    List String → SummaryDB × List Nat
  | [] => (db, [])
  | c :: cs =>
    let catEntries := entries.filter fun e => decide (e.entry_type = c)
    if catEntries.isEmpty then
      processCategories ai fmtTime now today projectName p entries db cs
    else
      match generateCategoryDoc ai fmtTime projectName c catEntries today with
      | none =>
        processCategories ai fmtTime now today projectName p entries db cs
      | some content =>
        if content = "" then
          processCategories ai fmtTime now today projectName p entries db cs
        else
          let (db', doc) := createVersionedDoc db p c
            (categoryLabel c ++ " - " ++ today) content now
          let (db'', ids) :=
            processCategories ai fmtTime now today projectName p entries db' cs
          (db'', doc.id :: ids)

/-- The per-project report pushed onto `results.docs` (extended with the
ghost lists of consumed entry ids and created doc ids). -/
structure ProjReport where
  project : String
  entryIds : List Nat
  docIds : List Nat
  deriving Repr, DecidableEq

/-- The per-project body of `runDailySummary` (dailySummary.js lines
139–184): fetch entries (`[]` when the fetch errors), skip the project when
empty, create per-category docs, and archive all fetched entries into the
first created doc. -/
def processProject (ai : String → Except Unit String)
    (fmtTime : Int → String) (fetchErr : String → Bool) (now : Int)
    (today : String) (db : SummaryDB) (projectPath : String) :
    SummaryDB × Option ProjReport :=
  let entries :=
    if fetchErr projectPath then []
    else getRecentJournalEntries now db projectPath
  if entries.isEmpty then (db, none)
  else
    let projectName := ((projectPath.splitOn "/").getLastD "")
    let (db1, docIds) := processCategories ai fmtTime now today projectName
      projectPath entries db summaryCategories
    let db2 :=
      match docIds with
      | [] => db1
      | d :: _ =>
        { db1 with
          journal := archiveEntries now (entries.map (·.id)) d db1.journal }
    (db2, some ⟨projectPath, entries.map (·.id), docIds⟩)

/-- The project loop of `runDailySummary`. -/
def runProjectsGo (ai : String → Except Unit String)
    (fmtTime : Int → String) (fetchErr : String → Bool) (now : Int)
    (today : String) : List String → SummaryDB →
    SummaryDB × List ProjReport
  | [], db => (db, [])
  | p :: ps, db =>
    match processProject ai fmtTime fetchErr now today db p with
    | (db', r?) =>
      let (db'', rs) := runProjectsGo ai fmtTime fetchErr now today ps db'
      (db'', match r? with | none => rs | some r => r :: rs)

/-- `runDailySummary` (dailySummary.js lines 118–196), journal-processing
step (the project-record sync touches only `dev_projects`): process every
active project in turn. -/
def runDailySummary (ai : String → Except Unit String)
    (fmtTime : Int → String) (fetchErr : String → Bool) (now : Int)
    (today : String) (db : SummaryDB) : SummaryDB × List ProjReport :=
  runProjectsGo ai fmtTime fetchErr now today (getActiveProjects now db) db

/-! ## Concrete sample rows and environments used by closed statements -/

/-- A classification collaborator that always fails. -/
def noVerdict : Knowledge → Except Unit Verdict := fun _ => .error ()

/-- A classification collaborator failing exactly on item 1. -/
def failOn1 : Knowledge → Except Unit Verdict :=
  fun k => if k.id = 1 then .error () else .ok { correct := true }

/-- An empty daytime store. -/
def emptyDayDB : DayDB :=
  { knowledge := [], todos := [], bugs := [], snippets := [] }

/-- A ledger whose day-job row is stuck at status `running`. -/
def runningSched : List ScheduleJob :=
  [{ job_name := dayJobName, status := "running", last_run_at := some 1000 }]

/-- Day-organizer state: stored status `running`, in-process flag clear. -/
def runningDayState : DayState :=
  { isRunning := false, sched := runningSched, db := emptyDayDB }

/-- A ledger whose night-job row is stuck at status `running`. -/
def nightRunningSched : List ScheduleJob :=
  [{ job_name := nightJobName, status := "running", last_run_at := some 1000 }]

/-- A knowledge row created at time 0 and never stamped. -/
def c6Item : Knowledge :=
  { id := 1, project_path := "/p", title := "t", created_at := 0 }

/-- A second selectable knowledge row whose verdict parses. -/
def c6Item2 : Knowledge :=
  { id := 2, project_path := "/p", title := "u", created_at := 0 }

/-- A knowledge row already stamped by the reclassification pass. -/
def c8Item : Knowledge :=
  { id := 5, project_path := "/p", title := "x",
    cataloger := some "clair-day-organizer", created_at := 0 }

/-- A knowledge row whose derived snippet content is `"T"`. -/
def cxKnow : Knowledge :=
  { id := 1, project_path := "/p", title := "T", created_at := 0 }

/-- A store already holding a day-7 snippet with content `"T"`. -/
def cxCaptureDB : DayDB :=
  { knowledge := [cxKnow], todos := [], bugs := []
    snippets := [{ project_path := "/p", snippet_type := "conversation",
                   content := "T", snippet_date := 7 }] }

/-- Sample knowledge row for double-capture runs. -/
def wKnow : Knowledge :=
  { id := 1, project_path := "/p", title := "K", created_at := 0 }

/-- Sample completed todo. -/
def wTodo : Todo :=
  { id := 2, project_path := "/p", title := "do it", status := "completed",
    completed_at := some 0 }

/-- Sample fixed bug. -/
def wBug : Bug :=
  { id := 3, project_path := "/p", title := "crash", status := "fixed",
    updated_at := 0 }

/-- Daytime store with one row of each source kind and no snippets. -/
def wDayDB : DayDB :=
  { knowledge := [wKnow], todos := [wTodo], bugs := [wBug], snippets := [] }

/-- Two same-category knowledge rows with identical titles. -/
def kIdentA : Knowledge :=
  { id := 11, project_path := "/var/www/p", title := "Refactor auth flow",
    category := some "refactor", created_at := 100 }

/-- See `kIdentA`. -/
def kIdentB : Knowledge :=
  { id := 12, project_path := "/var/www/p", title := "Refactor auth flow",
    category := some "refactor", created_at := 50 }

/-- `"Fix login bug"` row of the spec's worked example. -/
def kLoginA : Knowledge :=
  { id := 21, project_path := "/var/www/p", title := "Fix login bug",
    category := some "bug-fix", created_at := 100 }

/-- `"Fix login bugs"` row of the spec's worked example. -/
def kLoginB : Knowledge :=
  { id := 22, project_path := "/var/www/p", title := "Fix login bugs",
    category := some "bug-fix", created_at := 50 }

/-- Same-category, identically-titled rows from two different projects. -/
def kCrossA : Knowledge :=
  { id := 31, project_path := "/var/www/alpha", title := "Add caching layer",
    category := some "performance", created_at := 100 }

/-- See `kCrossA`. -/
def kCrossB : Knowledge :=
  { id := 32, project_path := "/var/www/beta", title := "Add caching layer",
    category := some "performance", created_at := 50 }

/-- A user-created journal entry at time 0. -/
def wEntry : Journal :=
  { id := 1, project_path := "/proj/alpha", entry_type := "work_log",
    title := "did things", content := "stuff", created_at := 0 }

/-- Nightly store with the single entry `wEntry`. -/
def wSummaryDB : SummaryDB :=
  { journal := [wEntry], snippets := [], nextId := 10 }

/-- A synthesis collaborator that always succeeds with fixed text. -/
def wAiOk : String → Except Unit String := fun _ => .ok "doc text"

/-- A synthesis collaborator that always fails. -/
def wAiFail : String → Except Unit String := fun _ => .error ()

/-- A concrete timestamp renderer. -/
def wFmt : Int → String := fun t => toString t

/-- No store fetch failures. -/
def noFetchErr : String → Bool := fun _ => false

/-- The report the compiler produces for `wSummaryDB`'s only project. -/
def wReport : ProjReport :=
  { project := "/proj/alpha", entryIds := [1], docIds := [10] }

/-- A synthesis collaborator that succeeds with empty text. -/
def wAiEmpty : String → Except Unit String := fun _ => .ok ""

/-! # Theorems -/

/-! ## C1 — overlap guard -/

/-- C1 fails on the code at a concrete state: with the ledger row of the
day job stored as `running` but the in-process flag clear (the state after
a restart), a firing is not skipped — it runs, rewrites the status and
overwrites `last_run_at`; and a night firing never checks the ledger at
all. -/
theorem c1_counterexample :
    runningDayState.sched.map ScheduleJob.status = ["running"] ∧
    (runDayOrganization noVerdict 2000 10 runningDayState).2 =
      RunOutcome.completed ∧
    (runDayOrganization noVerdict 2000 10 runningDayState).1.sched.map
      ScheduleJob.status = ["completed"] ∧
    (runDayOrganization noVerdict 2000 10 runningDayState).1.sched.map
      ScheduleJob.last_run_at = [some 2000] ∧
    nightRunningSched.map ScheduleJob.status = ["running"] ∧
    (runNightCompilation (.ok 0) 2000 nightRunningSched).2 = true ∧
    (runNightCompilation (.ok 0) 2000 nightRunningSched).1.map
      ScheduleJob.last_run_at = [some 2000] := by
  decide

/-- C1 (amended): the overlap guard of the day job consults only the
in-process `isRunning` flag — while it is set, a firing is a no-op skip
leaving the entire state (ledger row included) unchanged; the stored
ledger status plays no part, and the night-compilation job starts a run
unconditionally. -/
theorem c1_amended_overlap_guard :
    (∀ (ai : Knowledge → Except Unit Verdict) (now : Int) (today : Nat)
        (s : DayState), s.isRunning = true →
        runDayOrganization ai now today s = (s, .skippedOverlap)) ∧
    (∀ (compile : Except String Nat) (now : Int)
        (sched : List ScheduleJob),
        (runNightCompilation compile now sched).2 = true) := by
  constructor
  · intro ai now today s h
    simp [runDayOrganization, h]
  · intro compile now sched
    cases compile <;> rfl

/-- Witness for `c1_amended_overlap_guard` at a concrete in-flight state. -/
theorem c1_amended_witness :
    ({ runningDayState with isRunning := true } : DayState).isRunning =
      true ∧
    runDayOrganization noVerdict 0 0
        { runningDayState with isRunning := true } =
      ({ runningDayState with isRunning := true }, .skippedOverlap) ∧
    (runNightCompilation (.error "boom") 5 nightRunningSched).2 = true :=
  ⟨rfl, c1_amended_overlap_guard.1 _ _ _ _ rfl,
    c1_amended_overlap_guard.2 _ _ _⟩

/-! ## Reclassification pass — shared lemmas (C6, C8) -/

/-- The updated rows of a reclassification write keep every id. -/
theorem map_upd_ids (rows : List Knowledge) (f : Knowledge → Knowledge)
    (hf : ∀ r, (f r).id = r.id) :
    (rows.map f).map Knowledge.id = rows.map Knowledge.id := by
  rw [List.map_map]
  exact List.map_congr_left fun r _ => hf r

/-- `organizeWrite` preserves the id column whenever `f` does. -/
theorem organizeWrite_ids (item : Knowledge) (f : Knowledge → Knowledge)
    (rows : List Knowledge) (hf : ∀ r, (f r).id = r.id) :
    (organizeWrite item f rows).map Knowledge.id = rows.map Knowledge.id :=
  map_upd_ids rows _ fun r => by
    by_cases h : r.id = item.id <;> simp [h, hf]

/-- `organizeWrite` leaves rows with a different id unchanged. -/
theorem organizeWrite_untouched (item : Knowledge)
    (f : Knowledge → Knowledge) (rows : List Knowledge) (i : Nat)
    (hf : ∀ r, (f r).id = r.id) (hne : item.id ≠ i) :
    ∀ r ∈ organizeWrite item f rows, r.id = i → r ∈ rows := by
  intro r hr hri
  obtain ⟨r₀, hr₀, rfl⟩ := List.mem_map.mp hr
  by_cases h : r₀.id = item.id
  · rw [if_pos h] at hri ⊢
    exact absurd ((hf r₀ ▸ hri : r₀.id = i) ▸ h.symm) (Ne.symm hne ∘ Eq.symm)
  · rw [if_neg h]
    exact hr₀

/-- The shape of the four possible outcomes of `organizeStep`. -/
theorem organizeStep_shape (ai : Knowledge → Except Unit Verdict) (now : Int)
    (rows : List Knowledge) (item : Knowledge) :
    (organizeStep ai now rows item).1 = rows ∨
      ∃ f : Knowledge → Knowledge,
        (organizeStep ai now rows item).1 = organizeWrite item f rows ∧
          (∀ r, (f r).id = r.id) ∧
          (∀ r, (f r).cataloger = some organizerId) := by
  by_cases h1 : item.cataloger = some organizerId
  · left; simp [organizeStep, h1]
  · cases hai : ai item with
    | error e => left; simp [organizeStep, h1, hai]
    | ok v =>
      by_cases hc : v.correct = false ∧ jsTruthy v.suggested_category = true
      · right
        exact ⟨fun r =>
          { r with category := v.suggested_category,
                   cataloger := some organizerId, updated_at := now },
          by simp [organizeStep, h1, hai, hc], fun r => rfl, fun r => rfl⟩
      · right
        exact ⟨fun r => { r with cataloger := some organizerId },
          by simp only [organizeStep, if_neg h1, hai, if_neg hc],
          fun r => rfl, fun r => rfl⟩

/-- A skipped or failed item writes nothing. -/
theorem organizeStep_noop (ai : Knowledge → Except Unit Verdict) (now : Int)
    (rows : List Knowledge) (item : Knowledge)
    (h : item.cataloger = some organizerId ∨ ai item = .error ()) :
    (organizeStep ai now rows item).1 = rows := by
  rcases h with h | h
  · simp [organizeStep, h]
  · by_cases h1 : item.cataloger = some organizerId
    · simp [organizeStep, h1]
    · simp [organizeStep, h1, h]

/-- `organizeStep` preserves the id column. -/
theorem organizeStep_ids (ai : Knowledge → Except Unit Verdict) (now : Int)
    (rows : List Knowledge) (item : Knowledge) :
    ((organizeStep ai now rows item).1).map Knowledge.id =
      rows.map Knowledge.id := by
  rcases organizeStep_shape ai now rows item with h | ⟨f, h, hid, _⟩
  · rw [h]
  · rw [h]
    exact organizeWrite_ids item f rows hid

/-- A write for `item` leaves every row with a different id unchanged. -/
theorem organizeStep_untouched (ai : Knowledge → Except Unit Verdict)
    (now : Int) (rows : List Knowledge) (item : Knowledge) (i : Nat)
    (hne : item.id ≠ i) :
    ∀ r ∈ (organizeStep ai now rows item).1, r.id = i → r ∈ rows := by
  rcases organizeStep_shape ai now rows item with h | ⟨f, h, hid, _⟩
  · rw [h]; exact fun r hr _ => hr
  · rw [h]
    exact organizeWrite_untouched item f rows i hid hne

/-- Rows with id `i` keep a stamped cataloger across an `organizeWrite`
whose update stamps the cataloger. -/
theorem organizeWrite_keeps (item : Knowledge) (f : Knowledge → Knowledge)
    (rows : List Knowledge) (i : Nat) (_hid : ∀ r, (f r).id = r.id)
    (hst : ∀ r, (f r).cataloger = some organizerId)
    (h : ∀ r ∈ rows, r.id = i → r.cataloger = some organizerId) :
    ∀ r ∈ organizeWrite item f rows, r.id = i →
      r.cataloger = some organizerId := by
  intro r hr hri
  obtain ⟨r₀, hr₀, rfl⟩ := List.mem_map.mp hr
  by_cases hcase : r₀.id = item.id
  · rw [if_pos hcase]
    exact hst r₀
  · rw [if_neg hcase] at hri ⊢
    exact h r₀ hr₀ hri

/-- Every row with the processed item's id is stamped by an
`organizeWrite` whose update stamps the cataloger. -/
theorem organizeWrite_stamps (item : Knowledge) (f : Knowledge → Knowledge)
    (rows : List Knowledge) (_hid : ∀ r, (f r).id = r.id)
    (hst : ∀ r, (f r).cataloger = some organizerId) :
    ∀ r ∈ organizeWrite item f rows, r.id = item.id →
      r.cataloger = some organizerId := by
  intro r hr hri
  obtain ⟨r₀, hr₀, rfl⟩ := List.mem_map.mp hr
  by_cases hcase : r₀.id = item.id
  · rw [if_pos hcase]
    exact hst r₀
  · rw [if_neg hcase] at hri
    exact absurd hri hcase

/-- A stamped-cataloger property of rows with id `i` survives one
`organizeStep`. -/
theorem organizeStep_keeps (ai : Knowledge → Except Unit Verdict)
    (now : Int) (rows : List Knowledge) (item : Knowledge) (i : Nat)
    (h : ∀ r ∈ rows, r.id = i → r.cataloger = some organizerId) :
    ∀ r ∈ (organizeStep ai now rows item).1, r.id = i →
      r.cataloger = some organizerId := by
  rcases organizeStep_shape ai now rows item with hsh | ⟨f, hsh, hid, hst⟩
  · rw [hsh]; exact h
  · rw [hsh]
    exact organizeWrite_keeps item f rows i hid hst h

/-- An unstamped item with a parsed verdict is stamped by its own step. -/
theorem organizeStep_stamps (ai : Knowledge → Except Unit Verdict)
    (now : Int) (rows : List Knowledge) (item : Knowledge) (v : Verdict)
    (hyc : item.cataloger ≠ some organizerId) (hv : ai item = .ok v) :
    ∀ r ∈ (organizeStep ai now rows item).1, r.id = item.id →
      r.cataloger = some organizerId := by
  by_cases hc : v.correct = false ∧ jsTruthy v.suggested_category = true
  · have hsh : (organizeStep ai now rows item).1 =
        organizeWrite item
          (fun r => { r with category := v.suggested_category,
                             cataloger := some organizerId,
                             updated_at := now }) rows := by
      simp [organizeStep, hyc, hv, hc]
    rw [hsh]
    exact organizeWrite_stamps item _ rows (fun r => rfl) (fun r => rfl)
  · have hsh : (organizeStep ai now rows item).1 =
        organizeWrite item
          (fun r => { r with cataloger := some organizerId }) rows := by
      simp only [organizeStep, if_neg hyc, hv, if_neg hc]
    rw [hsh]
    exact organizeWrite_stamps item _ rows (fun r => rfl) (fun r => rfl)

/-- The reclassification loop preserves the id column. -/
theorem organizeGo_ids (ai : Knowledge → Except Unit Verdict) (now : Int) :
    ∀ (items rows : List Knowledge),
      ((organizeGo ai now items rows).1).map Knowledge.id =
        rows.map Knowledge.id
  | [], rows => rfl
  | item :: items, rows => by
    rcases hs : organizeStep ai now rows item with ⟨rows', n⟩
    have h1 := organizeGo_ids ai now items rows'
    have h2 := organizeStep_ids ai now rows item
    rw [hs] at h2
    rcases hg : organizeGo ai now items rows' with ⟨rows'', m⟩
    rw [hg] at h1
    simp only [organizeGo, hs, hg]
    exact h1.trans h2

/-- Rows whose id is only processed as a skip or a failure are left in the
table unchanged by the whole loop. -/
theorem organizeGo_frame (ai : Knowledge → Except Unit Verdict) (now : Int)
    (i : Nat) :
    ∀ (items rows : List Knowledge),
      (∀ item ∈ items, item.id = i →
        item.cataloger = some organizerId ∨ ai item = .error ()) →
      ∀ r ∈ (organizeGo ai now items rows).1, r.id = i → r ∈ rows
  | [], rows, _ => by
    intro r hr _
    simpa [organizeGo] using hr
  | item :: items, rows, h => by
    rcases hs : organizeStep ai now rows item with ⟨rows', n⟩
    rcases hg : organizeGo ai now items rows' with ⟨rows'', m⟩
    intro r hr hri
    have hr'' : r ∈ rows'' := by simpa [organizeGo, hs, hg] using hr
    have ih := organizeGo_frame ai now i items rows'
      (fun it hit hid => h it (List.mem_cons_of_mem _ hit) hid)
    have hmem' : r ∈ rows' := by
      refine ih r ?_ hri
      rw [hg]
      exact hr''
    by_cases hii : item.id = i
    · have hnoop := organizeStep_noop ai now rows item (h item (List.mem_cons_self _ _) hii)
      rw [hs] at hnoop
      exact hnoop ▸ hmem'
    · have hu := organizeStep_untouched ai now rows item i hii
      rw [hs] at hu
      exact hu r hmem' hri

/-- A stamped-cataloger property of rows with id `i` survives the loop. -/
theorem organizeGo_keeps (ai : Knowledge → Except Unit Verdict) (now : Int)
    (i : Nat) :
    ∀ (items rows : List Knowledge),
      (∀ r ∈ rows, r.id = i → r.cataloger = some organizerId) →
      ∀ r ∈ (organizeGo ai now items rows).1, r.id = i →
        r.cataloger = some organizerId
  | [], rows, h => by
    intro r hr
    exact h r (by simpa [organizeGo] using hr)
  | item :: items, rows, h => by
    rcases hs : organizeStep ai now rows item with ⟨rows', n⟩
    rcases hg : organizeGo ai now items rows' with ⟨rows'', m⟩
    intro r hr hri
    have hkeep := organizeStep_keeps ai now rows item i h
    rw [hs] at hkeep
    have ih := organizeGo_keeps ai now i items rows' hkeep
    rw [hg] at ih
    exact ih r (by simpa [organizeGo, hs, hg] using hr) hri

/-- An unstamped selected item with a parsed verdict ends the loop with
its cataloger stamped. -/
theorem organizeGo_stamps (ai : Knowledge → Except Unit Verdict)
    (now : Int) :
    ∀ (items rows : List Knowledge) (y : Knowledge), y ∈ items →
      y.cataloger ≠ some organizerId → (∃ v, ai y = .ok v) →
      ∀ r ∈ (organizeGo ai now items rows).1, r.id = y.id →
        r.cataloger = some organizerId
  | [], _, y, hy, _, _ => absurd hy (List.not_mem_nil y)
  | item :: items, rows, y, hy, hyc, hok => by
    rcases hs : organizeStep ai now rows item with ⟨rows', n⟩
    rcases hg : organizeGo ai now items rows' with ⟨rows'', m⟩
    intro r hr hri
    have hr'' : r ∈ rows'' := by simpa [organizeGo, hs, hg] using hr
    rcases List.mem_cons.mp hy with rfl | hy'
    · obtain ⟨v, hv⟩ := hok
      have hstamp := organizeStep_stamps ai now rows y v hyc hv
      rw [hs] at hstamp
      have ih := organizeGo_keeps ai now y.id items rows' hstamp
      rw [hg] at ih
      exact ih r hr'' hri
    · have ih := organizeGo_stamps ai now items rows' y hy' hyc hok
      rw [hg] at ih
      exact ih r hr'' hri

/-- Distinct ids identify rows uniquely. -/
theorem rows_id_inj {rows : List Knowledge}
    (hnd : (rows.map Knowledge.id).Nodup) {a b : Knowledge} (ha : a ∈ rows)
    (hb : b ∈ rows) (h : a.id = b.id) : a = b :=
  List.inj_on_of_nodup_map hnd ha hb h

/-- Membership characterization of the reclassification selection. -/
theorem mem_organizeSelect_iff (now : Int) (rows : List Knowledge)
    (y : Knowledge) :
    y ∈ organizeSelect now rows ↔
      y ∈ rows ∧ now - thirtyMinutes ≤ y.created_at ∧
        (y.cataloger = none ∨ y.cataloger ≠ some organizerId) := by
  simp [organizeSelect, List.mem_filter]

/-- A selected item is not stamped with the pass identity. -/
theorem organizeSelect_not_stamped {now : Int} {rows : List Knowledge}
    {y : Knowledge} (h : y ∈ organizeSelect now rows) :
    y.cataloger ≠ some organizerId := by
  rcases ((mem_organizeSelect_iff now rows y).mp h).2.2 with h' | h'
  · simp [h']
  · exact h'

/-- `splitGo` never returns the empty list. -/
theorem splitGo_ne_nil (l : List Char) (m : Bool) (cur : List Char) :
    splitGo l m cur ≠ [] := by
  induction l generalizing m cur with
  | nil => cases m <;> simp [splitGo]
  | cons c cs ih =>
    cases m <;> simp only [splitGo] <;> split <;> simp [ih]

/-- `jsSplitWS` never returns the empty list. -/
theorem jsSplitWS_ne_nil (s : String) : jsSplitWS s ≠ [] :=
  splitGo_ne_nil _ _ _



/-! ### Lemmas about the deduplicator -/

/-- The word set of any string is nonempty. -/
theorem titleWords_nonempty (s : String) : (titleWords s).Nonempty := by
  obtain ⟨w, ws, h⟩ := List.exists_cons_of_ne_nil (jsSplitWS_ne_nil s)
  exact ⟨w, by simp [titleWords, h]⟩

/-- Jaccard similarity of a string with itself is `1`. -/
theorem calculateSimilarity_self (s : String) : calculateSimilarity s s = 1 := by
  unfold calculateSimilarity
  rw [Finset.inter_self, Finset.union_self]
  have h : ((titleWords s).card : ℚ) ≠ 0 := by
    exact_mod_cast Finset.card_ne_zero.mpr (titleWords_nonempty s)
  exact div_self h

/-- Behaviour of the deduplicator on a two-element window of same-category
items: one merge correction when the lowercased-title similarity reaches the
threshold, none otherwise. -/
theorem flagDuplicateKnowledge_pair (a b : Knowledge)
    (hcat : a.category = b.category) :
    flagDuplicateKnowledge [a, b] =
      if duplicateSimilarity ≤
          calculateSimilarity (jsToLower a.title) (jsToLower b.title) then
        [mergeCorrectionOf
          ⟨a, [⟨b.id, b.title,
                calculateSimilarity (jsToLower a.title) (jsToLower b.title)⟩]⟩]
      else [] := by
  have h2 : ¬ ([a, b].length < 2) := by simp
  rw [flagDuplicateKnowledge, if_neg h2]
  simp only [clusterDuplicates, findSimilarAux, List.not_mem_nil, if_false,
    if_pos hcat]
  split
  · simp [clusterDuplicates, List.mem_cons]
  · simp [clusterDuplicates, findSimilarAux]

/-- Ordered insertion is a permutation of consing. -/
theorem insertSorted_perm {α : Type} (before : α → α → Bool) (a : α)
    (l : List α) : (insertSorted before a l).Perm (a :: l) := by
  induction l with
  | nil => simp [insertSorted]
  | cons x xs ih =>
    rw [insertSorted]
    split
    · exact List.Perm.refl _
    · exact ((ih.cons x).trans (List.Perm.swap a x xs))

/-- The insertion sort modelling `order by` permutes its input. -/
theorem sortRows_perm {α : Type} (before : α → α → Bool) (l : List α) :
    (sortRows before l).Perm l := by
  induction l with
  | nil => simp [sortRows]
  | cons x xs ih =>
    exact (insertSorted_perm before x _).trans (List.Perm.cons x ih)

/-- Every row of the deduplication window comes from the table, and the
window holds the first 500 rows of the descending sort. -/
theorem knowledgeWindow_sub (rows : List Knowledge) :
    (∀ k ∈ knowledgeWindow rows, k ∈ rows) ∧
      (knowledgeWindow rows).length = min 500 rows.length := by
  constructor
  · intro k hk
    exact (sortRows_perm _ rows).mem_iff.mp (List.mem_of_mem_take hk)
  · rw [knowledgeWindow, List.length_take, (sortRows_perm _ rows).length_eq]

/-! ## C8 — rerunning the pass writes nothing to a stamped item -/

/-- C8: a knowledge item whose cataloger already equals
`clair-day-organizer` is not selected and not written by a rerun of the
reclassification pass: the resulting table still contains a row with its
id, and every row with its id is exactly the original item, every field
unchanged. -/
theorem stamped_item_rerun_no_write (ai : Knowledge → Except Unit Verdict)
    (now : Int) (rows : List Knowledge)
    (hnd : (rows.map Knowledge.id).Nodup) (k : Knowledge) (hk_mem : k ∈ rows)
    (hk : k.cataloger = some organizerId) :
    (∃ r ∈ (organizeSusanBuckets ai now rows).1, r.id = k.id) ∧
      ∀ r ∈ (organizeSusanBuckets ai now rows).1, r.id = k.id → r = k := by
  have hframe : ∀ item ∈ organizeSelect now rows, item.id = k.id →
      item.cataloger = some organizerId ∨ ai item = .error () := by
    intro item hit hid
    have hmem := ((mem_organizeSelect_iff now rows item).mp hit).1
    have heq : item = k := rows_id_inj hnd hmem hk_mem hid
    exact Or.inl (heq ▸ hk)
  constructor
  · have hids := organizeGo_ids ai now (organizeSelect now rows) rows
    have hk_id : k.id ∈
        ((organizeGo ai now (organizeSelect now rows) rows).1).map
          Knowledge.id := by
      rw [hids]
      exact List.mem_map_of_mem _ hk_mem
    obtain ⟨r, hr, hrid⟩ := List.mem_map.mp hk_id
    exact ⟨r, hr, hrid⟩
  · intro r hr hri
    have hr_rows : r ∈ rows :=
      organizeGo_frame ai now k.id (organizeSelect now rows) rows hframe r hr
        hri
    exact rows_id_inj hnd hr_rows hk_mem hri

/-- Witness for `stamped_item_rerun_no_write` on a one-row table. -/
theorem stamped_item_rerun_no_write_witness :
    ([c8Item].map Knowledge.id).Nodup ∧
      c8Item.cataloger = some organizerId ∧
      ((∃ r ∈ (organizeSusanBuckets noVerdict 0 [c8Item]).1, r.id = c8Item.id) ∧
        ∀ r ∈ (organizeSusanBuckets noVerdict 0 [c8Item]).1,
          r.id = c8Item.id → r = c8Item) :=
  ⟨by decide, rfl,
    stamped_item_rerun_no_write noVerdict 0 [c8Item] (by decide) c8Item
      (by decide) rfl⟩

/-! ## C6 — collaborator failure during reclassification -/

/-- C6 fails on the code as stated: item 1 is created at time 0, the pass
at minute 25 selects it, the collaborator fails and leaves it unchanged —
but the next pass at minute 55 selects nothing, because the selection also
filters on `created_at ≥ now − 30 min`: the failed item is not retried. -/
theorem reclassify_retry_counterexample :
    noVerdict c6Item = .error () ∧
      c6Item ∈ organizeSelect (25 * 60 * 1000) [c6Item] ∧
      organizeSusanBuckets noVerdict (25 * 60 * 1000) [c6Item] =
        ([c6Item], 0) ∧
      organizeSelect (55 * 60 * 1000) [c6Item] = [] :=
  ⟨rfl, by decide, by decide, by decide⟩

/-- C6 (amended): a collaborator (or parse) failure for item X leaves X's
row entirely unchanged, the batch still stamps every other selected item
whose verdict parses, and X is selected again by a later pass's query
provided X's `created_at` still lies in that pass's trailing 30-minute
window. -/
theorem reclassify_failure_leaves_item (ai : Knowledge → Except Unit Verdict)
    (now1 now2 : Int) (rows : List Knowledge)
    (hnd : (rows.map Knowledge.id).Nodup) (x : Knowledge)
    (hx_sel : x ∈ organizeSelect now1 rows) (hfail : ai x = .error ()) :
    (∀ r ∈ (organizeSusanBuckets ai now1 rows).1, r.id = x.id → r = x) ∧
      (∀ y ∈ organizeSelect now1 rows, (∃ v, ai y = .ok v) →
        ∀ r ∈ (organizeSusanBuckets ai now1 rows).1, r.id = y.id →
          r.cataloger = some organizerId) ∧
      (now2 - thirtyMinutes ≤ x.created_at →
        x ∈ organizeSelect now2 (organizeSusanBuckets ai now1 rows).1) := by
  have hx_mem : x ∈ rows := ((mem_organizeSelect_iff now1 rows x).mp hx_sel).1
  have hframe : ∀ item ∈ organizeSelect now1 rows, item.id = x.id →
      item.cataloger = some organizerId ∨ ai item = .error () := by
    intro item hit hid
    have hmem := ((mem_organizeSelect_iff now1 rows item).mp hit).1
    have heq : item = x := rows_id_inj hnd hmem hx_mem hid
    exact Or.inr (heq ▸ hfail)
  have hpart1 : ∀ r ∈ (organizeSusanBuckets ai now1 rows).1, r.id = x.id →
      r = x := by
    intro r hr hri
    have hr_rows : r ∈ rows :=
      organizeGo_frame ai now1 x.id (organizeSelect now1 rows) rows hframe r
        hr hri
    exact rows_id_inj hnd hr_rows hx_mem hri
  refine ⟨hpart1, ?_, ?_⟩
  · intro y hy hok r hr hri
    exact organizeGo_stamps ai now1 (organizeSelect now1 rows) rows y hy
      (organizeSelect_not_stamped hy) hok r hr hri
  · intro hwin
    have hids := organizeGo_ids ai now1 (organizeSelect now1 rows) rows
    have hx_id : x.id ∈
        ((organizeGo ai now1 (organizeSelect now1 rows) rows).1).map
          Knowledge.id := by
      rw [hids]
      exact List.mem_map_of_mem _ hx_mem
    obtain ⟨r, hr, hrid⟩ := List.mem_map.mp hx_id
    have hrx : r = x := hpart1 r hr hrid
    have hx_res : x ∈ (organizeSusanBuckets ai now1 rows).1 := hrx ▸ hr
    refine (mem_organizeSelect_iff now2 _ x).mpr ⟨hx_res, hwin, ?_⟩
    exact ((mem_organizeSelect_iff now1 rows x).mp hx_sel).2.2

/-- Witness for `reclassify_failure_leaves_item`: item 1 fails and is left
unchanged, item 2 parses and is stamped, and item 1 is reselected by a
pass 10 ms later. -/
theorem reclassify_failure_leaves_item_witness :
    c6Item ∈ organizeSelect 0 [c6Item, c6Item2] ∧
      failOn1 c6Item = .error () ∧
      ((∀ r ∈ (organizeSusanBuckets failOn1 0 [c6Item, c6Item2]).1,
          r.id = c6Item.id → r = c6Item) ∧
        (∀ y ∈ organizeSelect 0 [c6Item, c6Item2],
          (∃ v, failOn1 y = .ok v) →
          ∀ r ∈ (organizeSusanBuckets failOn1 0 [c6Item, c6Item2]).1,
            r.id = y.id → r.cataloger = some organizerId) ∧
        (10 - thirtyMinutes ≤ c6Item.created_at →
          c6Item ∈ organizeSelect 10
            (organizeSusanBuckets failOn1 0 [c6Item, c6Item2]).1)) :=
  ⟨by decide, rfl,
    reclassify_failure_leaves_item failOn1 0 10 [c6Item, c6Item2] (by decide)
      c6Item (by decide) rfl⟩

/-! ## C7 — similarity threshold drives merge corrections -/

/-- C7: on a two-row same-category window, a merge correction is created
exactly when the Jaccard similarity of the lowercased, whitespace-tokenized
title word sets reaches the 0.85 threshold — identical titles (similarity
1) produce exactly one `merge` correction with status `pending`, while
"Fix login bug" vs "Fix login bugs" has similarity 1/2 and produces
none. -/
theorem merge_driven_by_title_jaccard :
    (∀ a b : Knowledge, a.category = b.category →
      calculateSimilarity (jsToLower a.title) (jsToLower b.title) <
          duplicateSimilarity →
      flagDuplicateKnowledge [a, b] = []) ∧
    (∀ a b : Knowledge, a.category = b.category → b.title = a.title →
      calculateSimilarity (jsToLower a.title) (jsToLower b.title) = 1 ∧
      flagDuplicateKnowledge [a, b] =
        [{ item_type := "knowledge", item_id := a.id,
           correction_type := "merge", primary_title := a.title,
           duplicates := [⟨b.id, b.title, 1⟩], auto_detected := true,
           status := "pending", created_by := "clair-cleanup" }]) ∧
    calculateSimilarity (jsToLower "Fix login bug")
        (jsToLower "Fix login bugs") = 1/2 := by
  refine ⟨?_, ?_, ?_⟩
  · intro a b hcat hlt
    rw [flagDuplicateKnowledge_pair a b hcat, if_neg (not_le.mpr hlt)]
  · intro a b hcat htitle
    have hsim : calculateSimilarity (jsToLower a.title) (jsToLower b.title)
        = 1 := by
      rw [htitle]
      exact calculateSimilarity_self _
    refine ⟨hsim, ?_⟩
    rw [flagDuplicateKnowledge_pair a b hcat, hsim,
      if_pos (by norm_num [duplicateSimilarity])]
    rfl
  · have hin : (titleWords (jsToLower "Fix login bug") ∩
        titleWords (jsToLower "Fix login bugs")).card = 2 := by decide
    have hun : (titleWords (jsToLower "Fix login bug") ∪
        titleWords (jsToLower "Fix login bugs")).card = 4 := by decide
    rw [calculateSimilarity, hin, hun]
    norm_num

/-- Witness for `merge_driven_by_title_jaccard` at the spec's worked
examples. -/
theorem merge_driven_by_title_jaccard_witness :
    (kIdentA.category = kIdentB.category ∧ kIdentB.title = kIdentA.title ∧
      flagDuplicateKnowledge [kIdentA, kIdentB] =
        [{ item_type := "knowledge", item_id := kIdentA.id,
           correction_type := "merge", primary_title := kIdentA.title,
           duplicates := [⟨kIdentB.id, kIdentB.title, 1⟩],
           auto_detected := true, status := "pending",
           created_by := "clair-cleanup" }]) ∧
    (kLoginA.category = kLoginB.category ∧
      calculateSimilarity (jsToLower kLoginA.title)
          (jsToLower kLoginB.title) < duplicateSimilarity ∧
      flagDuplicateKnowledge [kLoginA, kLoginB] = []) := by
  have hlt : calculateSimilarity (jsToLower kLoginA.title)
      (jsToLower kLoginB.title) < duplicateSimilarity := by
    have h := merge_driven_by_title_jaccard.2.2
    show calculateSimilarity (jsToLower "Fix login bug")
        (jsToLower "Fix login bugs") < duplicateSimilarity
    rw [h]
    norm_num [duplicateSimilarity]
  exact ⟨⟨rfl, rfl,
      (merge_driven_by_title_jaccard.2.1 kIdentA kIdentB rfl rfl).2⟩,
    ⟨rfl, hlt, merge_driven_by_title_jaccard.1 kLoginA kLoginB rfl hlt⟩⟩

/-! ## C10 — deduplication ignores `project_path` -/

/-- C10: the deduplication window is the 500 most recent knowledge rows
with no project filter, and pairing uses only category equality plus title
similarity — two rows from different projects with the same category and
identical titles are clustered into a single merge correction, also
end-to-end through the window query. -/
theorem dedup_ignores_project_path :
    (∀ rows : List Knowledge, (∀ k ∈ knowledgeWindow rows, k ∈ rows) ∧
      (knowledgeWindow rows).length = min 500 rows.length) ∧
    (∀ a b : Knowledge, a.project_path ≠ b.project_path →
      a.category = b.category →
      duplicateSimilarity ≤
        calculateSimilarity (jsToLower a.title) (jsToLower b.title) →
      flagDuplicateKnowledge [a, b] =
        [{ item_type := "knowledge", item_id := a.id,
           correction_type := "merge", primary_title := a.title,
           duplicates := [⟨b.id, b.title,
             calculateSimilarity (jsToLower a.title) (jsToLower b.title)⟩],
           auto_detected := true, status := "pending",
           created_by := "clair-cleanup" }]) ∧
    runFlagDuplicateKnowledge [kCrossB, kCrossA] =
      [{ item_type := "knowledge", item_id := kCrossA.id,
         correction_type := "merge", primary_title := kCrossA.title,
         duplicates := [⟨kCrossB.id, kCrossB.title, 1⟩],
         auto_detected := true, status := "pending",
         created_by := "clair-cleanup" }] := by
  refine ⟨knowledgeWindow_sub, ?_, ?_⟩
  · intro a b _ hcat hge
    rw [flagDuplicateKnowledge_pair a b hcat, if_pos hge]
    rfl
  · have hwin : knowledgeWindow [kCrossB, kCrossA] = [kCrossA, kCrossB] := by
      decide
    have hsim : calculateSimilarity (jsToLower kCrossA.title)
        (jsToLower kCrossB.title) = 1 := calculateSimilarity_self _
    rw [runFlagDuplicateKnowledge, hwin,
      flagDuplicateKnowledge_pair kCrossA kCrossB rfl, hsim,
      if_pos (by norm_num [duplicateSimilarity])]
    rfl

/-- Witness for `dedup_ignores_project_path` with rows from two different
projects. -/
theorem dedup_ignores_project_path_witness :
    kCrossA.project_path ≠ kCrossB.project_path ∧
      kCrossA.category = kCrossB.category ∧
      flagDuplicateKnowledge [kCrossA, kCrossB] =
        [{ item_type := "knowledge", item_id := kCrossA.id,
           correction_type := "merge", primary_title := kCrossA.title,
           duplicates := [⟨kCrossB.id, kCrossB.title,
             calculateSimilarity (jsToLower kCrossA.title)
               (jsToLower kCrossB.title)⟩],
           auto_detected := true, status := "pending",
           created_by := "clair-cleanup" }] :=
  ⟨by decide, rfl,
    dedup_ignores_project_path.2.1 kCrossA kCrossB (by decide) rfl
      (by
        show duplicateSimilarity ≤ calculateSimilarity
          (jsToLower "Add caching layer") (jsToLower "Add caching layer")
        rw [calculateSimilarity_self]
        norm_num [duplicateSimilarity])⟩


/-! ## Snippet capture — shared lemmas (C2) -/

/-- Event counts add over concatenated logs. -/
theorem countEvents_append (kind : SourceKind) (i : Nat)
    (l1 l2 : List CaptureEvent) :
    countEvents kind i (l1 ++ l2) =
      countEvents kind i l1 + countEvents kind i l2 := by
  simp [countEvents, List.filter_append]

/-- A log whose events are all of another kind contributes no count. -/
theorem countEvents_zero_of_kind (kind : SourceKind) (i : Nat)
    (log : List CaptureEvent) (h : ∀ e ∈ log, e.kind ≠ kind) :
    countEvents kind i log = 0 := by
  rw [countEvents, List.length_eq_zero, List.filter_eq_nil_iff]
  intro e he
  simp [h e he]

/-- In a table with pairwise distinct keys, at most one row matches a
key. -/
theorem nodup_key_filter_le_one {α : Type} (f : α → Nat) (i : Nat) :
    ∀ l : List α, (l.map f).Nodup →
      (l.filter fun x => decide (f x = i)).length ≤ 1 := by
  intro l
  induction l with
  | nil => intro _; simp
  | cons a l ih =>
    intro hnd
    rw [List.map_cons, List.nodup_cons] at hnd
    by_cases ha : f a = i
    · have hnil : l.filter (fun x => decide (f x = i)) = [] := by
        rw [List.filter_eq_nil_iff]
        intro x hx
        simp only [decide_eq_true_eq]
        intro hfx
        exact hnd.1 ((hfx.trans ha.symm) ▸ List.mem_map_of_mem f hx)
      simp [List.filter_cons, ha, hnil]
    · simp only [List.filter_cons, decide_eq_true_eq, ha, if_false]
      exact ih hnd.2

/-- Rows surviving one more filter still match at most one key. -/
theorem nodup_key_filter_filter_le_one {α : Type} (f : α → Nat) (i : Nat)
    (p : α → Bool) (l : List α) (hnd : (l.map f).Nodup) :
    ((l.filter p).filter fun x => decide (f x = i)).length ≤ 1 :=
  le_trans
    (List.Sublist.length_le ((List.filter_sublist l).filter _))
    (nodup_key_filter_le_one f i l hnd)

/-- `matchCount` over a single appended snippet. -/
theorem matchCount_append_single (c : String) (d : Nat)
    (snips : List Snippet) (s : Snippet) :
    matchCount c d (snips ++ [s]) =
      matchCount c d snips +
        (if s.content = c ∧ s.snippet_date = d then 1 else 0) := by
  by_cases h : s.content = c ∧ s.snippet_date = d
  · simp [matchCount, List.filter_append, List.filter_cons, h]
  · have hb : (decide (s.content = c) && decide (s.snippet_date = d)) =
        false := by
      rcases Decidable.not_and_iff_or_not.mp h with h' | h' <;> simp [h']
    simp [matchCount, List.filter_append, List.filter_cons, hb, h]

/-- Todo-derived and bug-derived snippet contents never collide. -/
theorem todoContent_ne_bugContent (t : Todo) (b : Bug) :
    todoSnippetContent t ≠ bugSnippetContent b := by
  intro h
  have hd : (todoSnippetContent t).data = (bugSnippetContent b).data :=
    congrArg String.data h
  rw [todoSnippetContent, bugSnippetContent, String.data_append,
    String.data_append] at hd
  have h1 : 'C' :: ("OMPLETED: ".data ++ t.title.data) =
      'B' :: ("UG FIXED: ".data ++ b.title.data) := hd
  injection h1 with h1a _
  exact absurd h1a (by decide)

/-- The knowledge-capture loop leaves todos and bugs untouched and only
appends to the snippets. -/
theorem captureKnowledgeGo_frame (today : Nat) :
    ∀ (ks : List Knowledge) (db : DayDB),
      ((captureKnowledgeGo today ks db).1).todos = db.todos ∧
        ((captureKnowledgeGo today ks db).1).bugs = db.bugs
  | [], db => ⟨rfl, rfl⟩
  | k :: ks, db => by
    have ih := captureKnowledgeGo_frame today ks
      { db with
        snippets := db.snippets ++ [knowledgeSnippetOf k today]
        knowledge := db.knowledge.map fun r =>
          if r.id = k.id then { r with captured_as_snippet := some true }
          else r }
    rcases hg : captureKnowledgeGo today ks
      { db with
        snippets := db.snippets ++ [knowledgeSnippetOf k today]
        knowledge := db.knowledge.map fun r =>
          if r.id = k.id then { r with captured_as_snippet := some true }
          else r } with ⟨db2, evs⟩
    rw [hg] at ih
    simpa [captureKnowledgeGo, hg] using ih

/-- The todo-capture loop touches only the snippets. -/
theorem captureTodosGo_frame (today : Nat) :
    ∀ (ts : List Todo) (db : DayDB),
      ((captureTodosGo today ts db).1).knowledge = db.knowledge ∧
        ((captureTodosGo today ts db).1).todos = db.todos ∧
        ((captureTodosGo today ts db).1).bugs = db.bugs
  | [], db => ⟨rfl, rfl, rfl⟩
  | t :: ts, db => by
    by_cases h : singleMatch (todoSnippetContent t) today db.snippets
    · have ih := captureTodosGo_frame today ts db
      simpa [captureTodosGo, h] using ih
    · have ih := captureTodosGo_frame today ts
        { db with snippets := db.snippets ++ [todoSnippetOf t today] }
      rcases hg : captureTodosGo today ts
        { db with snippets := db.snippets ++ [todoSnippetOf t today] } with
        ⟨db2, evs⟩
      rw [hg] at ih
      simpa [captureTodosGo, h, hg] using ih

/-- The bug-capture loop touches only the snippets. -/
theorem captureBugsGo_frame (today : Nat) :
    ∀ (bs : List Bug) (db : DayDB),
      ((captureBugsGo today bs db).1).knowledge = db.knowledge ∧
        ((captureBugsGo today bs db).1).todos = db.todos ∧
        ((captureBugsGo today bs db).1).bugs = db.bugs
  | [], db => ⟨rfl, rfl, rfl⟩
  | b :: bs, db => by
    by_cases h : singleMatch (bugSnippetContent b) today db.snippets
    · have ih := captureBugsGo_frame today bs db
      simpa [captureBugsGo, h] using ih
    · have ih := captureBugsGo_frame today bs
        { db with snippets := db.snippets ++ [bugSnippetOf b today] }
      rcases hg : captureBugsGo today bs
        { db with snippets := db.snippets ++ [bugSnippetOf b today] } with
        ⟨db2, evs⟩
      rw [hg] at ih
      simpa [captureBugsGo, h, hg] using ih

/-- The knowledge-capture loop logs one event per selected row. -/
theorem captureKnowledgeGo_events (today : Nat) :
    ∀ (ks : List Knowledge) (db : DayDB),
      (captureKnowledgeGo today ks db).2 =
        ks.map fun k => ⟨.knowledge, k.id⟩
  | [], _ => rfl
  | k :: ks, db => by
    have ih := captureKnowledgeGo_events today ks
      { db with
        snippets := db.snippets ++ [knowledgeSnippetOf k today]
        knowledge := db.knowledge.map fun r =>
          if r.id = k.id then { r with captured_as_snippet := some true }
          else r }
    rcases hg : captureKnowledgeGo today ks
      { db with
        snippets := db.snippets ++ [knowledgeSnippetOf k today]
        knowledge := db.knowledge.map fun r =>
          if r.id = k.id then { r with captured_as_snippet := some true }
          else r } with ⟨db2, evs⟩
    rw [hg] at ih
    simpa [captureKnowledgeGo, hg] using ih

/-- All todo-capture events are of kind `todo`. -/
theorem captureTodosGo_kinds (today : Nat) :
    ∀ (ts : List Todo) (db : DayDB),
      ∀ e ∈ (captureTodosGo today ts db).2, e.kind = .todo
  | [], _ => by intro e he; simp [captureTodosGo] at he
  | t :: ts, db => by
    by_cases h : singleMatch (todoSnippetContent t) today db.snippets
    · have ih := captureTodosGo_kinds today ts db
      intro e he
      exact ih e (by simpa [captureTodosGo, h] using he)
    · intro e he
      rcases hg : captureTodosGo today ts
        { db with snippets := db.snippets ++ [todoSnippetOf t today] } with
        ⟨db2, evs⟩
      have ih := captureTodosGo_kinds today ts
        { db with snippets := db.snippets ++ [todoSnippetOf t today] }
      rw [hg] at ih
      have he' : e ∈ (⟨SourceKind.todo, t.id⟩ : CaptureEvent) :: evs := by
        simpa [captureTodosGo, h, hg] using he
      rcases List.mem_cons.mp he' with rfl | he2
      · rfl
      · exact ih e he2

/-- All bug-capture events are of kind `bug`. -/
theorem captureBugsGo_kinds (today : Nat) :
    ∀ (bs : List Bug) (db : DayDB),
      ∀ e ∈ (captureBugsGo today bs db).2, e.kind = .bug
  | [], _ => by intro e he; simp [captureBugsGo] at he
  | b :: bs, db => by
    by_cases h : singleMatch (bugSnippetContent b) today db.snippets
    · have ih := captureBugsGo_kinds today bs db
      intro e he
      exact ih e (by simpa [captureBugsGo, h] using he)
    · intro e he
      rcases hg : captureBugsGo today bs
        { db with snippets := db.snippets ++ [bugSnippetOf b today] } with
        ⟨db2, evs⟩
      have ih := captureBugsGo_kinds today bs
        { db with snippets := db.snippets ++ [bugSnippetOf b today] }
      rw [hg] at ih
      have he' : e ∈ (⟨SourceKind.bug, b.id⟩ : CaptureEvent) :: evs := by
        simpa [captureBugsGo, h, hg] using he
      rcases List.mem_cons.mp he' with rfl | he2
      · rfl
      · exact ih e he2


/-- `countEvents` over a cons. -/
theorem countEvents_cons (kind : SourceKind) (i : Nat) (e : CaptureEvent)
    (l : List CaptureEvent) :
    countEvents kind i (e :: l) =
      (if e.kind = kind ∧ e.sourceId = i then 1 else 0) +
        countEvents kind i l := by
  by_cases h : e.kind = kind ∧ e.sourceId = i
  · simp [countEvents, List.filter_cons, h, Nat.add_comm]
  · have hb : (decide (e.kind = kind) && decide (e.sourceId = i)) =
        false := by
      rcases Decidable.not_and_iff_or_not.mp h with h' | h' <;> simp [h']
    simp [countEvents, List.filter_cons, hb, h]

/-- The knowledge-capture loop preserves the knowledge id column. -/
theorem captureKnowledgeGo_kids (today : Nat) :
    ∀ (ks : List Knowledge) (db : DayDB),
      ((captureKnowledgeGo today ks db).1).knowledge.map Knowledge.id =
        db.knowledge.map Knowledge.id
  | [], _ => rfl
  | k :: ks, db => by
    have ih := captureKnowledgeGo_kids today ks
      { db with
        snippets := db.snippets ++ [knowledgeSnippetOf k today]
        knowledge := db.knowledge.map fun r =>
          if r.id = k.id then { r with captured_as_snippet := some true }
          else r }
    rcases hg : captureKnowledgeGo today ks
      { db with
        snippets := db.snippets ++ [knowledgeSnippetOf k today]
        knowledge := db.knowledge.map fun r =>
          if r.id = k.id then { r with captured_as_snippet := some true }
          else r } with ⟨db2, evs⟩
    rw [hg] at ih
    have hupd : (db.knowledge.map fun r =>
        if r.id = k.id then { r with captured_as_snippet := some true }
        else r).map Knowledge.id = db.knowledge.map Knowledge.id :=
      map_upd_ids _ _ fun r => by by_cases h : r.id = k.id <;> simp [h]
    simp only [captureKnowledgeGo, hg]
    exact ih.trans hupd

/-- Every knowledge row after the capture loop is an original row, at most
with its captured flag newly set. -/
theorem captureKnowledgeGo_shape (today : Nat) :
    ∀ (ks : List Knowledge) (db : DayDB),
      ∀ r ∈ ((captureKnowledgeGo today ks db).1).knowledge,
        ∃ r₀ ∈ db.knowledge,
          r = r₀ ∨ r = { r₀ with captured_as_snippet := some true }
  | [], db => by
    intro r hr
    exact ⟨r, by simpa [captureKnowledgeGo] using hr, Or.inl rfl⟩
  | k :: ks, db => by
    intro r hr
    rcases hg : captureKnowledgeGo today ks
      { db with
        snippets := db.snippets ++ [knowledgeSnippetOf k today]
        knowledge := db.knowledge.map fun r =>
          if r.id = k.id then { r with captured_as_snippet := some true }
          else r } with ⟨db2, evs⟩
    have ih := captureKnowledgeGo_shape today ks
      { db with
        snippets := db.snippets ++ [knowledgeSnippetOf k today]
        knowledge := db.knowledge.map fun r =>
          if r.id = k.id then { r with captured_as_snippet := some true }
          else r }
    rw [hg] at ih
    have hr2 : r ∈ db2.knowledge := by
      simpa [captureKnowledgeGo, hg] using hr
    obtain ⟨r1, hr1, hcase1⟩ := ih r hr2
    obtain ⟨r₀, hr₀, hmap⟩ := List.mem_map.mp hr1
    refine ⟨r₀, hr₀, ?_⟩
    by_cases hid : r₀.id = k.id
    · rw [if_pos hid] at hmap
      rcases hcase1 with rfl | rfl
      · exact Or.inr hmap.symm
      · exact Or.inr (by rw [← hmap])
    · rw [if_neg hid] at hmap
      rcases hcase1 with rfl | rfl
      · exact Or.inl hmap.symm
      · exact Or.inr (by rw [← hmap])

/-- A set captured flag at id `i` survives the knowledge-capture loop. -/
theorem captureKnowledgeGo_keeps_flag (today : Nat) (i : Nat) :
    ∀ (ks : List Knowledge) (db : DayDB),
      (∀ r ∈ db.knowledge, r.id = i → r.captured_as_snippet = some true) →
      ∀ r ∈ ((captureKnowledgeGo today ks db).1).knowledge, r.id = i →
        r.captured_as_snippet = some true
  | [], db, h => by
    intro r hr
    exact h r (by simpa [captureKnowledgeGo] using hr)
  | k :: ks, db, h => by
    intro r hr hri
    rcases hg : captureKnowledgeGo today ks
      { db with
        snippets := db.snippets ++ [knowledgeSnippetOf k today]
        knowledge := db.knowledge.map fun r =>
          if r.id = k.id then { r with captured_as_snippet := some true }
          else r } with ⟨db2, evs⟩
    have hpre : ∀ r' ∈ (db.knowledge.map fun r =>
        if r.id = k.id then { r with captured_as_snippet := some true }
        else r), r'.id = i → r'.captured_as_snippet = some true := by
      intro r' hr' hri'
      obtain ⟨r₀, hr₀, rfl⟩ := List.mem_map.mp hr'
      by_cases hid : r₀.id = k.id
      · rw [if_pos hid]
      · rw [if_neg hid] at hri' ⊢
        exact h r₀ hr₀ hri'
    have ih := captureKnowledgeGo_keeps_flag today i ks
      { db with
        snippets := db.snippets ++ [knowledgeSnippetOf k today]
        knowledge := db.knowledge.map fun r =>
          if r.id = k.id then { r with captured_as_snippet := some true }
          else r } hpre
    rw [hg] at ih
    exact ih r (by simpa [captureKnowledgeGo, hg] using hr) hri

/-- After the knowledge-capture loop, every row whose id was processed has
its captured flag set. -/
theorem captureKnowledgeGo_flags (today : Nat) (i : Nat) :
    ∀ (ks : List Knowledge) (db : DayDB), (∃ k ∈ ks, k.id = i) →
      ∀ r ∈ ((captureKnowledgeGo today ks db).1).knowledge, r.id = i →
        r.captured_as_snippet = some true
  | [], _, hex => absurd hex (by simp)
  | k :: ks, db, hex => by
    intro r hr hri
    rcases hg : captureKnowledgeGo today ks
      { db with
        snippets := db.snippets ++ [knowledgeSnippetOf k today]
        knowledge := db.knowledge.map fun r =>
          if r.id = k.id then { r with captured_as_snippet := some true }
          else r } with ⟨db2, evs⟩
    obtain ⟨k', hk', hk'i⟩ := hex
    rcases List.mem_cons.mp hk' with rfl | hk'2
    · have hpre : ∀ r' ∈ (db.knowledge.map fun r =>
          if r.id = k'.id then { r with captured_as_snippet := some true }
          else r), r'.id = i → r'.captured_as_snippet = some true := by
        intro r' hr' hri'
        obtain ⟨r₀, hr₀, rfl⟩ := List.mem_map.mp hr'
        by_cases hid : r₀.id = k'.id
        · rw [if_pos hid]
        · rw [if_neg hid] at hri' ⊢
          exact absurd (hri'.trans hk'i.symm) hid
      have ih := captureKnowledgeGo_keeps_flag today i ks
        { db with
          snippets := db.snippets ++ [knowledgeSnippetOf k' today]
          knowledge := db.knowledge.map fun r =>
            if r.id = k'.id then { r with captured_as_snippet := some true }
            else r } hpre
      rw [hg] at ih
      exact ih r (by simpa [captureKnowledgeGo, hg] using hr) hri
    · have ih := captureKnowledgeGo_flags today i ks
        { db with
          snippets := db.snippets ++ [knowledgeSnippetOf k today]
          knowledge := db.knowledge.map fun r =>
            if r.id = k.id then { r with captured_as_snippet := some true }
            else r } ⟨k', hk'2, hk'i⟩
      rw [hg] at ih
      exact ih r (by simpa [captureKnowledgeGo, hg] using hr) hri

/-- The knowledge-capture loop does not change the match count of a
content no selected row derives. -/
theorem captureKnowledgeGo_matchCount (today : Nat) (c : String) (d : Nat) :
    ∀ (ks : List Knowledge) (db : DayDB),
      (∀ k ∈ ks, knowledgeSnippetContent k ≠ c) →
      matchCount c d (((captureKnowledgeGo today ks db).1).snippets) =
        matchCount c d db.snippets
  | [], _, _ => rfl
  | k :: ks, db, h => by
    rcases hg : captureKnowledgeGo today ks
      { db with
        snippets := db.snippets ++ [knowledgeSnippetOf k today]
        knowledge := db.knowledge.map fun r =>
          if r.id = k.id then { r with captured_as_snippet := some true }
          else r } with ⟨db2, evs⟩
    have ih := captureKnowledgeGo_matchCount today c d ks
      { db with
        snippets := db.snippets ++ [knowledgeSnippetOf k today]
        knowledge := db.knowledge.map fun r =>
          if r.id = k.id then { r with captured_as_snippet := some true }
          else r } (fun k' hk' => h k' (List.mem_cons_of_mem _ hk'))
    rw [hg] at ih
    have hstep : matchCount c d
        (db.snippets ++ [knowledgeSnippetOf k today]) =
        matchCount c d db.snippets := by
      rw [matchCount_append_single]
      have : ¬ ((knowledgeSnippetOf k today).content = c ∧
          (knowledgeSnippetOf k today).snippet_date = d) := by
        intro hand
        exact h k (List.mem_cons_self _ _) hand.1
      simp [this]
    calc matchCount c d (((captureKnowledgeGo today (k :: ks) db).1).snippets)
        = matchCount c d db2.snippets := by
          simp only [captureKnowledgeGo, hg]
      _ = matchCount c d (db.snippets ++ [knowledgeSnippetOf k today]) := ih
      _ = matchCount c d db.snippets := hstep



/-- The todo-capture loop does not change the match count of a content no
processed todo derives. -/
theorem captureTodosGo_matchCount_other (today : Nat) (c : String) (d : Nat) :
    ∀ (ts : List Todo) (db : DayDB),
      (∀ t' ∈ ts, todoSnippetContent t' ≠ c) →
      matchCount c d (((captureTodosGo today ts db).1).snippets) =
        matchCount c d db.snippets
  | [], _, _ => rfl
  | t :: ts, db, h => by
    by_cases hm : singleMatch (todoSnippetContent t) today db.snippets
    · have ih := captureTodosGo_matchCount_other today c d ts db
        (fun t' ht' => h t' (List.mem_cons_of_mem _ ht'))
      have h0 : captureTodosGo today (t :: ts) db =
          captureTodosGo today ts db := by
        simp only [captureTodosGo, if_pos hm]
      rw [h0]
      exact ih
    · rcases hg : captureTodosGo today ts
        { db with snippets := db.snippets ++ [todoSnippetOf t today] } with
        ⟨db2, evs⟩
      have ih := captureTodosGo_matchCount_other today c d ts
        { db with snippets := db.snippets ++ [todoSnippetOf t today] }
        (fun t' ht' => h t' (List.mem_cons_of_mem _ ht'))
      rw [hg] at ih
      have hstep : matchCount c d (db.snippets ++ [todoSnippetOf t today]) =
          matchCount c d db.snippets := by
        rw [matchCount_append_single]
        have hne : ¬ ((todoSnippetOf t today).content = c ∧
            (todoSnippetOf t today).snippet_date = d) := by
          intro hand
          exact h t (List.mem_cons_self _ _) hand.1
        simp [hne]
      have h0 : ((captureTodosGo today (t :: ts) db).1).snippets =
          db2.snippets := by
        simp only [captureTodosGo, if_neg hm, hg]
      rw [h0, ih, hstep]

/-- The bug-capture loop does not change the match count of a content no
processed bug derives. -/
theorem captureBugsGo_matchCount_other (today : Nat) (c : String) (d : Nat) :
    ∀ (bs : List Bug) (db : DayDB),
      (∀ b' ∈ bs, bugSnippetContent b' ≠ c) →
      matchCount c d (((captureBugsGo today bs db).1).snippets) =
        matchCount c d db.snippets
  | [], _, _ => rfl
  | b :: bs, db, h => by
    by_cases hm : singleMatch (bugSnippetContent b) today db.snippets
    · have ih := captureBugsGo_matchCount_other today c d bs db
        (fun b' hb' => h b' (List.mem_cons_of_mem _ hb'))
      have h0 : captureBugsGo today (b :: bs) db =
          captureBugsGo today bs db := by
        simp only [captureBugsGo, if_pos hm]
      rw [h0]
      exact ih
    · rcases hg : captureBugsGo today bs
        { db with snippets := db.snippets ++ [bugSnippetOf b today] } with
        ⟨db2, evs⟩
      have ih := captureBugsGo_matchCount_other today c d bs
        { db with snippets := db.snippets ++ [bugSnippetOf b today] }
        (fun b' hb' => h b' (List.mem_cons_of_mem _ hb'))
      rw [hg] at ih
      have hstep : matchCount c d (db.snippets ++ [bugSnippetOf b today]) =
          matchCount c d db.snippets := by
        rw [matchCount_append_single]
        have hne : ¬ ((bugSnippetOf b today).content = c ∧
            (bugSnippetOf b today).snippet_date = d) := by
          intro hand
          exact h b (List.mem_cons_self _ _) hand.1
        simp [hne]
      have h0 : ((captureBugsGo today (b :: bs) db).1).snippets =
          db2.snippets := by
        simp only [captureBugsGo, if_neg hm, hg]
      rw [h0, ih, hstep]

/-- Todo events for one id are bounded by the id's occurrences in the
processed list. -/
theorem captureTodosGo_events_le (today : Nat) (i : Nat) :
    ∀ (ts : List Todo) (db : DayDB),
      countEvents .todo i (captureTodosGo today ts db).2 ≤
        (ts.filter fun t' => decide (t'.id = i)).length
  | [], _ => by simp [captureTodosGo, countEvents]
  | t :: ts, db => by
    by_cases hm : singleMatch (todoSnippetContent t) today db.snippets
    · have ih := captureTodosGo_events_le today i ts db
      have h0 : captureTodosGo today (t :: ts) db =
          captureTodosGo today ts db := by
        simp only [captureTodosGo, if_pos hm]
      rw [h0, List.filter_cons]
      refine le_trans ih ?_
      split <;> simp
    · rcases hg : captureTodosGo today ts
        { db with snippets := db.snippets ++ [todoSnippetOf t today] } with
        ⟨db2, evs⟩
      have ih := captureTodosGo_events_le today i ts
        { db with snippets := db.snippets ++ [todoSnippetOf t today] }
      rw [hg] at ih
      replace ih : countEvents SourceKind.todo i evs ≤
        (ts.filter fun t' => decide (t'.id = i)).length := ih
      have hlog : (captureTodosGo today (t :: ts) db).2 =
          (⟨SourceKind.todo, t.id⟩ : CaptureEvent) :: evs := by
        simp only [captureTodosGo, if_neg hm, hg]
      rw [hlog, countEvents_cons, List.filter_cons]
      by_cases hti : t.id = i
      · rw [if_pos ⟨rfl, hti⟩]
        have hd : decide (t.id = i) = true := by simp [hti]
        rw [hd, if_pos rfl]
        simp only [List.length_cons]
        omega
      · rw [if_neg (fun hand => hti hand.2)]
        have hd : decide (t.id = i) = false := by simp [hti]
        rw [hd]
        simp only [Bool.false_eq_true, if_false]
        simpa using ih

/-- Bug events for one id are bounded by the id's occurrences in the
processed list. -/
theorem captureBugsGo_events_le (today : Nat) (i : Nat) :
    ∀ (bs : List Bug) (db : DayDB),
      countEvents .bug i (captureBugsGo today bs db).2 ≤
        (bs.filter fun b' => decide (b'.id = i)).length
  | [], _ => by simp [captureBugsGo, countEvents]
  | b :: bs, db => by
    by_cases hm : singleMatch (bugSnippetContent b) today db.snippets
    · have ih := captureBugsGo_events_le today i bs db
      have h0 : captureBugsGo today (b :: bs) db =
          captureBugsGo today bs db := by
        simp only [captureBugsGo, if_pos hm]
      rw [h0, List.filter_cons]
      refine le_trans ih ?_
      split <;> simp
    · rcases hg : captureBugsGo today bs
        { db with snippets := db.snippets ++ [bugSnippetOf b today] } with
        ⟨db2, evs⟩
      have ih := captureBugsGo_events_le today i bs
        { db with snippets := db.snippets ++ [bugSnippetOf b today] }
      rw [hg] at ih
      replace ih : countEvents SourceKind.bug i evs ≤
        (bs.filter fun b' => decide (b'.id = i)).length := ih
      have hlog : (captureBugsGo today (b :: bs) db).2 =
          (⟨SourceKind.bug, b.id⟩ : CaptureEvent) :: evs := by
        simp only [captureBugsGo, if_neg hm, hg]
      rw [hlog, countEvents_cons, List.filter_cons]
      by_cases hbi : b.id = i
      · rw [if_pos ⟨rfl, hbi⟩]
        have hd : decide (b.id = i) = true := by simp [hbi]
        rw [hd, if_pos rfl]
        simp only [List.length_cons]
        omega
      · rw [if_neg (fun hand => hbi hand.2)]
        have hd : decide (b.id = i) = false := by simp [hbi]
        rw [hd]
        simp only [Bool.false_eq_true, if_false]
        simpa using ih


/-- The `.single()` probe succeeds exactly on match count 1. -/
theorem singleMatch_iff (c : String) (d : Nat) (snips : List Snippet) :
    singleMatch c d snips = true ↔ matchCount c d snips = 1 := by
  simp [singleMatch]

/-- Once exactly one same-day snippet with content `c` exists, the
todo-capture loop inserts nothing with that content: rows deriving `c`
are skipped, so the count stays 1, and no event is logged for an id whose
rows all derive `c`. -/
theorem captureTodosGo_one_stable (today : Nat) (c : String) (i : Nat) :
    ∀ (ts : List Todo) (db : DayDB),
      matchCount c today db.snippets = 1 →
      (∀ t' ∈ ts, t'.id = i → todoSnippetContent t' = c) →
      countEvents .todo i (captureTodosGo today ts db).2 = 0 ∧
        matchCount c today (((captureTodosGo today ts db).1).snippets) = 1
  | [], db, h1, _ =>
    ⟨by simp [captureTodosGo, countEvents],
      by simpa [captureTodosGo] using h1⟩
  | t :: ts, db, h1, hid => by
    by_cases hm : singleMatch (todoSnippetContent t) today db.snippets
    · have ih := captureTodosGo_one_stable today c i ts db h1
        (fun t' ht' => hid t' (List.mem_cons_of_mem _ ht'))
      have h0 : captureTodosGo today (t :: ts) db =
          captureTodosGo today ts db := by
        simp only [captureTodosGo, if_pos hm]
      rw [h0]
      exact ih
    · have hct : todoSnippetContent t ≠ c := by
        intro hc
        exact hm ((singleMatch_iff _ _ _).mpr (hc ▸ h1))
      have hti : t.id ≠ i := by
        intro hti
        exact hct (hid t (List.mem_cons_self _ _) hti)
      have h1' : matchCount c today
          (db.snippets ++ [todoSnippetOf t today]) = 1 := by
        rw [matchCount_append_single]
        have hne : ¬ ((todoSnippetOf t today).content = c ∧
            (todoSnippetOf t today).snippet_date = today) :=
          fun hand => hct hand.1
        simp [hne, h1]
      rcases hg : captureTodosGo today ts
        { db with snippets := db.snippets ++ [todoSnippetOf t today] } with
        ⟨db2, evs⟩
      have ih := captureTodosGo_one_stable today c i ts
        { db with snippets := db.snippets ++ [todoSnippetOf t today] } h1'
        (fun t' ht' => hid t' (List.mem_cons_of_mem _ ht'))
      rw [hg] at ih
      replace ih : countEvents SourceKind.todo i evs = 0 ∧
          matchCount c today db2.snippets = 1 := ih
      have hlog : (captureTodosGo today (t :: ts) db).2 =
          (⟨SourceKind.todo, t.id⟩ : CaptureEvent) :: evs := by
        simp only [captureTodosGo, if_neg hm, hg]
      have hfst : ((captureTodosGo today (t :: ts) db).1).snippets =
          db2.snippets := by
        simp only [captureTodosGo, if_neg hm, hg]
      constructor
      · rw [hlog, countEvents_cons, if_neg (fun hand => hti hand.2), ih.1]
      · rw [hfst]
        exact ih.2

/-- Once exactly one same-day snippet with content `c` exists, the
bug-capture loop behaves likewise. -/
theorem captureBugsGo_one_stable (today : Nat) (c : String) (i : Nat) :
    ∀ (bs : List Bug) (db : DayDB),
      matchCount c today db.snippets = 1 →
      (∀ b' ∈ bs, b'.id = i → bugSnippetContent b' = c) →
      countEvents .bug i (captureBugsGo today bs db).2 = 0 ∧
        matchCount c today (((captureBugsGo today bs db).1).snippets) = 1
  | [], db, h1, _ =>
    ⟨by simp [captureBugsGo, countEvents],
      by simpa [captureBugsGo] using h1⟩
  | b :: bs, db, h1, hid => by
    by_cases hm : singleMatch (bugSnippetContent b) today db.snippets
    · have ih := captureBugsGo_one_stable today c i bs db h1
        (fun b' hb' => hid b' (List.mem_cons_of_mem _ hb'))
      have h0 : captureBugsGo today (b :: bs) db =
          captureBugsGo today bs db := by
        simp only [captureBugsGo, if_pos hm]
      rw [h0]
      exact ih
    · have hct : bugSnippetContent b ≠ c := by
        intro hc
        exact hm ((singleMatch_iff _ _ _).mpr (hc ▸ h1))
      have hbi : b.id ≠ i := by
        intro hbi
        exact hct (hid b (List.mem_cons_self _ _) hbi)
      have h1' : matchCount c today
          (db.snippets ++ [bugSnippetOf b today]) = 1 := by
        rw [matchCount_append_single]
        have hne : ¬ ((bugSnippetOf b today).content = c ∧
            (bugSnippetOf b today).snippet_date = today) :=
          fun hand => hct hand.1
        simp [hne, h1]
      rcases hg : captureBugsGo today bs
        { db with snippets := db.snippets ++ [bugSnippetOf b today] } with
        ⟨db2, evs⟩
      have ih := captureBugsGo_one_stable today c i bs
        { db with snippets := db.snippets ++ [bugSnippetOf b today] } h1'
        (fun b' hb' => hid b' (List.mem_cons_of_mem _ hb'))
      rw [hg] at ih
      replace ih : countEvents SourceKind.bug i evs = 0 ∧
          matchCount c today db2.snippets = 1 := ih
      have hlog : (captureBugsGo today (b :: bs) db).2 =
          (⟨SourceKind.bug, b.id⟩ : CaptureEvent) :: evs := by
        simp only [captureBugsGo, if_neg hm, hg]
      have hfst : ((captureBugsGo today (b :: bs) db).1).snippets =
          db2.snippets := by
        simp only [captureBugsGo, if_neg hm, hg]
      constructor
      · rw [hlog, countEvents_cons, if_neg (fun hand => hbi hand.2), ih.1]
      · rw [hfst]
        exact ih.2

/-- With at most one matching snippet to start, the todo-capture loop
keeps the count at most 1, and the count is exactly 1 as soon as an event
was logged for an id whose rows all derive `c`. -/
theorem captureTodosGo_le_one (today : Nat) (c : String) (i : Nat) :
    ∀ (ts : List Todo) (db : DayDB),
      matchCount c today db.snippets ≤ 1 →
      (∀ t' ∈ ts, t'.id = i → todoSnippetContent t' = c) →
      matchCount c today (((captureTodosGo today ts db).1).snippets) ≤ 1 ∧
        (1 ≤ countEvents .todo i (captureTodosGo today ts db).2 →
          matchCount c today
            (((captureTodosGo today ts db).1).snippets) = 1)
  | [], db, hle, _ => by
    refine ⟨by simpa [captureTodosGo] using hle, ?_⟩
    intro habs
    simp [captureTodosGo, countEvents] at habs
  | t :: ts, db, hle, hid => by
    by_cases hm : singleMatch (todoSnippetContent t) today db.snippets
    · have ih := captureTodosGo_le_one today c i ts db hle
        (fun t' ht' => hid t' (List.mem_cons_of_mem _ ht'))
      have h0 : captureTodosGo today (t :: ts) db =
          captureTodosGo today ts db := by
        simp only [captureTodosGo, if_pos hm]
      rw [h0]
      exact ih
    · rcases hg : captureTodosGo today ts
        { db with snippets := db.snippets ++ [todoSnippetOf t today] } with
        ⟨db2, evs⟩
      have hlog : (captureTodosGo today (t :: ts) db).2 =
          (⟨SourceKind.todo, t.id⟩ : CaptureEvent) :: evs := by
        simp only [captureTodosGo, if_neg hm, hg]
      have hfst : ((captureTodosGo today (t :: ts) db).1).snippets =
          db2.snippets := by
        simp only [captureTodosGo, if_neg hm, hg]
      by_cases hct : todoSnippetContent t = c
      · have h0 : matchCount c today db.snippets = 0 := by
          have hne1 : matchCount c today db.snippets ≠ 1 := by
            intro h1
            exact hm ((singleMatch_iff _ _ _).mpr (hct.symm ▸ h1))
          omega
        have h1' : matchCount c today
            (db.snippets ++ [todoSnippetOf t today]) = 1 := by
          rw [matchCount_append_single, h0]
          have hyes : (todoSnippetOf t today).content = c ∧
              (todoSnippetOf t today).snippet_date = today := ⟨hct, rfl⟩
          simp [hyes]
        have hst := captureTodosGo_one_stable today c i ts
          { db with snippets := db.snippets ++ [todoSnippetOf t today] } h1'
          (fun t' ht' => hid t' (List.mem_cons_of_mem _ ht'))
        rw [hg] at hst
        replace hst : countEvents SourceKind.todo i evs = 0 ∧
            matchCount c today db2.snippets = 1 := hst
        rw [hfst]
        exact ⟨le_of_eq hst.2, fun _ => hst.2⟩
      · have hti : t.id ≠ i := by
          intro hti
          exact hct (hid t (List.mem_cons_self _ _) hti)
        have hle' : matchCount c today
            (db.snippets ++ [todoSnippetOf t today]) ≤ 1 := by
          rw [matchCount_append_single]
          have hne : ¬ ((todoSnippetOf t today).content = c ∧
              (todoSnippetOf t today).snippet_date = today) :=
            fun hand => hct hand.1
          simpa [hne] using hle
        have ih := captureTodosGo_le_one today c i ts
          { db with snippets := db.snippets ++ [todoSnippetOf t today] }
          hle' (fun t' ht' => hid t' (List.mem_cons_of_mem _ ht'))
        rw [hg] at ih
        replace ih : matchCount c today db2.snippets ≤ 1 ∧
            (1 ≤ countEvents SourceKind.todo i evs →
              matchCount c today db2.snippets = 1) := ih
        rw [hfst, hlog, countEvents_cons,
          if_neg (fun hand => hti hand.2)]
        simpa using ih

/-- With at most one matching snippet to start, the bug-capture loop
behaves likewise. -/
theorem captureBugsGo_le_one (today : Nat) (c : String) (i : Nat) :
    ∀ (bs : List Bug) (db : DayDB),
      matchCount c today db.snippets ≤ 1 →
      (∀ b' ∈ bs, b'.id = i → bugSnippetContent b' = c) →
      matchCount c today (((captureBugsGo today bs db).1).snippets) ≤ 1 ∧
        (1 ≤ countEvents .bug i (captureBugsGo today bs db).2 →
          matchCount c today
            (((captureBugsGo today bs db).1).snippets) = 1)
  | [], db, hle, _ => by
    refine ⟨by simpa [captureBugsGo] using hle, ?_⟩
    intro habs
    simp [captureBugsGo, countEvents] at habs
  | b :: bs, db, hle, hid => by
    by_cases hm : singleMatch (bugSnippetContent b) today db.snippets
    · have ih := captureBugsGo_le_one today c i bs db hle
        (fun b' hb' => hid b' (List.mem_cons_of_mem _ hb'))
      have h0 : captureBugsGo today (b :: bs) db =
          captureBugsGo today bs db := by
        simp only [captureBugsGo, if_pos hm]
      rw [h0]
      exact ih
    · rcases hg : captureBugsGo today bs
        { db with snippets := db.snippets ++ [bugSnippetOf b today] } with
        ⟨db2, evs⟩
      have hlog : (captureBugsGo today (b :: bs) db).2 =
          (⟨SourceKind.bug, b.id⟩ : CaptureEvent) :: evs := by
        simp only [captureBugsGo, if_neg hm, hg]
      have hfst : ((captureBugsGo today (b :: bs) db).1).snippets =
          db2.snippets := by
        simp only [captureBugsGo, if_neg hm, hg]
      by_cases hct : bugSnippetContent b = c
      · have h0 : matchCount c today db.snippets = 0 := by
          have hne1 : matchCount c today db.snippets ≠ 1 := by
            intro h1
            exact hm ((singleMatch_iff _ _ _).mpr (hct.symm ▸ h1))
          omega
        have h1' : matchCount c today
            (db.snippets ++ [bugSnippetOf b today]) = 1 := by
          rw [matchCount_append_single, h0]
          have hyes : (bugSnippetOf b today).content = c ∧
              (bugSnippetOf b today).snippet_date = today := ⟨hct, rfl⟩
          simp [hyes]
        have hst := captureBugsGo_one_stable today c i bs
          { db with snippets := db.snippets ++ [bugSnippetOf b today] } h1'
          (fun b' hb' => hid b' (List.mem_cons_of_mem _ hb'))
        rw [hg] at hst
        replace hst : countEvents SourceKind.bug i evs = 0 ∧
            matchCount c today db2.snippets = 1 := hst
        rw [hfst]
        exact ⟨le_of_eq hst.2, fun _ => hst.2⟩
      · have hbi : b.id ≠ i := by
          intro hbi
          exact hct (hid b (List.mem_cons_self _ _) hbi)
        have hle' : matchCount c today
            (db.snippets ++ [bugSnippetOf b today]) ≤ 1 := by
          rw [matchCount_append_single]
          have hne : ¬ ((bugSnippetOf b today).content = c ∧
              (bugSnippetOf b today).snippet_date = today) :=
            fun hand => hct hand.1
          simpa [hne] using hle
        have ih := captureBugsGo_le_one today c i bs
          { db with snippets := db.snippets ++ [bugSnippetOf b today] }
          hle' (fun b' hb' => hid b' (List.mem_cons_of_mem _ hb'))
        rw [hg] at ih
        replace ih : matchCount c today db2.snippets ≤ 1 ∧
            (1 ≤ countEvents SourceKind.bug i evs →
              matchCount c today db2.snippets = 1) := ih
        rw [hfst, hlog, countEvents_cons,
          if_neg (fun hand => hbi hand.2)]
        simpa using ih


/-- Knowledge events of the capture log, counted per id. -/
theorem countEvents_knowledge_map (i : Nat) :
    ∀ ks : List Knowledge,
      countEvents .knowledge i (ks.map fun k => ⟨.knowledge, k.id⟩) =
        (ks.filter fun x => decide (x.id = i)).length
  | [] => rfl
  | k :: ks => by
    rw [List.map_cons, countEvents_cons, List.filter_cons,
      countEvents_knowledge_map i ks]
    by_cases h : k.id = i
    · rw [if_pos ⟨rfl, h⟩]
      have hd : decide (k.id = i) = true := by simp [h]
      rw [hd, if_pos rfl, List.length_cons]
      omega
    · rw [if_neg (fun hand => h hand.2)]
      have hd : decide (k.id = i) = false := by simp [h]
      rw [hd]
      simp

/-- A row selected by the knowledge-capture query is uncaptured. -/
theorem mem_captureKnowledgeSel {now : Int} {rows : List Knowledge}
    {k : Knowledge} (h : k ∈ captureKnowledgeSel now rows) :
    k ∈ rows ∧ k.captured_as_snippet = none := by
  have h' := List.mem_filter.mp h
  refine ⟨h'.1, ?_⟩
  have := h'.2
  simp only [Bool.and_eq_true, decide_eq_true_eq] at this
  exact this.2

/-- Two successive full capture runs log at most one knowledge event per
source row: the first run sets `captured_as_snippet`, which the second
run's selection excludes. -/
theorem capture_knowledge_once (db : DayDB) (now1 now2 : Int) (today : Nat)
    (hkn : (db.knowledge.map Knowledge.id).Nodup) (k : Knowledge)
    (_hk : k ∈ db.knowledge) :
    countEvents .knowledge k.id
      ((captureAll now1 today db).2 ++
        (captureAll now2 today (captureAll now1 today db).1).2) ≤ 1 := by
  rcases hA1 : captureSnippets now1 today db with ⟨dA, e1⟩
  rcases hA2 : captureTodoSnippets now1 today dA with ⟨dB, e2⟩
  rcases hA3 : captureBugSnippets now1 today dB with ⟨dC, e3⟩
  have hrun1 : captureAll now1 today db = (dC, e1 ++ e2 ++ e3) := by
    simp [captureAll, hA1, hA2, hA3]
  rcases hB1 : captureSnippets now2 today dC with ⟨dD, f1⟩
  rcases hB2 : captureTodoSnippets now2 today dD with ⟨dE, f2⟩
  rcases hB3 : captureBugSnippets now2 today dE with ⟨dF, f3⟩
  have hrun2 : captureAll now2 today dC = (dF, f1 ++ f2 ++ f3) := by
    simp [captureAll, hB1, hB2, hB3]
  rw [hrun1]
  simp only [hrun1, hrun2]
  -- knowledge tables along the chain
  rw [captureSnippets] at hA1 hB1
  rw [captureTodoSnippets] at hA2 hB2
  rw [captureBugSnippets] at hA3 hB3
  have he1 : e1 = (captureKnowledgeSel now1 db.knowledge).map
      fun k => ⟨.knowledge, k.id⟩ := by
    have := captureKnowledgeGo_events today
      (captureKnowledgeSel now1 db.knowledge) db
    rw [hA1] at this
    exact this
  have hdAk : dA.knowledge =
      ((captureKnowledgeGo today (captureKnowledgeSel now1 db.knowledge)
        db).1).knowledge := by rw [hA1]
  have hdBk : dB.knowledge = dA.knowledge := by
    have := (captureTodosGo_frame today
      (captureTodoSel now1 dA.todos) dA).1
    rw [hA2] at this
    exact this
  have hdCk : dC.knowledge = dB.knowledge := by
    have := (captureBugsGo_frame today (captureBugSel now1 dB.bugs) dB).1
    rw [hA3] at this
    exact this
  have hf1 : f1 = (captureKnowledgeSel now2 dC.knowledge).map
      fun k => ⟨.knowledge, k.id⟩ := by
    have := captureKnowledgeGo_events today
      (captureKnowledgeSel now2 dC.knowledge) dC
    rw [hB1] at this
    exact this
  -- kinds of the other phases
  have hz2 : countEvents .knowledge k.id e2 = 0 := by
    apply countEvents_zero_of_kind
    intro e he
    have := captureTodosGo_kinds today (captureTodoSel now1 dA.todos) dA e
      (by rw [hA2]; exact he)
    simp [this]
  have hz3 : countEvents .knowledge k.id e3 = 0 := by
    apply countEvents_zero_of_kind
    intro e he
    have := captureBugsGo_kinds today (captureBugSel now1 dB.bugs) dB e
      (by rw [hA3]; exact he)
    simp [this]
  have hzf2 : countEvents .knowledge k.id f2 = 0 := by
    apply countEvents_zero_of_kind
    intro e he
    have := captureTodosGo_kinds today (captureTodoSel now2 dD.todos) dD e
      (by rw [hB2]; exact he)
    simp [this]
  have hzf3 : countEvents .knowledge k.id f3 = 0 := by
    apply countEvents_zero_of_kind
    intro e he
    have := captureBugsGo_kinds today (captureBugSel now2 dE.bugs) dE e
      (by rw [hB3]; exact he)
    simp [this]
  rw [countEvents_append, countEvents_append, countEvents_append,
    countEvents_append, countEvents_append, hz2, hz3, hzf2, hzf3]
  -- the two knowledge-phase counts
  have hc1 : countEvents .knowledge k.id e1 =
      ((captureKnowledgeSel now1 db.knowledge).filter
        fun x => decide (x.id = k.id)).length := by
    rw [he1, countEvents_knowledge_map]
  have hc2 : countEvents .knowledge k.id f1 =
      ((captureKnowledgeSel now2 dC.knowledge).filter
        fun x => decide (x.id = k.id)).length := by
    rw [hf1, countEvents_knowledge_map]
  have hb1 : countEvents .knowledge k.id e1 ≤ 1 := by
    rw [hc1]
    exact nodup_key_filter_filter_le_one Knowledge.id k.id _ db.knowledge hkn
  have hkn2 : (dC.knowledge.map Knowledge.id).Nodup := by
    rw [hdCk, hdBk, hdAk]
    have := captureKnowledgeGo_kids today
      (captureKnowledgeSel now1 db.knowledge) db
    rw [this]
    exact hkn
  have hb2 : countEvents .knowledge k.id f1 ≤ 1 := by
    rw [hc2]
    exact nodup_key_filter_filter_le_one Knowledge.id k.id _ dC.knowledge hkn2
  rcases Nat.eq_zero_or_pos (countEvents .knowledge k.id e1) with h0 | hpos
  · rw [h0]
    omega
  · -- a first-run event exists, so the flag is set and the second run
    -- selects nothing with this id
    have hex : ∃ k' ∈ captureKnowledgeSel now1 db.knowledge, k'.id = k.id := by
      rw [hc1] at hpos
      obtain ⟨x, hx⟩ := List.exists_mem_of_length_pos hpos
      have hx' := List.mem_filter.mp hx
      exact ⟨x, hx'.1, by simpa using hx'.2⟩
    have hflags := captureKnowledgeGo_flags today k.id
      (captureKnowledgeSel now1 db.knowledge) db hex
    have hzero : countEvents .knowledge k.id f1 = 0 := by
      rw [hc2, List.length_eq_zero, List.filter_eq_nil_iff]
      intro x hx
      simp only [decide_eq_true_eq]
      intro hxi
      have hx' := mem_captureKnowledgeSel hx
      have hxflag := hflags x (by rw [← hdAk, ← hdBk, ← hdCk]; exact hx'.1)
        hxi
      rw [hx'.2] at hxflag
      exact Option.noConfusion hxflag
    rw [hzero]
    omega


/-- Two successive full capture runs log at most one todo event per source
row, provided at most one identical same-day snippet pre-exists and no
knowledge row derives the same content: the first successful insert makes
the `.single()` probe succeed from then on. -/
theorem capture_todo_once (db : DayDB) (now1 now2 : Int) (today : Nat)
    (htn : (db.todos.map Todo.id).Nodup) (t : Todo) (ht : t ∈ db.todos)
    (hpre : matchCount (todoSnippetContent t) today db.snippets ≤ 1)
    (hnok : ∀ k ∈ db.knowledge,
      knowledgeSnippetContent k ≠ todoSnippetContent t) :
    countEvents .todo t.id
      ((captureAll now1 today db).2 ++
        (captureAll now2 today (captureAll now1 today db).1).2) ≤ 1 := by
  rcases hA1 : captureSnippets now1 today db with ⟨dA, e1⟩
  rcases hA2 : captureTodoSnippets now1 today dA with ⟨dB, e2⟩
  rcases hA3 : captureBugSnippets now1 today dB with ⟨dC, e3⟩
  have hrun1 : captureAll now1 today db = (dC, e1 ++ e2 ++ e3) := by
    simp [captureAll, hA1, hA2, hA3]
  rcases hB1 : captureSnippets now2 today dC with ⟨dD, f1⟩
  rcases hB2 : captureTodoSnippets now2 today dD with ⟨dE, f2⟩
  rcases hB3 : captureBugSnippets now2 today dE with ⟨dF, f3⟩
  have hrun2 : captureAll now2 today dC = (dF, f1 ++ f2 ++ f3) := by
    simp [captureAll, hB1, hB2, hB3]
  rw [hrun1]
  simp only [hrun1, hrun2]
  rw [captureSnippets] at hA1 hB1
  rw [captureTodoSnippets] at hA2 hB2
  rw [captureBugSnippets] at hA3 hB3
  -- events of the knowledge and bug phases are of other kinds
  have hz1 : countEvents .todo t.id e1 = 0 := by
    apply countEvents_zero_of_kind
    intro e he
    have he1 := captureKnowledgeGo_events today
      (captureKnowledgeSel now1 db.knowledge) db
    rw [hA1] at he1
    replace he1 : e1 = (captureKnowledgeSel now1 db.knowledge).map
      (fun k => ⟨.knowledge, k.id⟩) := he1
    rw [he1] at he
    obtain ⟨k', _, rfl⟩ := List.mem_map.mp he
    simp
  have hz3 : countEvents .todo t.id e3 = 0 := by
    apply countEvents_zero_of_kind
    intro e he
    have := captureBugsGo_kinds today (captureBugSel now1 dB.bugs) dB e
      (by rw [hA3]; exact he)
    simp [this]
  have hzf1 : countEvents .todo t.id f1 = 0 := by
    apply countEvents_zero_of_kind
    intro e he
    have he1 := captureKnowledgeGo_events today
      (captureKnowledgeSel now2 dC.knowledge) dC
    rw [hB1] at he1
    replace he1 : f1 = (captureKnowledgeSel now2 dC.knowledge).map
      (fun k => ⟨.knowledge, k.id⟩) := he1
    rw [he1] at he
    obtain ⟨k', _, rfl⟩ := List.mem_map.mp he
    simp
  have hzf3 : countEvents .todo t.id f3 = 0 := by
    apply countEvents_zero_of_kind
    intro e he
    have := captureBugsGo_kinds today (captureBugSel now2 dE.bugs) dE e
      (by rw [hB3]; exact he)
    simp [this]
  -- the todo table is never written
  have hdAt : dA.todos = db.todos := by
    have := (captureKnowledgeGo_frame today
      (captureKnowledgeSel now1 db.knowledge) db).1
    rw [hA1] at this
    exact this
  have hdBt : dB.todos = dA.todos := by
    have := (captureTodosGo_frame today (captureTodoSel now1 dA.todos) dA).2.1
    rw [hA2] at this
    exact this
  have hdCt : dC.todos = dB.todos := by
    have := (captureBugsGo_frame today (captureBugSel now1 dB.bugs) dB).2.1
    rw [hA3] at this
    exact this
  have hdDt : dD.todos = dC.todos := by
    have := (captureKnowledgeGo_frame today
      (captureKnowledgeSel now2 dC.knowledge) dC).1
    rw [hB1] at this
    exact this
  -- knowledge tables
  have hdAk : dA.knowledge =
      ((captureKnowledgeGo today (captureKnowledgeSel now1 db.knowledge)
        db).1).knowledge := by rw [hA1]
  have hdBk : dB.knowledge = dA.knowledge := by
    have := (captureTodosGo_frame today (captureTodoSel now1 dA.todos) dA).1
    rw [hA2] at this
    exact this
  have hdCk : dC.knowledge = dB.knowledge := by
    have := (captureBugsGo_frame today (captureBugSel now1 dB.bugs) dB).1
    rw [hA3] at this
    exact this
  -- the selected rows with t's id all derive t's content
  have hid1 : ∀ t' ∈ captureTodoSel now1 dA.todos, t'.id = t.id →
      todoSnippetContent t' = todoSnippetContent t := by
    intro t' ht' hid
    have ht'mem : t' ∈ db.todos := by
      rw [← hdAt]
      exact (List.mem_filter.mp ht').1
    rw [List.inj_on_of_nodup_map htn ht'mem ht hid]
  have hid2 : ∀ t' ∈ captureTodoSel now2 dD.todos, t'.id = t.id →
      todoSnippetContent t' = todoSnippetContent t := by
    intro t' ht' hid
    have ht'mem : t' ∈ db.todos := by
      rw [← hdAt, ← hdBt, ← hdCt, ← hdDt]
      exact (List.mem_filter.mp ht').1
    rw [List.inj_on_of_nodup_map htn ht'mem ht hid]
  -- match counts along the chain
  have hmA : matchCount (todoSnippetContent t) today dA.snippets =
      matchCount (todoSnippetContent t) today db.snippets := by
    have := captureKnowledgeGo_matchCount today (todoSnippetContent t) today
      (captureKnowledgeSel now1 db.knowledge) db
      (fun k' hk' => hnok k' (List.mem_filter.mp hk').1)
    rw [hA1] at this
    exact this
  have hrun1todo := captureTodosGo_le_one today (todoSnippetContent t) t.id
    (captureTodoSel now1 dA.todos) dA (by rw [hmA]; exact hpre) hid1
  rw [hA2] at hrun1todo
  replace hrun1todo : matchCount (todoSnippetContent t) today dB.snippets ≤
      1 ∧ (1 ≤ countEvents SourceKind.todo t.id e2 →
        matchCount (todoSnippetContent t) today dB.snippets = 1) :=
    hrun1todo
  have hmC : matchCount (todoSnippetContent t) today dC.snippets =
      matchCount (todoSnippetContent t) today dB.snippets := by
    have := captureBugsGo_matchCount_other today (todoSnippetContent t)
      today (captureBugSel now1 dB.bugs) dB
      (fun b' _ => (todoContent_ne_bugContent t b').symm)
    rw [hA3] at this
    exact this
  have hnok2 : ∀ k' ∈ captureKnowledgeSel now2 dC.knowledge,
      knowledgeSnippetContent k' ≠ todoSnippetContent t := by
    intro k' hk'
    have hk'mem : k' ∈ dC.knowledge := (List.mem_filter.mp hk').1
    rw [hdCk, hdBk, hdAk] at hk'mem
    obtain ⟨r₀, hr₀, hcase⟩ := captureKnowledgeGo_shape today
      (captureKnowledgeSel now1 db.knowledge) db k' hk'mem
    rcases hcase with h | h
    · rw [h]
      exact hnok r₀ hr₀
    · rw [h]
      exact hnok r₀ hr₀
  have hmD : matchCount (todoSnippetContent t) today dD.snippets =
      matchCount (todoSnippetContent t) today dC.snippets := by
    have := captureKnowledgeGo_matchCount today (todoSnippetContent t) today
      (captureKnowledgeSel now2 dC.knowledge) dC hnok2
    rw [hB1] at this
    exact this
  -- bound the two todo-phase event counts
  have hb1 : countEvents .todo t.id e2 ≤ 1 := by
    have := captureTodosGo_events_le today t.id
      (captureTodoSel now1 dA.todos) dA
    rw [hA2] at this
    refine le_trans this ?_
    rw [hdAt]
    exact nodup_key_filter_filter_le_one Todo.id t.id _ db.todos htn
  have hb2 : countEvents .todo t.id f2 ≤ 1 := by
    have := captureTodosGo_events_le today t.id
      (captureTodoSel now2 dD.todos) dD
    rw [hB2] at this
    refine le_trans this ?_
    rw [hdDt, hdCt, hdBt, hdAt]
    exact nodup_key_filter_filter_le_one Todo.id t.id _ db.todos htn
  rw [countEvents_append, countEvents_append, countEvents_append,
    countEvents_append, countEvents_append, hz1, hz3, hzf1, hzf3]
  rcases Nat.eq_zero_or_pos (countEvents .todo t.id e2) with h0 | hpos
  · rw [h0]
    omega
  · have hone : matchCount (todoSnippetContent t) today dD.snippets = 1 := by
      rw [hmD, hmC]
      exact hrun1todo.2 hpos
    have hstable := captureTodosGo_one_stable today (todoSnippetContent t)
      t.id (captureTodoSel now2 dD.todos) dD hone hid2
    rw [hB2] at hstable
    replace hstable : countEvents SourceKind.todo t.id f2 = 0 ∧
        matchCount (todoSnippetContent t) today dE.snippets = 1 := hstable
    rw [hstable.1]
    omega


/-- Two successive full capture runs log at most one bug event per source
row, under the analogous side conditions. -/
theorem capture_bug_once (db : DayDB) (now1 now2 : Int) (today : Nat)
    (hbn : (db.bugs.map Bug.id).Nodup) (b : Bug) (hb : b ∈ db.bugs)
    (hpre : matchCount (bugSnippetContent b) today db.snippets ≤ 1)
    (hnok : ∀ k ∈ db.knowledge,
      knowledgeSnippetContent k ≠ bugSnippetContent b) :
    countEvents .bug b.id
      ((captureAll now1 today db).2 ++
        (captureAll now2 today (captureAll now1 today db).1).2) ≤ 1 := by
  rcases hA1 : captureSnippets now1 today db with ⟨dA, e1⟩
  rcases hA2 : captureTodoSnippets now1 today dA with ⟨dB, e2⟩
  rcases hA3 : captureBugSnippets now1 today dB with ⟨dC, e3⟩
  have hrun1 : captureAll now1 today db = (dC, e1 ++ e2 ++ e3) := by
    simp [captureAll, hA1, hA2, hA3]
  rcases hB1 : captureSnippets now2 today dC with ⟨dD, f1⟩
  rcases hB2 : captureTodoSnippets now2 today dD with ⟨dE, f2⟩
  rcases hB3 : captureBugSnippets now2 today dE with ⟨dF, f3⟩
  have hrun2 : captureAll now2 today dC = (dF, f1 ++ f2 ++ f3) := by
    simp [captureAll, hB1, hB2, hB3]
  rw [hrun1]
  simp only [hrun1, hrun2]
  rw [captureSnippets] at hA1 hB1
  rw [captureTodoSnippets] at hA2 hB2
  rw [captureBugSnippets] at hA3 hB3
  -- events of the knowledge and todo phases are of other kinds
  have hz1 : countEvents .bug b.id e1 = 0 := by
    apply countEvents_zero_of_kind
    intro e he
    have he1 := captureKnowledgeGo_events today
      (captureKnowledgeSel now1 db.knowledge) db
    rw [hA1] at he1
    replace he1 : e1 = (captureKnowledgeSel now1 db.knowledge).map
      (fun k => ⟨.knowledge, k.id⟩) := he1
    rw [he1] at he
    obtain ⟨k', _, rfl⟩ := List.mem_map.mp he
    simp
  have hz2 : countEvents .bug b.id e2 = 0 := by
    apply countEvents_zero_of_kind
    intro e he
    have := captureTodosGo_kinds today (captureTodoSel now1 dA.todos) dA e
      (by rw [hA2]; exact he)
    simp [this]
  have hzf1 : countEvents .bug b.id f1 = 0 := by
    apply countEvents_zero_of_kind
    intro e he
    have he1 := captureKnowledgeGo_events today
      (captureKnowledgeSel now2 dC.knowledge) dC
    rw [hB1] at he1
    replace he1 : f1 = (captureKnowledgeSel now2 dC.knowledge).map
      (fun k => ⟨.knowledge, k.id⟩) := he1
    rw [he1] at he
    obtain ⟨k', _, rfl⟩ := List.mem_map.mp he
    simp
  have hzf2 : countEvents .bug b.id f2 = 0 := by
    apply countEvents_zero_of_kind
    intro e he
    have := captureTodosGo_kinds today (captureTodoSel now2 dD.todos) dD e
      (by rw [hB2]; exact he)
    simp [this]
  -- the bug table is never written
  have hdAb : dA.bugs = db.bugs := by
    have := (captureKnowledgeGo_frame today
      (captureKnowledgeSel now1 db.knowledge) db).2
    rw [hA1] at this
    exact this
  have hdBb : dB.bugs = dA.bugs := by
    have := (captureTodosGo_frame today (captureTodoSel now1 dA.todos) dA).2.2
    rw [hA2] at this
    exact this
  have hdCb : dC.bugs = dB.bugs := by
    have := (captureBugsGo_frame today (captureBugSel now1 dB.bugs) dB).2.2
    rw [hA3] at this
    exact this
  have hdDb : dD.bugs = dC.bugs := by
    have := (captureKnowledgeGo_frame today
      (captureKnowledgeSel now2 dC.knowledge) dC).2
    rw [hB1] at this
    exact this
  have hdEb : dE.bugs = dD.bugs := by
    have := (captureTodosGo_frame today (captureTodoSel now2 dD.todos) dD).2.2
    rw [hB2] at this
    exact this
  -- knowledge tables
  have hdAk : dA.knowledge =
      ((captureKnowledgeGo today (captureKnowledgeSel now1 db.knowledge)
        db).1).knowledge := by rw [hA1]
  have hdBk : dB.knowledge = dA.knowledge := by
    have := (captureTodosGo_frame today (captureTodoSel now1 dA.todos) dA).1
    rw [hA2] at this
    exact this
  have hdCk : dC.knowledge = dB.knowledge := by
    have := (captureBugsGo_frame today (captureBugSel now1 dB.bugs) dB).1
    rw [hA3] at this
    exact this
  -- the selected rows with b's id all derive b's content
  have hid1 : ∀ b' ∈ captureBugSel now1 dB.bugs, b'.id = b.id →
      bugSnippetContent b' = bugSnippetContent b := by
    intro b' hb' hid
    have hb'mem : b' ∈ db.bugs := by
      rw [← hdAb, ← hdBb]
      exact (List.mem_filter.mp hb').1
    rw [List.inj_on_of_nodup_map hbn hb'mem hb hid]
  have hid2 : ∀ b' ∈ captureBugSel now2 dE.bugs, b'.id = b.id →
      bugSnippetContent b' = bugSnippetContent b := by
    intro b' hb' hid
    have hb'mem : b' ∈ db.bugs := by
      rw [← hdAb, ← hdBb, ← hdCb, ← hdDb, ← hdEb]
      exact (List.mem_filter.mp hb').1
    rw [List.inj_on_of_nodup_map hbn hb'mem hb hid]
  -- match counts along the chain
  have hmA : matchCount (bugSnippetContent b) today dA.snippets =
      matchCount (bugSnippetContent b) today db.snippets := by
    have := captureKnowledgeGo_matchCount today (bugSnippetContent b) today
      (captureKnowledgeSel now1 db.knowledge) db
      (fun k' hk' => hnok k' (List.mem_filter.mp hk').1)
    rw [hA1] at this
    exact this
  have hmB : matchCount (bugSnippetContent b) today dB.snippets =
      matchCount (bugSnippetContent b) today dA.snippets := by
    have := captureTodosGo_matchCount_other today (bugSnippetContent b)
      today (captureTodoSel now1 dA.todos) dA
      (fun t' _ => todoContent_ne_bugContent t' b)
    rw [hA2] at this
    exact this
  have hrun1bug := captureBugsGo_le_one today (bugSnippetContent b) b.id
    (captureBugSel now1 dB.bugs) dB (by rw [hmB, hmA]; exact hpre) hid1
  rw [hA3] at hrun1bug
  replace hrun1bug : matchCount (bugSnippetContent b) today dC.snippets ≤
      1 ∧ (1 ≤ countEvents SourceKind.bug b.id e3 →
        matchCount (bugSnippetContent b) today dC.snippets = 1) :=
    hrun1bug
  have hnok2 : ∀ k' ∈ captureKnowledgeSel now2 dC.knowledge,
      knowledgeSnippetContent k' ≠ bugSnippetContent b := by
    intro k' hk'
    have hk'mem : k' ∈ dC.knowledge := (List.mem_filter.mp hk').1
    rw [hdCk, hdBk, hdAk] at hk'mem
    obtain ⟨r₀, hr₀, hcase⟩ := captureKnowledgeGo_shape today
      (captureKnowledgeSel now1 db.knowledge) db k' hk'mem
    rcases hcase with h | h
    · rw [h]
      exact hnok r₀ hr₀
    · rw [h]
      exact hnok r₀ hr₀
  have hmD : matchCount (bugSnippetContent b) today dD.snippets =
      matchCount (bugSnippetContent b) today dC.snippets := by
    have := captureKnowledgeGo_matchCount today (bugSnippetContent b) today
      (captureKnowledgeSel now2 dC.knowledge) dC hnok2
    rw [hB1] at this
    exact this
  have hmE : matchCount (bugSnippetContent b) today dE.snippets =
      matchCount (bugSnippetContent b) today dD.snippets := by
    have := captureTodosGo_matchCount_other today (bugSnippetContent b)
      today (captureTodoSel now2 dD.todos) dD
      (fun t' _ => todoContent_ne_bugContent t' b)
    rw [hB2] at this
    exact this
  -- bound the two bug-phase event counts
  have hb1 : countEvents .bug b.id e3 ≤ 1 := by
    have := captureBugsGo_events_le today b.id
      (captureBugSel now1 dB.bugs) dB
    rw [hA3] at this
    refine le_trans this ?_
    rw [hdBb, hdAb]
    exact nodup_key_filter_filter_le_one Bug.id b.id _ db.bugs hbn
  have hb2 : countEvents .bug b.id f3 ≤ 1 := by
    have := captureBugsGo_events_le today b.id
      (captureBugSel now2 dE.bugs) dE
    rw [hB3] at this
    refine le_trans this ?_
    rw [hdEb, hdDb, hdCb, hdBb, hdAb]
    exact nodup_key_filter_filter_le_one Bug.id b.id _ db.bugs hbn
  rw [countEvents_append, countEvents_append, countEvents_append,
    countEvents_append, countEvents_append, hz1, hz2, hzf1, hzf2]
  rcases Nat.eq_zero_or_pos (countEvents .bug b.id e3) with h0 | hpos
  · rw [h0]
    omega
  · have hone : matchCount (bugSnippetContent b) today dE.snippets = 1 := by
      rw [hmE, hmD]
      exact hrun1bug.2 hpos
    have hstable := captureBugsGo_one_stable today (bugSnippetContent b)
      b.id (captureBugSel now2 dE.bugs) dE hone hid2
    rw [hB3] at hstable
    replace hstable : countEvents SourceKind.bug b.id f3 = 0 ∧
        matchCount (bugSnippetContent b) today dF.snippets = 1 := hstable
    rw [hstable.1]
    omega


/-! ## C2 — at-most-once capture -/

/-- C2 fails on the code as stated: for knowledge rows, `captureSnippets`
performs no same-day duplicate-content check at all — at a state that
already holds a same-day snippet whose content equals the row's derived
content, the insert still happens, leaving two identical snippets.  (The
check exists only in the todo and bug capture paths.) -/
theorem capture_dedup_counterexample :
    matchCount "T" 7 cxCaptureDB.snippets = 1 ∧
      cxKnow ∈ captureKnowledgeSel 0 cxCaptureDB.knowledge ∧
      knowledgeSnippetContent cxKnow = "T" ∧
      matchCount "T" 7 (((captureSnippets 0 7 cxCaptureDB).1).snippets) =
        2 := by
  decide

/-- C2 (amended): with unique ids, running the full capture step twice
with no change to the sources in between inserts at most one snippet per
source record.  For knowledge rows this is enforced by the
`captured_as_snippet` flag (set on capture, filtered on selection) — there
is no duplicate-content check on that path.  For todos and bugs it is
enforced by the same-day identical-content `.single()` probe, provided at
most one identical same-day snippet pre-exists and no concurrently
captured knowledge row derives the same content. -/
theorem capture_at_most_once_per_record
    (db : DayDB) (now1 now2 : Int) (today : Nat)
    (hkn : (db.knowledge.map Knowledge.id).Nodup)
    (htn : (db.todos.map Todo.id).Nodup)
    (hbn : (db.bugs.map Bug.id).Nodup) :
    (∀ k ∈ db.knowledge,
      countEvents .knowledge k.id
        ((captureAll now1 today db).2 ++
          (captureAll now2 today (captureAll now1 today db).1).2) ≤ 1) ∧
    (∀ t ∈ db.todos,
      matchCount (todoSnippetContent t) today db.snippets ≤ 1 →
      (∀ k ∈ db.knowledge,
        knowledgeSnippetContent k ≠ todoSnippetContent t) →
      countEvents .todo t.id
        ((captureAll now1 today db).2 ++
          (captureAll now2 today (captureAll now1 today db).1).2) ≤ 1) ∧
    (∀ b ∈ db.bugs,
      matchCount (bugSnippetContent b) today db.snippets ≤ 1 →
      (∀ k ∈ db.knowledge,
        knowledgeSnippetContent k ≠ bugSnippetContent b) →
      countEvents .bug b.id
        ((captureAll now1 today db).2 ++
          (captureAll now2 today (captureAll now1 today db).1).2) ≤ 1) :=
  ⟨fun k hk => capture_knowledge_once db now1 now2 today hkn k hk,
    fun t ht hpre hnok =>
      capture_todo_once db now1 now2 today htn t ht hpre hnok,
    fun b hb hpre hnok =>
      capture_bug_once db now1 now2 today hbn b hb hpre hnok⟩

/-- Witness for `capture_at_most_once_per_record` on a store with one row
of each source kind. -/
theorem capture_at_most_once_witness :
    (wDayDB.knowledge.map Knowledge.id).Nodup ∧
      (wDayDB.todos.map Todo.id).Nodup ∧
      (wDayDB.bugs.map Bug.id).Nodup ∧
      matchCount (todoSnippetContent wTodo) 5 wDayDB.snippets ≤ 1 ∧
      matchCount (bugSnippetContent wBug) 5 wDayDB.snippets ≤ 1 ∧
      (∀ k ∈ wDayDB.knowledge,
        knowledgeSnippetContent k ≠ todoSnippetContent wTodo) ∧
      (∀ k ∈ wDayDB.knowledge,
        knowledgeSnippetContent k ≠ bugSnippetContent wBug) ∧
      countEvents .knowledge wKnow.id
        ((captureAll 0 5 wDayDB).2 ++
          (captureAll 10 5 (captureAll 0 5 wDayDB).1).2) ≤ 1 ∧
      countEvents .todo wTodo.id
        ((captureAll 0 5 wDayDB).2 ++
          (captureAll 10 5 (captureAll 0 5 wDayDB).1).2) ≤ 1 ∧
      countEvents .bug wBug.id
        ((captureAll 0 5 wDayDB).2 ++
          (captureAll 10 5 (captureAll 0 5 wDayDB).1).2) ≤ 1 :=
  ⟨by decide, by decide, by decide, by decide, by decide, by decide,
    by decide,
    (capture_at_most_once_per_record wDayDB 0 10 5 (by decide) (by decide)
      (by decide)).1 wKnow (by decide),
    (capture_at_most_once_per_record wDayDB 0 10 5 (by decide) (by decide)
      (by decide)).2.1 wTodo (by decide) (by decide) (by decide),
    (capture_at_most_once_per_record wDayDB 0 10 5 (by decide) (by decide)
      (by decide)).2.2 wBug (by decide) (by decide) (by decide)⟩


/-! ## Compilation engine — shared lemmas (C3, C4, C5, C9) -/


/-- Updated journal rows keep their ids whenever the update does. -/
theorem map_upd_ids_journal (rows : List Journal) (f : Journal → Journal)
    (hf : ∀ r, (f r).id = r.id) :
    (rows.map f).map Journal.id = rows.map Journal.id := by
  rw [List.map_map]
  exact List.map_congr_left fun r _ => hf r

/-- Membership in the JavaScript `Set`-deduplicated list. -/
theorem mem_jsSetDedup_go (x : String) :
    ∀ (l acc : List String),
      (x ∈ l.foldl (fun acc p => if p ∈ acc then acc else acc ++ [p]) acc ↔
        x ∈ acc ∨ x ∈ l)
  | [], acc => by simp
  | a :: l, acc => by
    rw [List.foldl_cons]
    rw [mem_jsSetDedup_go x l]
    by_cases h : a ∈ acc
    · rw [if_pos h]
      constructor
      · rintro (hx | hx)
        · exact Or.inl hx
        · exact Or.inr (List.mem_cons_of_mem _ hx)
      · rintro (hx | hx)
        · exact Or.inl hx
        · rcases List.mem_cons.mp hx with rfl | hx
          · exact Or.inl h
          · exact Or.inr hx
    · rw [if_neg h]
      constructor
      · rintro (hx | hx)
        · rcases List.mem_append.mp hx with hx | hx
          · exact Or.inl hx
          · have hxa : x = a := by simpa using hx
            exact Or.inr (hxa ▸ List.mem_cons_self a l)
        · exact Or.inr (List.mem_cons_of_mem _ hx)
      · rintro (hx | hx)
        · exact Or.inl (List.mem_append.mpr (Or.inl hx))
        · rcases List.mem_cons.mp hx with rfl | hx
          · exact Or.inl (List.mem_append.mpr (Or.inr (by simp)))
          · exact Or.inr hx

/-- `[...new Set(xs)]` has the same members as `xs`. -/
theorem mem_jsSetDedup (x : String) (l : List String) :
    x ∈ jsSetDedup l ↔ x ∈ l := by
  rw [jsSetDedup, mem_jsSetDedup_go]
  simp

/-- Membership in the per-project fetch. -/
theorem mem_getRecent_iff (now : Int) (db : SummaryDB) (p : String)
    (e : Journal) :
    e ∈ getRecentJournalEntries now db p ↔
      e ∈ db.journal ∧ journalSel now p e = true := by
  rw [getRecentJournalEntries, (sortRows_perm _ _).mem_iff, List.mem_filter]

/-- A selectable row puts its project among the active projects. -/
theorem mem_getActiveProjects (now : Int) (db : SummaryDB) (e : Journal)
    (he : e ∈ db.journal) (hsel : activeSel now e = true) :
    e.project_path ∈ getActiveProjects now db := by
  rw [getActiveProjects, mem_jsSetDedup]
  exact List.mem_map_of_mem _ (List.mem_filter.mpr ⟨he, hsel⟩)

/-- `archiveEntries` preserves the id column. -/
theorem archiveEntries_ids (now : Int) (ids : List Nat) (d : Nat)
    (rows : List Journal) :
    (archiveEntries now ids d rows).map Journal.id = rows.map Journal.id := by
  rw [archiveEntries]
  split
  · rfl
  · exact map_upd_ids_journal rows _ fun e => by
      by_cases h : e.id ∈ ids <;> simp [h]

/-- Every row of an archived table is an original row, either untouched
(id outside the list) or with exactly the three archival fields set. -/
theorem archiveEntries_shape (now : Int) (ids : List Nat) (d : Nat)
    (rows : List Journal) :
    ∀ r ∈ archiveEntries now ids d rows, ∃ r₀ ∈ rows,
      (r₀.id ∉ ids ∧ r = r₀) ∨
        (r₀.id ∈ ids ∧
          r = { r₀ with is_archived := some true, archived_at := some now,
                        archived_into := some d }) := by
  rw [archiveEntries]
  split
  · exact fun r hr => ⟨r, hr, Or.inl ⟨by simp_all, rfl⟩⟩
  · intro r hr
    obtain ⟨r₀, hr₀, rfl⟩ := List.mem_map.mp hr
    by_cases h : r₀.id ∈ ids
    · exact ⟨r₀, hr₀, Or.inr ⟨h, by rw [if_pos h]⟩⟩
    · exact ⟨r₀, hr₀, Or.inl ⟨h, by rw [if_neg h]⟩⟩

/-- Archiving maps a listed original row to its archived image. -/
theorem archiveEntries_image (now : Int) (ids : List Nat) (d : Nat)
    (rows : List Journal) (e : Journal) (he : e ∈ rows) (hid : e.id ∈ ids) :
    ({ e with is_archived := some true, archived_at := some now,
              archived_into := some d } : Journal) ∈
      archiveEntries now ids d rows := by
  rw [archiveEntries]
  split
  · simp_all
  · have hmem := List.mem_map_of_mem
      (fun e : Journal =>
        if e.id ∈ ids then
          { e with is_archived := some true, archived_at := some now,
                   archived_into := some d }
        else e) he
    simpa only [if_pos hid] using hmem

/-- Archiving leaves rows with unlisted ids untouched. -/
theorem archiveEntries_frame (now : Int) (ids : List Nat) (d : Nat)
    (rows : List Journal) (i : Nat) (hni : i ∉ ids) :
    ∀ r ∈ archiveEntries now ids d rows, r.id = i → r ∈ rows := by
  intro r hr hri
  obtain ⟨r₀, hr₀, hcase⟩ := archiveEntries_shape now ids d rows r hr
  rcases hcase with ⟨_, rfl⟩ | ⟨hin, rfl⟩
  · exact hr₀
  · exact absurd (hri ▸ hin) hni

/-- Archiving keeps listed originals reachable: a row with a listed id in
the input yields a row with that id in the output. -/
theorem archiveEntries_exists (now : Int) (ids : List Nat) (d : Nat)
    (rows : List Journal) (i : Nat) (e : Journal) (he : e ∈ rows)
    (hei : e.id = i) :
    ∃ r ∈ archiveEntries now ids d rows, r.id = i := by
  rw [archiveEntries]
  split
  · exact ⟨e, he, hei⟩
  · refine ⟨_, List.mem_map_of_mem _ he, ?_⟩
    show (if e.id ∈ ids then
      ({ e with is_archived := some true, archived_at := some now,
                archived_into := some d } : Journal)
      else e).id = i
    by_cases h : e.id ∈ ids
    · rw [if_pos h]
      exact hei
    · rw [if_neg h]
      exact hei



/-- A list with a nonempty left part is nonempty. -/
theorem append_left_ne_nil {α : Type} (l1 l2 : List α) (h : l1 ≠ []) :
    l1 ++ l2 ≠ [] := by
  intro hn
  exact h (List.append_eq_nil.mp hn).1

/-- A string with nonempty data is not the empty string. -/
theorem ne_empty_of_data (s : String) (h : s.data ≠ []) : s ≠ "" := by
  intro he
  rw [he] at h
  exact h rfl

/-- A nonempty string has nonempty data. -/
theorem data_ne_nil_of_ne_empty (s : String) (h : s ≠ "") : s.data ≠ [] := by
  intro hd
  exact h (by cases s; simp_all)

/-- A formatted entry block is never the empty string. -/
theorem formatEntry_ne_empty (fmtTime : Int → String) (e : Journal) :
    formatEntry fmtTime e ≠ "" := by
  apply ne_empty_of_data
  rw [formatEntry]
  simp only [String.data_append]
  apply append_left_ne_nil
  apply append_left_ne_nil
  apply append_left_ne_nil
  apply append_left_ne_nil
  apply append_left_ne_nil
  apply append_left_ne_nil
  decide

/-- Joining a list headed by a nonempty string is nonempty. -/
theorem joinNL_ne_empty (x : String) (xs : List String) (hx : x ≠ "") :
    joinNL (x :: xs) ≠ "" := by
  cases xs with
  | nil => exact hx
  | cons y ys =>
    apply ne_empty_of_data
    rw [joinNL]
    · simp only [String.data_append]
      apply append_left_ne_nil
      apply append_left_ne_nil
      exact data_ne_nil_of_ne_empty x hx
    · intro hcontra
      exact List.cons_ne_nil y ys hcontra

/-- The raw concatenation of a nonempty entry list is nonempty. -/
theorem formattedEntries_ne_empty (fmtTime : Int → String)
    (entries : List Journal) (h : entries ≠ []) :
    formattedEntries fmtTime entries ≠ "" := by
  obtain ⟨e, es, rfl⟩ := List.exists_cons_of_ne_nil h
  rw [formattedEntries, List.map_cons]
  exact joinNL_ne_empty _ _ (formatEntry_ne_empty fmtTime e)

/-- For a nonempty category, `generateCategoryDoc` yields some nonempty
content whenever the collaborator never returns empty text. -/
theorem generateCategoryDoc_content (ai : String → Except Unit String)
    (fmtTime : Int → String) (pn c : String) (entries : List Journal)
    (today : String)
    (hai : ∀ p r, ai p = .ok r → r ≠ "") (h : entries ≠ []) :
    ∃ content, generateCategoryDoc ai fmtTime pn c entries today =
        some content ∧ content ≠ "" := by
  rw [generateCategoryDoc, if_neg (by simpa [List.isEmpty_iff] using h)]
  cases hr : ai (categoryPrompt pn c today (formattedEntries fmtTime entries))
      with
  | ok r =>
    refine ⟨r, ?_, hai _ r hr⟩
    simp [hr]
  | error u =>
    refine ⟨formattedEntries fmtTime entries, ?_,
      formattedEntries_ne_empty fmtTime entries h⟩
    simp [hr]

/-- C9 core: when the synthesis call fails, the category document content
is exactly the timestamp-ordered raw concatenation of the entries. -/
theorem generateCategoryDoc_fallback (ai : String → Except Unit String)
    (fmtTime : Int → String) (pn c : String) (entries : List Journal)
    (today : String) (h : entries ≠ [])
    (hfail : ai (categoryPrompt pn c today
      (formattedEntries fmtTime entries)) = .error ()) :
    generateCategoryDoc ai fmtTime pn c entries today =
      some (formattedEntries fmtTime entries) := by
  rw [generateCategoryDoc, if_neg (by simpa [List.isEmpty_iff] using h)]
  simp [hfail]

/-- The per-category loop never touches the snippets. -/
theorem processCategories_snippets (ai : String → Except Unit String)
    (fmtTime : Int → String) (now : Int) (today pn p : String)
    (entries : List Journal) :
    ∀ (cats : List String) (db : SummaryDB),
      (processCategories ai fmtTime now today pn p entries db cats).1.snippets = db.snippets
  | [], _ => rfl
  | c :: cs, db => by
    by_cases hE : ((entries.filter fun e =>
        decide (e.entry_type = c)).isEmpty : Bool)
    · have ih := processCategories_snippets ai fmtTime now today pn p
        entries cs db
      have h0 : processCategories ai fmtTime now today pn p entries db
          (c :: cs) = processCategories ai fmtTime now today pn p entries
          db cs := by
        simp only [processCategories, if_pos hE]
      rw [h0]
      exact ih
    · cases hgen : generateCategoryDoc ai fmtTime pn c
        (entries.filter fun e => decide (e.entry_type = c)) today with
      | none =>
        have ih := processCategories_snippets ai fmtTime now today pn p
          entries cs db
        have h0 : processCategories ai fmtTime now today pn p entries db
            (c :: cs) = processCategories ai fmtTime now today pn p entries
            db cs := by
          simp only [processCategories, if_neg hE, hgen]
        rw [h0]
        exact ih
      | some content =>
        by_cases hc : content = ""
        · have ih := processCategories_snippets ai fmtTime now today pn p
            entries cs db
          have h0 : processCategories ai fmtTime now today pn p entries db
              (c :: cs) = processCategories ai fmtTime now today pn p
              entries db cs := by
            simp only [processCategories, if_neg hE, hgen, if_pos hc]
          rw [h0]
          exact ih
        · rcases hcv : createVersionedDoc db p c
            (categoryLabel c ++ " - " ++ today) content now with ⟨db', doc⟩
          rcases hg : processCategories ai fmtTime now today pn p entries
            db' cs with ⟨db2, ids⟩
          have h0 : processCategories ai fmtTime now today pn p entries db
              (c :: cs) = (db2, doc.id :: ids) := by
            simp only [processCategories, if_neg hE, hgen, if_neg hc, hcv,
              hg]
          have ih := processCategories_snippets ai fmtTime now today pn p
            entries cs db'
          rw [hg] at ih
          have hdb' : db'.snippets = db.snippets := by
            have : (createVersionedDoc db p c
                (categoryLabel c ++ " - " ++ today) content now).1.snippets =
                db.snippets := rfl
            rw [hcv] at this
            exact this
          rw [h0]
          exact ih.trans hdb'


/-- Journal rows are identified by their id when the id column is
duplicate-free. -/
theorem journal_id_inj {rows : List Journal}
    (hnd : (rows.map Journal.id).Nodup) {a b : Journal} (ha : a ∈ rows)
    (hb : b ∈ rows) (h : a.id = b.id) : a = b :=
  List.inj_on_of_nodup_map hnd ha hb h

/-- The dedup fold keeps its accumulator duplicate-free. -/
theorem jsSetDedup_go_nodup :
    ∀ (l acc : List String), acc.Nodup →
      (l.foldl (fun acc p => if p ∈ acc then acc else acc ++ [p]) acc).Nodup
  | [], _, h => h
  | a :: l, acc, h => by
    rw [List.foldl_cons]
    by_cases ha : a ∈ acc
    · rw [if_pos ha]
      exact jsSetDedup_go_nodup l acc h
    · rw [if_neg ha]
      refine jsSetDedup_go_nodup l _
        (List.Nodup.append h (List.nodup_singleton a) ?_)
      intro x hx hxa
      rw [List.mem_singleton] at hxa
      exact ha (hxa ▸ hx)

/-- The distinct active-project list is duplicate-free. -/
theorem jsSetDedup_nodup (l : List String) : (jsSetDedup l).Nodup :=
  jsSetDedup_go_nodup l [] List.nodup_nil

/-- Every archived-output row bearing a listed id carries the three
archival marks. -/
theorem archiveEntries_archived (now : Int) (ids : List Nat) (d : Nat)
    (rows : List Journal) (i : Nat) (hi : i ∈ ids) :
    ∀ e ∈ archiveEntries now ids d rows, e.id = i →
      e.is_archived = some true ∧ e.archived_at = some now ∧
        e.archived_into = some d := by
  intro e he hei
  obtain ⟨r₀, _, hcase⟩ := archiveEntries_shape now ids d rows e he
  rcases hcase with ⟨hni, rfl⟩ | ⟨_, rfl⟩
  · rw [← hei] at hi
    exact absurd hi hni
  · exact ⟨rfl, rfl, rfl⟩

/-- Archiving leaves a row whose id is unlisted in place, unchanged. -/
theorem archiveEntries_keeps (now : Int) (ids : List Nat) (d : Nat)
    (rows : List Journal) (e : Journal) (he : e ∈ rows)
    (hni : e.id ∉ ids) : e ∈ archiveEntries now ids d rows := by
  rw [archiveEntries]
  split
  · exact he
  · have hmem := List.mem_map_of_mem
      (fun e : Journal =>
        if e.id ∈ ids then
          { e with is_archived := some true, archived_at := some now,
                   archived_into := some d }
        else e) he
    simpa only [if_neg hni] using hmem

/-- The selection query never returns archived rows. -/
theorem journalSel_archived (now : Int) (q : String) (e : Journal)
    (h : e.is_archived = some true) : journalSel now q e = false := by
  simp [journalSel, h]

/-- The selection query never returns rows written by the compiler. -/
theorem journalSel_compiler (now : Int) (q : String) (e : Journal)
    (h : e.created_by = some summaryCreator) : journalSel now q e = false := by
  simp [journalSel, h]

/-- The four tests a selectable row passes. -/
theorem journalSel_true_iff (now : Int) (q : String) (e : Journal) :
    journalSel now q e = true ↔
      e.project_path = q ∧ now - twentyFourHours ≤ e.created_at ∧
        e.created_by ≠ some summaryCreator ∧
        (e.is_archived = none ∨ e.is_archived = some false) := by
  simp [journalSel, and_assoc]

/-- An archive flag other than `some true` is `none` or `some false`. -/
theorem unarchived_cases (o : Option Bool) (h : o ≠ some true) :
    o = none ∨ o = some false := by
  cases o with
  | none => exact Or.inl rfl
  | some b =>
    cases b with
    | false => exact Or.inr rfl
    | true => exact absurd rfl h

/-- Shape of the per-category loop: it appends freshly numbered
compiler-created documents to the journal and returns exactly their ids. -/
theorem processCategories_shape (ai : String → Except Unit String)
    (fmtTime : Int → String) (now : Int) (today pn p : String)
    (entries : List Journal) :
    ∀ (cats : List String) (db : SummaryDB), ∃ docs : List Journal,
      (processCategories ai fmtTime now today pn p entries db cats).1.journal
          = db.journal ++ docs ∧
      (processCategories ai fmtTime now today pn p entries db cats).1.nextId
          = db.nextId + docs.length ∧
      (processCategories ai fmtTime now today pn p entries db cats).2
          = docs.map (fun e => e.id) ∧
      (docs.map (fun e => e.id)).Nodup ∧
      ∀ e ∈ docs, db.nextId ≤ e.id ∧ e.id < db.nextId + docs.length ∧
        e.created_by = some summaryCreator ∧ e.is_archived = none ∧
        e.project_path = p ∧ e.created_at = now
  | [], db => ⟨[], by simp [processCategories]⟩
  | c :: cs, db => by
    by_cases hE : ((entries.filter fun e =>
        decide (e.entry_type = c)).isEmpty : Bool)
    · obtain ⟨docs, h1, h2, h3, h4, h5⟩ :=
        processCategories_shape ai fmtTime now today pn p entries cs db
      have h0 : processCategories ai fmtTime now today pn p entries db
          (c :: cs) =
          processCategories ai fmtTime now today pn p entries db cs := by
        simp only [processCategories, if_pos hE]
      exact ⟨docs, by rw [h0]; exact h1, by rw [h0]; exact h2,
        by rw [h0]; exact h3, h4, h5⟩
    · cases hgen : generateCategoryDoc ai fmtTime pn c
        (entries.filter fun e => decide (e.entry_type = c)) today with
      | none =>
        obtain ⟨docs, h1, h2, h3, h4, h5⟩ :=
          processCategories_shape ai fmtTime now today pn p entries cs db
        have h0 : processCategories ai fmtTime now today pn p entries db
            (c :: cs) =
            processCategories ai fmtTime now today pn p entries db cs := by
          simp only [processCategories, if_neg hE, hgen]
        exact ⟨docs, by rw [h0]; exact h1, by rw [h0]; exact h2,
          by rw [h0]; exact h3, h4, h5⟩
      | some content =>
        by_cases hc : content = ""
        · obtain ⟨docs, h1, h2, h3, h4, h5⟩ :=
            processCategories_shape ai fmtTime now today pn p entries cs db
          have h0 : processCategories ai fmtTime now today pn p entries db
              (c :: cs) =
              processCategories ai fmtTime now today pn p entries db cs := by
            simp only [processCategories, if_neg hE, hgen, if_pos hc]
          exact ⟨docs, by rw [h0]; exact h1, by rw [h0]; exact h2,
            by rw [h0]; exact h3, h4, h5⟩
        · rcases hcv : createVersionedDoc db p c
            (categoryLabel c ++ " - " ++ today) content now with ⟨db', doc⟩
          rcases hg : processCategories ai fmtTime now today pn p entries
            db' cs with ⟨db2, ids⟩
          have h0 : processCategories ai fmtTime now today pn p entries db
              (c :: cs) = (db2, doc.id :: ids) := by
            simp only [processCategories, if_neg hE, hgen, if_neg hc, hcv,
              hg]
          have hcv' := hcv
          simp only [createVersionedDoc] at hcv'
          injection hcv' with hdb' hdoc
          obtain ⟨docs, h1, h2, h3, h4, h5⟩ :=
            processCategories_shape ai fmtTime now today pn p entries cs db'
          rw [hg] at h1 h2 h3
          replace h1 : db2.journal = db'.journal ++ docs := h1
          replace h2 : db2.nextId = db'.nextId + docs.length := h2
          replace h3 : ids = docs.map (fun e => e.id) := h3
          have hdj : db'.journal = db.journal ++ [doc] := by
            rw [← hdb']
            show db.journal ++ [_] = db.journal ++ [doc]
            rw [hdoc]
          have hdn : db'.nextId = db.nextId + 1 := by
            rw [← hdb']
          have hdocid : doc.id = db.nextId := by
            rw [← hdoc]
          refine ⟨doc :: docs, ?_, ?_, ?_, ?_, ?_⟩
          · rw [h0]
            show db2.journal = db.journal ++ (doc :: docs)
            rw [h1, hdj]
            simp
          · rw [h0]
            show db2.nextId = db.nextId + (doc :: docs).length
            rw [h2, hdn, List.length_cons]
            omega
          · rw [h0]
            show doc.id :: ids = (doc :: docs).map (fun e => e.id)
            rw [List.map_cons, h3]
          · rw [List.map_cons]
            refine List.nodup_cons.mpr ⟨?_, h4⟩
            intro hmem
            obtain ⟨e, he, hei⟩ := List.mem_map.mp hmem
            have hbound := (h5 e he).1
            rw [hdn] at hbound
            rw [hdocid] at hei
            omega
          · intro e he
            rcases List.mem_cons.mp he with rfl | he'
            · refine ⟨?_, ?_, ?_, ?_, ?_, ?_⟩
              · exact Nat.le_of_eq hdocid.symm
              · rw [List.length_cons]
                omega
              · rw [← hdoc]
              · rw [← hdoc]
              · rw [← hdoc]
              · rw [← hdoc]
            · obtain ⟨hb1, hb2, hb3, hb4, hb5, hb6⟩ := h5 e he'
              rw [hdn] at hb1 hb2
              refine ⟨by omega, ?_, hb3, hb4, hb5, hb6⟩
              rw [List.length_cons]
              omega

/-- A run of the per-category loop that created no documents left the
store exactly as it was. -/
theorem processCategories_nil (ai : String → Except Unit String)
    (fmtTime : Int → String) (now : Int) (today pn p : String)
    (entries : List Journal) (cats : List String) (db : SummaryDB)
    (h : (processCategories ai fmtTime now today pn p entries db cats).2
        = []) :
    (processCategories ai fmtTime now today pn p entries db cats).1 = db := by
  obtain ⟨docs, h1, h2, h3, _, _⟩ :=
    processCategories_shape ai fmtTime now today pn p entries cats db
  rw [h] at h3
  have hd : docs = [] := by
    cases docs with
    | nil => rfl
    | cons a l => simp at h3
  subst hd
  have hs := processCategories_snippets ai fmtTime now today pn p entries
    cats db
  calc (processCategories ai fmtTime now today pn p entries db cats).1
      = ⟨(processCategories ai fmtTime now today pn p entries db
            cats).1.journal,
         (processCategories ai fmtTime now today pn p entries db
            cats).1.snippets,
         (processCategories ai fmtTime now today pn p entries db
            cats).1.nextId⟩ := rfl
    _ = ⟨db.journal, db.snippets, db.nextId⟩ := by
          rw [h1, h2, hs]
          simp
    _ = db := rfl

/-- With every category empty, the per-category loop is a no-op that
returns no doc ids. -/
theorem processCategories_all_empty (ai : String → Except Unit String)
    (fmtTime : Int → String) (now : Int) (today pn p : String)
    (entries : List Journal) :
    ∀ (cats : List String) (db : SummaryDB),
      (∀ c ∈ cats, (entries.filter fun e =>
          decide (e.entry_type = c)).isEmpty = true) →
      processCategories ai fmtTime now today pn p entries db cats = (db, [])
  | [], _, _ => rfl
  | c :: cs, db, h => by
    have hE : (entries.filter fun e =>
        decide (e.entry_type = c)).isEmpty = true :=
      h c (List.mem_cons_self c cs)
    have h0 : processCategories ai fmtTime now today pn p entries db
        (c :: cs) =
        processCategories ai fmtTime now today pn p entries db cs := by
      simp only [processCategories, if_pos hE]
    rw [h0]
    exact processCategories_all_empty ai fmtTime now today pn p entries cs
      db fun c' hc' => h c' (List.mem_cons_of_mem c hc')

/-- A nonempty category guarantees the loop creates at least one document
when the collaborator never returns empty text. -/
theorem processCategories_ne_nil (ai : String → Except Unit String)
    (fmtTime : Int → String) (now : Int) (today pn p : String)
    (entries : List Journal)
    (hai : ∀ s r, ai s = .ok r → r ≠ "") :
    ∀ (cats : List String) (db : SummaryDB) (c : String), c ∈ cats →
      (entries.filter fun e => decide (e.entry_type = c)).isEmpty = false →
      (processCategories ai fmtTime now today pn p entries db cats).2 ≠ []
  | [], _, c, hc, _ => absurd hc (List.not_mem_nil c)
  | c0 :: cs, db, c, hc, hne => by
    by_cases hE : ((entries.filter fun e =>
        decide (e.entry_type = c0)).isEmpty : Bool)
    · have h0 : processCategories ai fmtTime now today pn p entries db
          (c0 :: cs) =
          processCategories ai fmtTime now today pn p entries db cs := by
        simp only [processCategories, if_pos hE]
      rw [h0]
      rcases List.mem_cons.mp hc with rfl | hcs
      · rw [hne] at hE
        exact absurd hE (by decide)
      · exact processCategories_ne_nil ai fmtTime now today pn p entries
          hai cs db c hcs hne
    · have hfil : (entries.filter fun e => decide (e.entry_type = c0))
          ≠ [] := by
        intro hnil
        rw [hnil] at hE
        exact hE rfl
      obtain ⟨content, hgen, hcne⟩ := generateCategoryDoc_content ai
        fmtTime pn c0 (entries.filter fun e => decide (e.entry_type = c0))
        today hai hfil
      rcases hcv : createVersionedDoc db p c0
        (categoryLabel c0 ++ " - " ++ today) content now with ⟨db', doc⟩
      rcases hg : processCategories ai fmtTime now today pn p entries db'
        cs with ⟨db2, ids⟩
      have h0 : processCategories ai fmtTime now today pn p entries db
          (c0 :: cs) = (db2, doc.id :: ids) := by
        simp only [processCategories, if_neg hE, hgen, if_neg hcne, hcv, hg]
      rw [h0]
      exact List.cons_ne_nil _ _

/-- A category whose generated content is nonempty yields a matching
compiler-created document in the loop's output journal. -/
theorem processCategories_mem_doc (ai : String → Except Unit String)
    (fmtTime : Int → String) (now : Int) (today pn p : String)
    (entries : List Journal) :
    ∀ (cats : List String) (db : SummaryDB) (c : String), c ∈ cats →
      ∀ content, generateCategoryDoc ai fmtTime pn c
          (entries.filter fun e => decide (e.entry_type = c)) today =
          some content → content ≠ "" →
      ∃ doc_, doc_ ∈ (processCategories ai fmtTime now today pn p entries
          db cats).1.journal ∧ db.nextId ≤ doc_.id ∧
        doc_.entry_type = c ∧ doc_.content = content ∧
        doc_.created_by = some summaryCreator ∧ doc_.project_path = p ∧
        doc_.is_archived = none ∧ doc_.created_at = now
  | [], _, c, hc, _, _, _ => absurd hc (List.not_mem_nil c)
  | c0 :: cs, db, c, hc, content, hgen, hcne => by
    rcases List.mem_cons.mp hc with heq | hcs
    · subst heq
      by_cases hE : ((entries.filter fun e =>
          decide (e.entry_type = c)).isEmpty : Bool)
      · exfalso
        rw [generateCategoryDoc, if_pos hE] at hgen
        cases hgen
      · rcases hcv : createVersionedDoc db p c
          (categoryLabel c ++ " - " ++ today) content now with ⟨db', doc⟩
        rcases hg : processCategories ai fmtTime now today pn p entries db'
          cs with ⟨db2, ids⟩
        have h0 : processCategories ai fmtTime now today pn p entries db
            (c :: cs) = (db2, doc.id :: ids) := by
          simp only [processCategories, if_neg hE, hgen, if_neg hcne, hcv,
            hg]
        have hcv' := hcv
        simp only [createVersionedDoc] at hcv'
        injection hcv' with hdb' hdoc
        obtain ⟨docs, h1, _, _, _, _⟩ :=
          processCategories_shape ai fmtTime now today pn p entries cs db'
        rw [hg] at h1
        replace h1 : db2.journal = db'.journal ++ docs := h1
        have hdj : db'.journal = db.journal ++ [doc] := by
          rw [← hdb']
          show db.journal ++ [_] = db.journal ++ [doc]
          rw [hdoc]
        have hdocid : doc.id = db.nextId := by
          rw [← hdoc]
        refine ⟨doc, ?_, Nat.le_of_eq hdocid.symm, ?_, ?_, ?_, ?_, ?_, ?_⟩
        · rw [h0]
          show doc ∈ db2.journal
          rw [h1, hdj]
          simp
        · rw [← hdoc]
        · rw [← hdoc]
        · rw [← hdoc]
        · rw [← hdoc]
        · rw [← hdoc]
        · rw [← hdoc]
    · by_cases hE : ((entries.filter fun e =>
          decide (e.entry_type = c0)).isEmpty : Bool)
      · have h0 : processCategories ai fmtTime now today pn p entries db
            (c0 :: cs) =
            processCategories ai fmtTime now today pn p entries db cs := by
          simp only [processCategories, if_pos hE]
        obtain ⟨doc_, hmem, hrest⟩ := processCategories_mem_doc ai fmtTime
          now today pn p entries cs db c hcs content hgen hcne
        exact ⟨doc_, by rw [h0]; exact hmem, hrest⟩
      · cases hgen0 : generateCategoryDoc ai fmtTime pn c0
          (entries.filter fun e => decide (e.entry_type = c0)) today with
        | none =>
          have h0 : processCategories ai fmtTime now today pn p entries db
              (c0 :: cs) =
              processCategories ai fmtTime now today pn p entries db cs := by
            simp only [processCategories, if_neg hE, hgen0]
          obtain ⟨doc_, hmem, hrest⟩ := processCategories_mem_doc ai
            fmtTime now today pn p entries cs db c hcs content hgen hcne
          exact ⟨doc_, by rw [h0]; exact hmem, hrest⟩
        | some content0 =>
          by_cases hc0 : content0 = ""
          · have h0 : processCategories ai fmtTime now today pn p entries
                db (c0 :: cs) =
                processCategories ai fmtTime now today pn p entries db
                  cs := by
              simp only [processCategories, if_neg hE, hgen0, if_pos hc0]
            obtain ⟨doc_, hmem, hrest⟩ := processCategories_mem_doc ai
              fmtTime now today pn p entries cs db c hcs content hgen hcne
            exact ⟨doc_, by rw [h0]; exact hmem, hrest⟩
          · rcases hcv : createVersionedDoc db p c0
              (categoryLabel c0 ++ " - " ++ today) content0 now
              with ⟨db', doc⟩
            rcases hg : processCategories ai fmtTime now today pn p entries
              db' cs with ⟨db2, ids⟩
            have h0 : processCategories ai fmtTime now today pn p entries
                db (c0 :: cs) = (db2, doc.id :: ids) := by
              simp only [processCategories, if_neg hE, hgen0, if_neg hc0,
                hcv, hg]
            have hcv' := hcv
            simp only [createVersionedDoc] at hcv'
            injection hcv' with hdb' hdoc
            have hdn : db'.nextId = db.nextId + 1 := by
              rw [← hdb']
            obtain ⟨doc_, hmem, hid, hrest⟩ := processCategories_mem_doc
              ai fmtTime now today pn p entries cs db' c hcs content hgen
              hcne
            rw [hg] at hmem
            replace hmem : doc_ ∈ db2.journal := hmem
            rw [hdn] at hid
            exact ⟨doc_, by rw [h0]; exact hmem, by omega, hrest⟩



/-- Case analysis of the per-project body: an errored or empty fetch is a
no-op; otherwise the per-category loop runs and, when it created at least
one document, every fetched entry is archived into the first one. -/
theorem processProject_cases (ai : String → Except Unit String)
    (fmtTime : Int → String) (fetchErr : String → Bool) (now : Int)
    (today : String) (db : SummaryDB) (p : String) :
    ((if fetchErr p then [] else getRecentJournalEntries now db p).isEmpty
        = true ∧
      processProject ai fmtTime fetchErr now today db p = (db, none)) ∨
    ∃ entries db1 docIds,
      entries = (if fetchErr p then []
        else getRecentJournalEntries now db p) ∧
      entries ≠ [] ∧
      processCategories ai fmtTime now today ((p.splitOn "/").getLastD "")
          p entries db summaryCategories = (db1, docIds) ∧
      ((docIds = [] ∧
          processProject ai fmtTime fetchErr now today db p =
            (db1, some ⟨p, entries.map (fun e => e.id), docIds⟩)) ∨
        ∃ d rest, docIds = d :: rest ∧
          processProject ai fmtTime fetchErr now today db p =
            ({ db1 with journal := archiveEntries now (entries.map (fun e => e.id)) d db1.journal },
              some ⟨p, entries.map (fun e => e.id), docIds⟩)) := by
  by_cases hE : ((if fetchErr p then []
      else getRecentJournalEntries now db p).isEmpty : Bool)
  · left
    refine ⟨hE, ?_⟩
    simp only [processProject, if_pos hE]
  · right
    rcases hpc : processCategories ai fmtTime now today
        ((p.splitOn "/").getLastD "") p
        (if fetchErr p then [] else getRecentJournalEntries now db p) db
        summaryCategories with ⟨db1, docIds⟩
    refine ⟨_, db1, docIds, rfl, ?_, hpc, ?_⟩
    · intro hnil
      rw [hnil] at hE
      exact hE rfl
    · cases docIds with
      | nil =>
        left
        refine ⟨rfl, ?_⟩
        simp only [processProject, if_neg hE, hpc]
      | cons d rest =>
        right
        refine ⟨d, rest, rfl, ?_⟩
        simp only [processProject, if_neg hE, hpc]

/-- The per-project body never touches the snippets. -/
theorem processProject_snippets (ai : String → Except Unit String)
    (fmtTime : Int → String) (fetchErr : String → Bool) (now : Int)
    (today : String) (db : SummaryDB) (p : String) :
    (processProject ai fmtTime fetchErr now today db p).1.snippets =
      db.snippets := by
  rcases processProject_cases ai fmtTime fetchErr now today db p with
    ⟨_, heq⟩ | ⟨entries, db1, docIds, _, _, hpc, hcase⟩
  · rw [heq]
  · have hs := processCategories_snippets ai fmtTime now today
      ((p.splitOn "/").getLastD "") p entries summaryCategories db
    rw [hpc] at hs
    replace hs : db1.snippets = db.snippets := hs
    rcases hcase with ⟨_, heq⟩ | ⟨d, rest, _, heq⟩
    · rw [heq]
      exact hs
    · rw [heq]
      exact hs

/-- The per-project body keeps journal ids duplicate-free and below the
id counter, and never lowers the counter. -/
theorem processProject_inv (ai : String → Except Unit String)
    (fmtTime : Int → String) (fetchErr : String → Bool) (now : Int)
    (today : String) (db : SummaryDB) (p : String)
    (hn : (db.journal.map (fun e => e.id)).Nodup)
    (hf : ∀ e ∈ db.journal, e.id < db.nextId) :
    ((processProject ai fmtTime fetchErr now today db p).1.journal.map
        (fun e => e.id)).Nodup ∧
    (∀ e ∈ (processProject ai fmtTime fetchErr now today db p).1.journal,
        e.id <
          (processProject ai fmtTime fetchErr now today db p).1.nextId) ∧
    db.nextId ≤
      (processProject ai fmtTime fetchErr now today db p).1.nextId := by
  rcases processProject_cases ai fmtTime fetchErr now today db p with
    ⟨_, heq⟩ | ⟨entries, db1, docIds, _, _, hpc, hcase⟩
  · rw [heq]
    exact ⟨hn, hf, Nat.le_refl _⟩
  · obtain ⟨docs, h1, h2, h3, h4, h5⟩ := processCategories_shape ai
      fmtTime now today ((p.splitOn "/").getLastD "") p entries
      summaryCategories db
    rw [hpc] at h1 h2 h3
    replace h1 : db1.journal = db.journal ++ docs := h1
    replace h2 : db1.nextId = db.nextId + docs.length := h2
    have hnd1 : (db1.journal.map (fun e => e.id)).Nodup := by
      rw [h1, List.map_append]
      refine List.Nodup.append hn h4 ?_
      intro x hx1 hx2
      obtain ⟨e, he, hei⟩ := List.mem_map.mp hx1
      obtain ⟨e', he', hei'⟩ := List.mem_map.mp hx2
      have hlt := hf e he
      have hge := (h5 e' he').1
      omega
    have hfr1 : ∀ e ∈ db1.journal, e.id < db1.nextId := by
      intro e he
      rw [h1] at he
      rcases List.mem_append.mp he with he | he
      · have := hf e he
        omega
      · have := (h5 e he).2.1
        omega
    have hmono1 : db.nextId ≤ db1.nextId := by omega
    rcases hcase with ⟨_, heq⟩ | ⟨d, rest, _, heq⟩
    · rw [heq]
      exact ⟨hnd1, hfr1, hmono1⟩
    · rw [heq]
      refine ⟨?_, ?_, hmono1⟩
      · show ((archiveEntries now (entries.map (fun e => e.id)) d
          db1.journal).map (fun e => e.id)).Nodup
        have hids : (archiveEntries now (entries.map (fun e => e.id)) d
            db1.journal).map (fun e => e.id) =
            db1.journal.map (fun e => e.id) :=
          archiveEntries_ids now _ d _
        rw [hids]
        exact hnd1
      · intro e he
        replace he : e ∈ archiveEntries now (entries.map (fun e => e.id))
          d db1.journal := he
        obtain ⟨r₀, hr₀, hcase'⟩ := archiveEntries_shape now _ d _ e he
        show e.id < db1.nextId
        rcases hcase' with ⟨_, he'⟩ | ⟨_, he'⟩
        · rw [he']
          exact hfr1 r₀ hr₀
        · rw [he']
          exact hfr1 r₀ hr₀

/-- Every unarchived, non-compiler row of the per-project output was
already in the store. -/
theorem processProject_origin (ai : String → Except Unit String)
    (fmtTime : Int → String) (fetchErr : String → Bool) (now : Int)
    (today : String) (db : SummaryDB) (p : String) (e : Journal)
    (he : e ∈ (processProject ai fmtTime fetchErr now today db p).1.journal)
    (hcb : e.created_by ≠ some summaryCreator)
    (har : e.is_archived ≠ some true) : e ∈ db.journal := by
  rcases processProject_cases ai fmtTime fetchErr now today db p with
    ⟨_, heq⟩ | ⟨entries, db1, docIds, _, _, hpc, hcase⟩
  · rw [heq] at he
    exact he
  · obtain ⟨docs, h1, _, _, _, h5⟩ := processCategories_shape ai fmtTime
      now today ((p.splitOn "/").getLastD "") p entries summaryCategories
      db
    rw [hpc] at h1
    replace h1 : db1.journal = db.journal ++ docs := h1
    have hof : ∀ x ∈ db1.journal, x.created_by ≠ some summaryCreator →
        x ∈ db.journal := by
      intro x hx hxc
      rw [h1] at hx
      rcases List.mem_append.mp hx with hx | hx
      · exact hx
      · exact absurd ((h5 x hx).2.2.1) hxc
    rcases hcase with ⟨_, heq⟩ | ⟨d, rest, _, heq⟩
    · rw [heq] at he
      exact hof e he hcb
    · rw [heq] at he
      replace he : e ∈ archiveEntries now (entries.map (fun e => e.id)) d
        db1.journal := he
      obtain ⟨r₀, hr₀, hcase'⟩ := archiveEntries_shape now _ d _ e he
      rcases hcase' with ⟨_, rfl⟩ | ⟨_, rfl⟩
      · exact hof _ hr₀ hcb
      · exact absurd rfl har

/-- A row the selection query rejects survives the per-project body
unchanged. -/
theorem processProject_keeps (ai : String → Except Unit String)
    (fmtTime : Int → String) (fetchErr : String → Bool) (now : Int)
    (today : String) (db : SummaryDB) (p : String)
    (hn : (db.journal.map (fun e => e.id)).Nodup) (e : Journal)
    (he : e ∈ db.journal) (hsel : journalSel now p e = false) :
    e ∈ (processProject ai fmtTime fetchErr now today db p).1.journal := by
  rcases processProject_cases ai fmtTime fetchErr now today db p with
    ⟨_, heq⟩ | ⟨entries, db1, docIds, hEq, hne, hpc, hcase⟩
  · rw [heq]
    exact he
  · obtain ⟨docs, h1, _, _, _, _⟩ := processCategories_shape ai fmtTime
      now today ((p.splitOn "/").getLastD "") p entries summaryCategories
      db
    rw [hpc] at h1
    replace h1 : db1.journal = db.journal ++ docs := h1
    have he1 : e ∈ db1.journal := by
      rw [h1]
      exact List.mem_append.mpr (Or.inl he)
    have hfp : entries = getRecentJournalEntries now db p := by
      by_cases hb : fetchErr p
      · rw [if_pos hb] at hEq
        exact absurd hEq hne
      · rw [if_neg hb] at hEq
        exact hEq
    have hnotin : e.id ∉ entries.map (fun e => e.id) := by
      intro hmem
      obtain ⟨ent, hent, heid⟩ := List.mem_map.mp hmem
      rw [hfp, mem_getRecent_iff] at hent
      have hee : ent = e := journal_id_inj hn hent.1 he heid
      rw [hee] at hent
      rw [hent.2] at hsel
      exact Bool.noConfusion hsel
    rcases hcase with ⟨_, heq⟩ | ⟨d, rest, _, heq⟩
    · rw [heq]
      exact he1
    · rw [heq]
      show e ∈ archiveEntries now (entries.map (fun e => e.id)) d
        db1.journal
      exact archiveEntries_keeps now _ d _ e he1 hnotin

/-- A row of another project is never selected. -/
theorem journalSel_other (now : Int) (q : String) (e : Journal)
    (h : e.project_path ≠ q) : journalSel now q e = false := by
  simp [journalSel, h]

/-- Filtering sees through a row-map when every touched row fails the
filter before and after the update. -/
theorem filter_map_eq_filter {α : Type} (g : α → Bool) (f : α → α) :
    ∀ rows : List α, (∀ r ∈ rows, f r = r ∨
      (g r = false ∧ g (f r) = false)) →
      (rows.map f).filter g = rows.filter g
  | [], _ => rfl
  | r :: rows, h => by
    have ih := filter_map_eq_filter g f rows
      fun x hx => h x (List.mem_cons_of_mem r hx)
    rw [List.map_cons]
    rcases h r (List.mem_cons_self r rows) with hfr | ⟨hg1, hg2⟩
    · rw [List.filter_cons, List.filter_cons, hfr, ih]
    · rw [List.filter_cons, List.filter_cons, hg1, hg2,
        if_neg Bool.false_ne_true, if_neg Bool.false_ne_true]
      exact ih

/-- Archiving is invisible to a filter that rejects every listed row,
both before and after the marking. -/
theorem archiveEntries_filter (now : Int) (ids : List Nat) (d : Nat)
    (rows : List Journal) (g : Journal → Bool)
    (h : ∀ r ∈ rows, r.id ∈ ids → g r = false)
    (himg : ∀ r : Journal, g { r with is_archived := some true, archived_at := some now, archived_into := some d } = false) :
    (archiveEntries now ids d rows).filter g = rows.filter g := by
  rw [archiveEntries]
  split
  · rfl
  · refine filter_map_eq_filter g _ rows fun r hr => ?_
    by_cases hid : r.id ∈ ids
    · refine Or.inr ⟨h r hr hid, ?_⟩
      rw [if_pos hid]
      exact himg r
    · refine Or.inl ?_
      rw [if_neg hid]

/-- Processing one project leaves every other project's fetch unchanged. -/
theorem processProject_stable (ai : String → Except Unit String)
    (fmtTime : Int → String) (fetchErr : String → Bool) (now : Int)
    (today : String) (db : SummaryDB) (p : String)
    (hn : (db.journal.map (fun e => e.id)).Nodup)
    (q : String) (hqp : q ≠ p) (now2 : Int) :
    getRecentJournalEntries now2 (processProject ai fmtTime fetchErr now
      today db p).1 q = getRecentJournalEntries now2 db q := by
  rcases processProject_cases ai fmtTime fetchErr now today db p with
    ⟨_, heq⟩ | ⟨entries, db1, docIds, hEq, hne, hpc, hcase⟩
  · rw [heq]
  · obtain ⟨docs, h1, _, _, _, h5⟩ := processCategories_shape ai fmtTime
      now today ((p.splitOn "/").getLastD "") p entries summaryCategories
      db
    rw [hpc] at h1
    replace h1 : db1.journal = db.journal ++ docs := h1
    have hfd : db1.journal.filter (journalSel now2 q) =
        db.journal.filter (journalSel now2 q) := by
      rw [h1, List.filter_append]
      have hdocs : docs.filter (journalSel now2 q) = [] := by
        refine List.filter_eq_nil_iff.mpr fun doc_ hdoc => ?_
        have hp := (h5 doc_ hdoc).2.2.2.2.1
        have hnq : doc_.project_path ≠ q := by
          rw [hp]
          exact Ne.symm hqp
        rw [journalSel_other now2 q doc_ hnq]
        exact Bool.false_ne_true
      rw [hdocs, List.append_nil]
    have hfp : entries = getRecentJournalEntries now db p := by
      by_cases hb : fetchErr p
      · rw [if_pos hb] at hEq
        exact absurd hEq hne
      · rw [if_neg hb] at hEq
        exact hEq
    rcases hcase with ⟨_, heq⟩ | ⟨d, rest, _, heq⟩
    · rw [heq]
      show sortRows _ (db1.journal.filter (journalSel now2 q)) =
        getRecentJournalEntries now2 db q
      rw [hfd]
      rfl
    · have hfa : (archiveEntries now (entries.map (fun e => e.id)) d
          db1.journal).filter (journalSel now2 q) =
          db1.journal.filter (journalSel now2 q) := by
        refine archiveEntries_filter now _ d _ _ ?_ ?_
        · intro r hr hid
          obtain ⟨ent, hent, heid⟩ := List.mem_map.mp hid
          rw [hfp, mem_getRecent_iff] at hent
          have hproj : ent.project_path = p :=
            ((journalSel_true_iff now p ent).mp hent.2).1
          rw [h1] at hr
          rcases List.mem_append.mp hr with hr | hr
          · have her : ent = r := journal_id_inj hn hent.1 hr heid
            rw [← her]
            refine journalSel_other now2 q ent ?_
            rw [hproj]
            exact Ne.symm hqp
          · have hp := (h5 r hr).2.2.2.2.1
            refine journalSel_other now2 q r ?_
            rw [hp]
            exact Ne.symm hqp
        · intro r
          exact journalSel_archived now2 q _ rfl
      rw [heq]
      show sortRows _ ((archiveEntries now (entries.map (fun e => e.id))
        d db1.journal).filter (journalSel now2 q)) =
        getRecentJournalEntries now2 db q
      rw [hfa, hfd]
      rfl

/-- When the per-project body created documents, the first one anchors
the archived copy of every fetched entry, and itself survives in the
journal. -/
theorem processProject_archives (ai : String → Except Unit String)
    (fmtTime : Int → String) (fetchErr : String → Bool) (now : Int)
    (today : String) (db : SummaryDB) (p : String) (dbM : SummaryDB)
    (r : ProjReport)
    (hf : ∀ e ∈ db.journal, e.id < db.nextId)
    (hstep : processProject ai fmtTime fetchErr now today db p =
      (dbM, some r))
    (d : Nat) (rest : List Nat) (hd : r.docIds = d :: rest) :
    (∃ doc_, doc_ ∈ dbM.journal ∧ doc_.id = d ∧
        doc_.created_by = some summaryCreator) ∧
    ∀ i ∈ r.entryIds, ∃ e', e' ∈ dbM.journal ∧ e'.id = i ∧
      e'.is_archived = some true ∧ e'.archived_at = some now ∧
      e'.archived_into = some d := by
  rcases processProject_cases ai fmtTime fetchErr now today db p with
    ⟨_, heq⟩ | ⟨entries, db1, docIds, hEq, hne, hpc, hcase⟩
  · rw [heq] at hstep
    injection hstep with hA hB
    exact Option.noConfusion hB
  · obtain ⟨docs, h1, _, h3, _, h5⟩ := processCategories_shape ai fmtTime
      now today ((p.splitOn "/").getLastD "") p entries summaryCategories
      db
    rw [hpc] at h1 h3
    replace h1 : db1.journal = db.journal ++ docs := h1
    replace h3 : docIds = docs.map (fun e => e.id) := h3
    have hfp : entries = getRecentJournalEntries now db p := by
      by_cases hb : fetchErr p
      · rw [if_pos hb] at hEq
        exact absurd hEq hne
      · rw [if_neg hb] at hEq
        exact hEq
    rcases hcase with ⟨hnil, heq⟩ | ⟨d0, rest0, hcons, heq⟩
    · rw [heq] at hstep
      injection hstep with hA hB
      injection hB with hB'
      rw [← hB', hnil] at hd
      exact List.noConfusion hd
    · rw [heq] at hstep
      injection hstep with hA hB
      injection hB with hB'
      have hdocIds : r.docIds = docIds := by
        rw [← hB']
      have hentryIds : r.entryIds = entries.map (fun e => e.id) := by
        rw [← hB']
      have hd0 : d0 = d := by
        rw [hdocIds, hcons] at hd
        simp only [List.cons.injEq] at hd
        exact hd.1
      subst hd0
      have hdbM : dbM.journal = archiveEntries now
          (entries.map (fun e => e.id)) d0 db1.journal := by
        rw [← hA]
      cases docs with
      | nil =>
        rw [hcons] at h3
        simp at h3
      | cons doc0 docs' =>
        have hid0 : doc0.id = d0 := by
          rw [hcons, List.map_cons] at h3
          injection h3 with h3' _
          exact h3'.symm
        have hmem0 : doc0 ∈ db1.journal := by
          rw [h1]
          exact List.mem_append.mpr (Or.inr (List.mem_cons_self _ _))
        have hd0ni : doc0.id ∉ entries.map (fun e => e.id) := by
          intro hmem
          obtain ⟨ent, hent, heid⟩ := List.mem_map.mp hmem
          rw [hfp, mem_getRecent_iff] at hent
          have hlt := hf ent hent.1
          have hge := (h5 doc0 (List.mem_cons_self _ _)).1
          omega
        refine ⟨⟨doc0, ?_, hid0,
          (h5 doc0 (List.mem_cons_self _ _)).2.2.1⟩, ?_⟩
        · rw [hdbM]
          exact archiveEntries_keeps now _ d0 _ doc0 hmem0 hd0ni
        · intro i hi
          rw [hentryIds] at hi
          obtain ⟨ent, hent, heid⟩ := List.mem_map.mp hi
          have hent1 : ent ∈ db1.journal := by
            rw [h1]
            rw [hfp, mem_getRecent_iff] at hent
            exact List.mem_append.mpr (Or.inl hent.1)
          have himg := archiveEntries_image now
            (entries.map (fun e => e.id)) d0 db1.journal ent hent1
            (by rw [heid]; exact hi)
          refine ⟨{ ent with is_archived := some true, archived_at := some now, archived_into := some d0 }, ?_, heid, rfl, rfl, rfl⟩
          rw [hdbM]
          exact himg


/-- The project loop never touches the snippets. -/
theorem runProjectsGo_snippets (ai : String → Except Unit String)
    (fmtTime : Int → String) (fetchErr : String → Bool) (now : Int)
    (today : String) :
    ∀ (ps : List String) (db : SummaryDB),
      (runProjectsGo ai fmtTime fetchErr now today ps db).1.snippets =
        db.snippets
  | [], _ => rfl
  | p :: ps, db => by
    rcases hstep : processProject ai fmtTime fetchErr now today db p
      with ⟨dbM, r?⟩
    rcases hrun : runProjectsGo ai fmtTime fetchErr now today ps dbM
      with ⟨dbF, rs⟩
    have h0 : runProjectsGo ai fmtTime fetchErr now today (p :: ps) db =
        (dbF, match r? with | none => rs | some r0 => r0 :: rs) := by
      simp only [runProjectsGo, hstep, hrun]
      cases r? <;> rfl
    rw [h0]
    show dbF.snippets = db.snippets
    have ih := runProjectsGo_snippets ai fmtTime fetchErr now today ps dbM
    rw [hrun] at ih
    replace ih : dbF.snippets = dbM.snippets := ih
    have hst := processProject_snippets ai fmtTime fetchErr now today db p
    rw [hstep] at hst
    replace hst : dbM.snippets = db.snippets := hst
    rw [ih, hst]

/-- The project loop keeps journal ids duplicate-free and below the id
counter, and never lowers the counter. -/
theorem runProjectsGo_inv (ai : String → Except Unit String)
    (fmtTime : Int → String) (fetchErr : String → Bool) (now : Int)
    (today : String) :
    ∀ (ps : List String) (db : SummaryDB),
      (db.journal.map (fun e => e.id)).Nodup →
      (∀ e ∈ db.journal, e.id < db.nextId) →
      ((runProjectsGo ai fmtTime fetchErr now today ps db).1.journal.map
          (fun e => e.id)).Nodup ∧
      (∀ e ∈ (runProjectsGo ai fmtTime fetchErr now today ps
          db).1.journal,
        e.id < (runProjectsGo ai fmtTime fetchErr now today ps
          db).1.nextId) ∧
      db.nextId ≤
        (runProjectsGo ai fmtTime fetchErr now today ps db).1.nextId
  | [], _, hn, hf => ⟨hn, hf, Nat.le_refl _⟩
  | p :: ps, db, hn, hf => by
    rcases hstep : processProject ai fmtTime fetchErr now today db p
      with ⟨dbM, r?⟩
    rcases hrun : runProjectsGo ai fmtTime fetchErr now today ps dbM
      with ⟨dbF, rs⟩
    have h0 : runProjectsGo ai fmtTime fetchErr now today (p :: ps) db =
        (dbF, match r? with | none => rs | some r0 => r0 :: rs) := by
      simp only [runProjectsGo, hstep, hrun]
      cases r? <;> rfl
    obtain ⟨hn1, hf1, hm1⟩ := processProject_inv ai fmtTime fetchErr now
      today db p hn hf
    rw [hstep] at hn1 hf1 hm1
    replace hn1 : (dbM.journal.map (fun e => e.id)).Nodup := hn1
    replace hf1 : ∀ e ∈ dbM.journal, e.id < dbM.nextId := hf1
    replace hm1 : db.nextId ≤ dbM.nextId := hm1
    obtain ⟨hn2, hf2, hm2⟩ := runProjectsGo_inv ai fmtTime fetchErr now
      today ps dbM hn1 hf1
    rw [hrun] at hn2 hf2 hm2
    replace hn2 : (dbF.journal.map (fun e => e.id)).Nodup := hn2
    replace hf2 : ∀ e ∈ dbF.journal, e.id < dbF.nextId := hf2
    replace hm2 : dbM.nextId ≤ dbF.nextId := hm2
    rw [h0]
    exact ⟨hn2, hf2, Nat.le_trans hm1 hm2⟩

/-- A row every selection query rejects survives the whole project loop
unchanged. -/
theorem runProjectsGo_keeps (ai : String → Except Unit String)
    (fmtTime : Int → String) (fetchErr : String → Bool) (now : Int)
    (today : String) :
    ∀ (ps : List String) (db : SummaryDB),
      (db.journal.map (fun e => e.id)).Nodup →
      (∀ e ∈ db.journal, e.id < db.nextId) →
      ∀ e : Journal, e ∈ db.journal →
      (∀ q, journalSel now q e = false) →
      e ∈ (runProjectsGo ai fmtTime fetchErr now today ps db).1.journal
  | [], _, _, _, _, he, _ => he
  | p :: ps, db, hn, hf, e, he, hsel => by
    rcases hstep : processProject ai fmtTime fetchErr now today db p
      with ⟨dbM, r?⟩
    rcases hrun : runProjectsGo ai fmtTime fetchErr now today ps dbM
      with ⟨dbF, rs⟩
    have h0 : runProjectsGo ai fmtTime fetchErr now today (p :: ps) db =
        (dbF, match r? with | none => rs | some r0 => r0 :: rs) := by
      simp only [runProjectsGo, hstep, hrun]
      cases r? <;> rfl
    have he1 := processProject_keeps ai fmtTime fetchErr now today db p hn
      e he (hsel p)
    rw [hstep] at he1
    replace he1 : e ∈ dbM.journal := he1
    obtain ⟨hn1, hf1, _⟩ := processProject_inv ai fmtTime fetchErr now
      today db p hn hf
    rw [hstep] at hn1 hf1
    replace hn1 : (dbM.journal.map (fun e => e.id)).Nodup := hn1
    replace hf1 : ∀ e ∈ dbM.journal, e.id < dbM.nextId := hf1
    have ih := runProjectsGo_keeps ai fmtTime fetchErr now today ps dbM
      hn1 hf1 e he1 hsel
    rw [hrun] at ih
    replace ih : e ∈ dbF.journal := ih
    rw [h0]
    exact ih

/-- Every unarchived, non-compiler row of the loop's output was already
in the store. -/
theorem runProjectsGo_origin (ai : String → Except Unit String)
    (fmtTime : Int → String) (fetchErr : String → Bool) (now : Int)
    (today : String) :
    ∀ (ps : List String) (db : SummaryDB) (e : Journal),
      e ∈ (runProjectsGo ai fmtTime fetchErr now today ps db).1.journal →
      e.created_by ≠ some summaryCreator → e.is_archived ≠ some true →
      e ∈ db.journal
  | [], _, _, he, _, _ => he
  | p :: ps, db, e, he, hcb, har => by
    rcases hstep : processProject ai fmtTime fetchErr now today db p
      with ⟨dbM, r?⟩
    rcases hrun : runProjectsGo ai fmtTime fetchErr now today ps dbM
      with ⟨dbF, rs⟩
    have h0 : runProjectsGo ai fmtTime fetchErr now today (p :: ps) db =
        (dbF, match r? with | none => rs | some r0 => r0 :: rs) := by
      simp only [runProjectsGo, hstep, hrun]
      cases r? <;> rfl
    rw [h0] at he
    replace he : e ∈ dbF.journal := he
    have he' : e ∈ (runProjectsGo ai fmtTime fetchErr now today ps
        dbM).1.journal := by
      rw [hrun]
      exact he
    have heM := runProjectsGo_origin ai fmtTime fetchErr now today ps dbM
      e he' hcb har
    exact processProject_origin ai fmtTime fetchErr now today db p e
      (by rw [hstep]; exact heM) hcb har

/-- C4 aggregate: every report with a first document id names a surviving
compiler document, and each of its consumed entry ids has an archived
copy anchored to that document in the final journal. -/
theorem runProjectsGo_archives (ai : String → Except Unit String)
    (fmtTime : Int → String) (fetchErr : String → Bool) (now : Int)
    (today : String) :
    ∀ (ps : List String) (db : SummaryDB),
      (db.journal.map (fun e => e.id)).Nodup →
      (∀ e ∈ db.journal, e.id < db.nextId) →
      ∀ r ∈ (runProjectsGo ai fmtTime fetchErr now today ps db).2,
      ∀ d rest, r.docIds = d :: rest →
      (∃ doc_, doc_ ∈ (runProjectsGo ai fmtTime fetchErr now today ps
          db).1.journal ∧
        doc_.id = d ∧ doc_.created_by = some summaryCreator) ∧
      ∀ i ∈ r.entryIds, ∃ e', e' ∈ (runProjectsGo ai fmtTime fetchErr now
          today ps db).1.journal ∧
        e'.id = i ∧ e'.is_archived = some true ∧
        e'.archived_at = some now ∧ e'.archived_into = some d
  | [], _, _, _, r, hr, _, _, _ => absurd hr (List.not_mem_nil r)
  | p :: ps, db, hn, hf, r, hr, d, rest, hd => by
    rcases hstep : processProject ai fmtTime fetchErr now today db p
      with ⟨dbM, r?⟩
    rcases hrun : runProjectsGo ai fmtTime fetchErr now today ps dbM
      with ⟨dbF, rs⟩
    have h0 : runProjectsGo ai fmtTime fetchErr now today (p :: ps) db =
        (dbF, match r? with | none => rs | some r0 => r0 :: rs) := by
      simp only [runProjectsGo, hstep, hrun]
      cases r? <;> rfl
    obtain ⟨hn1, hf1, _⟩ := processProject_inv ai fmtTime fetchErr now
      today db p hn hf
    rw [hstep] at hn1 hf1
    replace hn1 : (dbM.journal.map (fun e => e.id)).Nodup := hn1
    replace hf1 : ∀ e ∈ dbM.journal, e.id < dbM.nextId := hf1
    rw [h0] at hr
    rw [h0]
    have htail : r ∈ rs →
        (∃ doc_, doc_ ∈ dbF.journal ∧ doc_.id = d ∧
          doc_.created_by = some summaryCreator) ∧
        ∀ i ∈ r.entryIds, ∃ e', e' ∈ dbF.journal ∧ e'.id = i ∧
          e'.is_archived = some true ∧ e'.archived_at = some now ∧
          e'.archived_into = some d := by
      intro hrs
      have ih := runProjectsGo_archives ai fmtTime fetchErr now today ps
        dbM hn1 hf1 r (by rw [hrun]; exact hrs) d rest hd
      rw [hrun] at ih
      exact ih
    cases r? with
    | none =>
      exact htail hr
    | some r0 =>
      rcases List.mem_cons.mp hr with heq0 | hrs
      · subst heq0
        obtain ⟨⟨doc_, hdmem, hdid, hdcb⟩, harch⟩ :=
          processProject_archives ai fmtTime fetchErr now today db p dbM r
            hf hstep d rest hd
        constructor
        · have hk := runProjectsGo_keeps ai fmtTime fetchErr now today ps
            dbM hn1 hf1 doc_ hdmem
            (fun q => journalSel_compiler now q doc_ hdcb)
          rw [hrun] at hk
          exact ⟨doc_, hk, hdid, hdcb⟩
        · intro i hi
          obtain ⟨e', hemem, heid, hea, heat, heinto⟩ := harch i hi
          have hk := runProjectsGo_keeps ai fmtTime fetchErr now today ps
            dbM hn1 hf1 e' hemem
            (fun q => journalSel_archived now q e' hea)
          rw [hrun] at hk
          exact ⟨e', hk, heid, hea, heat, heinto⟩
      · exact htail hrs


/-- C5 core: after a full error-free pass, no remaining unarchived
non-compiler row that is recent and categorized belongs to a processed
project — the pass consumed and archived all of them. -/
theorem runProjectsGo_consumes (ai : String → Except Unit String)
    (fmtTime : Int → String) (now : Int) (today : String)
    (hai : ∀ s r, ai s = .ok r → r ≠ "") :
    ∀ (ps : List String) (db : SummaryDB) (e : Journal),
      e ∈ (runProjectsGo ai fmtTime (fun _ => false) now today ps
        db).1.journal →
      e.created_by ≠ some summaryCreator → e.is_archived ≠ some true →
      e.entry_type ∈ summaryCategories →
      now - twentyFourHours ≤ e.created_at →
      e.project_path ∉ ps
  | [], _, e, _, _, _, _, _ => List.not_mem_nil _
  | p :: ps, db, e, he, hcb, har, hcat, hrec => by
    rcases hstep : processProject ai fmtTime (fun _ => false) now today
      db p with ⟨dbM, r?⟩
    rcases hrun : runProjectsGo ai fmtTime (fun _ => false) now today ps
      dbM with ⟨dbF, rs⟩
    have h0 : runProjectsGo ai fmtTime (fun _ => false) now today
        (p :: ps) db =
        (dbF, match r? with | none => rs | some r0 => r0 :: rs) := by
      simp only [runProjectsGo, hstep, hrun]
      cases r? <;> rfl
    rw [h0] at he
    replace he : e ∈ dbF.journal := he
    have he' : e ∈ (runProjectsGo ai fmtTime (fun _ => false) now today
        ps dbM).1.journal := by
      rw [hrun]
      exact he
    have heM : e ∈ dbM.journal := runProjectsGo_origin ai fmtTime
      (fun _ => false) now today ps dbM e he' hcb har
    intro hmem
    rcases List.mem_cons.mp hmem with hp | hps
    · have heD : e ∈ db.journal := processProject_origin ai fmtTime
        (fun _ => false) now today db p e (by rw [hstep]; exact heM) hcb
        har
      have hsel : journalSel now p e = true :=
        (journalSel_true_iff now p e).mpr
          ⟨hp, hrec, hcb, unarchived_cases _ har⟩
      have heg : e ∈ getRecentJournalEntries now db p :=
        (mem_getRecent_iff now db p e).mpr ⟨heD, hsel⟩
      rcases processProject_cases ai fmtTime (fun _ => false) now today
        db p with ⟨hEmp, _⟩ | ⟨entries, db1, docIds, hEq, hne, hpc, hcase⟩
      · simp [List.isEmpty_iff] at hEmp
        rw [hEmp] at heg
        exact absurd heg (List.not_mem_nil e)
      · have hfp : entries = getRecentJournalEntries now db p := by
          simpa using hEq
        have hee : e ∈ entries := by
          rw [hfp]
          exact heg
        have hmemf : e ∈ entries.filter
            fun x => decide (x.entry_type = e.entry_type) :=
          List.mem_filter.mpr ⟨hee, by simp⟩
        have hfil : (entries.filter fun x =>
            decide (x.entry_type = e.entry_type)).isEmpty = false := by
          cases hb : (entries.filter fun x =>
              decide (x.entry_type = e.entry_type)).isEmpty with
          | false => rfl
          | true =>
            rw [List.isEmpty_iff] at hb
            rw [hb] at hmemf
            exact absurd hmemf (List.not_mem_nil e)
        have hnnil := processCategories_ne_nil ai fmtTime now today
          ((p.splitOn "/").getLastD "") p entries hai summaryCategories
          db e.entry_type hcat hfil
        rw [hpc] at hnnil
        replace hnnil : docIds ≠ [] := hnnil
        rcases hcase with ⟨hdnil, _⟩ | ⟨d, rest, hcons, heq⟩
        · exact hnnil hdnil
        · rw [hstep] at heq
          injection heq with hA hB
          rw [hA] at heM
          replace heM : e ∈ archiveEntries now
            (entries.map (fun x => x.id)) d db1.journal := heM
          have hidin : e.id ∈ entries.map (fun x => x.id) :=
            List.mem_map_of_mem _ hee
          have harch := archiveEntries_archived now _ d db1.journal e.id
            hidin e heM rfl
          exact har harch.1
    · have ih := runProjectsGo_consumes ai fmtTime now today hai ps dbM e
        he' hcb har hcat hrec
      exact ih hps

/-- A store in which every project's fetch is category-empty makes the
whole project loop a no-op returning docless reports. -/
theorem runProjectsGo_inert (ai : String → Except Unit String)
    (fmtTime : Int → String) (fetchErr : String → Bool) (now : Int)
    (today : String) (db : SummaryDB)
    (h : ∀ (p c : String), c ∈ summaryCategories →
      (getRecentJournalEntries now db p).filter
        (fun e => decide (e.entry_type = c)) = []) :
    ∀ ps : List String,
      (runProjectsGo ai fmtTime fetchErr now today ps db).1 = db ∧
      ∀ r ∈ (runProjectsGo ai fmtTime fetchErr now today ps db).2,
        r.docIds = []
  | [] => ⟨rfl, fun r hr => absurd hr (List.not_mem_nil r)⟩
  | p :: ps => by
    obtain ⟨ih1, ih2⟩ := runProjectsGo_inert ai fmtTime fetchErr now today
      db h ps
    rcases hrun : runProjectsGo ai fmtTime fetchErr now today ps db
      with ⟨dbF, rs⟩
    rw [hrun] at ih1 ih2
    replace ih1 : dbF = db := ih1
    replace ih2 : ∀ r ∈ rs, r.docIds = [] := ih2
    rcases processProject_cases ai fmtTime fetchErr now today db p with
      ⟨_, heq⟩ | ⟨entries, db1, docIds, hEq, hne, hpc, hcase⟩
    · have h0 : runProjectsGo ai fmtTime fetchErr now today (p :: ps) db =
          (dbF, rs) := by
        simp only [runProjectsGo, heq, hrun]
      rw [h0]
      exact ⟨ih1, ih2⟩
    · have hfp : entries = getRecentJournalEntries now db p := by
        by_cases hb : fetchErr p
        · rw [if_pos hb] at hEq
          exact absurd hEq hne
        · rw [if_neg hb] at hEq
          exact hEq
      have hall : ∀ c ∈ summaryCategories, (entries.filter fun e =>
          decide (e.entry_type = c)).isEmpty = true := by
        intro c hc
        rw [hfp, h p c hc]
        rfl
      have hpc0 := processCategories_all_empty ai fmtTime now today
        ((p.splitOn "/").getLastD "") p entries summaryCategories db hall
      rw [hpc] at hpc0
      injection hpc0 with hdb1 hdocIds
      rcases hcase with ⟨hdnil, heq⟩ | ⟨d, rest, hcons, _⟩
      · have h0 : runProjectsGo ai fmtTime fetchErr now today (p :: ps)
            db = (dbF, (⟨p, entries.map (fun e => e.id), docIds⟩ :
              ProjReport) :: rs) := by
          simp only [runProjectsGo, heq, hdb1, hrun]
        rw [h0]
        refine ⟨ih1, fun r hr => ?_⟩
        rcases List.mem_cons.mp hr with heq0 | hrs
        · rw [heq0]
          exact hdnil
        · exact ih2 r hrs
      · rw [hcons] at hdocIds
        exact List.noConfusion hdocIds

/-- C9 aggregate: a project with a working fetch and pending entries is
processed regardless of other projects' fetch failures — its report
carries exactly its fetched entry ids, and every category whose synthesis
call failed still yields a document holding the raw concatenation
verbatim. -/
theorem runProjectsGo_process (ai : String → Except Unit String)
    (fmtTime : Int → String) (fetchErr : String → Bool) (now : Int)
    (today : String) :
    ∀ (ps : List String) (db : SummaryDB),
      (db.journal.map (fun e => e.id)).Nodup →
      (∀ e ∈ db.journal, e.id < db.nextId) →
      ps.Nodup → ∀ q ∈ ps, fetchErr q = false →
      getRecentJournalEntries now db q ≠ [] →
      (∃ r, r ∈ (runProjectsGo ai fmtTime fetchErr now today ps db).2 ∧
        r.project = q ∧
        r.entryIds = (getRecentJournalEntries now db q).map
          (fun e => e.id)) ∧
      (∀ c ∈ summaryCategories,
        (getRecentJournalEntries now db q).filter
          (fun e => decide (e.entry_type = c)) ≠ [] →
        ai (categoryPrompt ((q.splitOn "/").getLastD "") c today
          (formattedEntries fmtTime ((getRecentJournalEntries now db
            q).filter (fun e => decide (e.entry_type = c))))) =
          .error () →
        ∃ doc_, doc_ ∈ (runProjectsGo ai fmtTime fetchErr now today ps
            db).1.journal ∧
          doc_.entry_type = c ∧ doc_.project_path = q ∧
          doc_.created_by = some summaryCreator ∧
          doc_.content = formattedEntries fmtTime
            ((getRecentJournalEntries now db q).filter
              (fun e => decide (e.entry_type = c))))
  | [], _, _, _, _, q, hq, _, _ => absurd hq (List.not_mem_nil q)
  | p :: ps, db, hn, hf, hnd, q, hq, hfe, hne => by
    rcases hstep : processProject ai fmtTime fetchErr now today db p
      with ⟨dbM, r?⟩
    rcases hrun : runProjectsGo ai fmtTime fetchErr now today ps dbM
      with ⟨dbF, rs⟩
    obtain ⟨hn1, hf1, _⟩ := processProject_inv ai fmtTime fetchErr now
      today db p hn hf
    rw [hstep] at hn1 hf1
    replace hn1 : (dbM.journal.map (fun e => e.id)).Nodup := hn1
    replace hf1 : ∀ e ∈ dbM.journal, e.id < dbM.nextId := hf1
    rcases List.mem_cons.mp hq with hqp' | hqs
    · rw [hqp'] at hfe hne ⊢
      rcases processProject_cases ai fmtTime fetchErr now today db p with
        ⟨hEmp, _⟩ | ⟨entries, db1, docIds, hEq, hne', hpc, hcase⟩
      · rw [hfe] at hEmp
        simp [List.isEmpty_iff] at hEmp
        exact absurd hEmp hne
      · have hfp : entries = getRecentJournalEntries now db p := by
          rw [hfe] at hEq
          simpa using hEq
        have hmemdoc : ∀ c ∈ summaryCategories,
            (getRecentJournalEntries now db p).filter
              (fun e => decide (e.entry_type = c)) ≠ [] →
            ai (categoryPrompt ((p.splitOn "/").getLastD "") c today
              (formattedEntries fmtTime ((getRecentJournalEntries now db
                p).filter (fun e => decide (e.entry_type = c))))) =
              .error () →
            ∃ doc_, doc_ ∈ db1.journal ∧ db.nextId ≤ doc_.id ∧
              doc_.entry_type = c ∧ doc_.project_path = p ∧
              doc_.created_by = some summaryCreator ∧
              doc_.content = formattedEntries fmtTime
                ((getRecentJournalEntries now db p).filter
                  (fun e => decide (e.entry_type = c))) := by
          intro c hc hcne hfail
          have hgen := generateCategoryDoc_fallback ai fmtTime
            ((p.splitOn "/").getLastD "") c
            ((getRecentJournalEntries now db p).filter
              (fun e => decide (e.entry_type = c))) today hcne hfail
          have hfene := formattedEntries_ne_empty fmtTime
            ((getRecentJournalEntries now db p).filter
              (fun e => decide (e.entry_type = c))) hcne
          have hmd := processCategories_mem_doc ai fmtTime now today
            ((p.splitOn "/").getLastD "") p entries summaryCategories db
            c hc (formattedEntries fmtTime ((getRecentJournalEntries now
              db p).filter (fun e => decide (e.entry_type = c))))
            (by rw [hfp]; exact hgen) hfene
          obtain ⟨doc_, hmem, hid, hct, hcontent, hcb, hpp, _, _⟩ := hmd
          rw [hpc] at hmem
          replace hmem : doc_ ∈ db1.journal := hmem
          exact ⟨doc_, hmem, hid, hct, hpp, hcb, hcontent⟩
        have hrep : r? = some ⟨p, entries.map (fun e => e.id), docIds⟩ ∧
            (dbM.journal = db1.journal ∨
              ∃ d, dbM.journal = archiveEntries now
                (entries.map (fun e => e.id)) d db1.journal) := by
          rcases hcase with ⟨hdnil, heq⟩ | ⟨d, rest, hcons, heq⟩
          · rw [hstep] at heq
            injection heq with hA hB
            refine ⟨hB, Or.inl ?_⟩
            rw [hA]
          · rw [hstep] at heq
            injection heq with hA hB
            refine ⟨hB, Or.inr ⟨d, ?_⟩⟩
            rw [hA]
        obtain ⟨hB, hMj⟩ := hrep
        subst hB
        have h0 : runProjectsGo ai fmtTime fetchErr now today (p :: ps)
            db = (dbF, (⟨p, entries.map (fun e => e.id), docIds⟩ :
              ProjReport) :: rs) := by
          simp only [runProjectsGo, hstep, hrun]
        rw [h0]
        constructor
        · refine ⟨⟨p, entries.map (fun e => e.id), docIds⟩,
            List.mem_cons_self _ _, rfl, ?_⟩
          show entries.map (fun e => e.id) = _
          rw [hfp]
        · intro c hc hcne hfail
          obtain ⟨doc_, hmem, hid, hct, hpp, hcb, hcontent⟩ :=
            hmemdoc c hc hcne hfail
          have hmemM : doc_ ∈ dbM.journal := by
            rcases hMj with hMj | ⟨d, hMj⟩
            · rw [hMj]
              exact hmem
            · rw [hMj]
              refine archiveEntries_keeps now _ d _ doc_ hmem ?_
              intro hin
              obtain ⟨ent, hent, heid⟩ := List.mem_map.mp hin
              rw [hfp, mem_getRecent_iff] at hent
              have := hf ent hent.1
              omega
          have hk := runProjectsGo_keeps ai fmtTime fetchErr now today ps
            dbM hn1 hf1 doc_ hmemM
            (fun q' => journalSel_compiler now q' doc_ hcb)
          rw [hrun] at hk
          replace hk : doc_ ∈ dbF.journal := hk
          exact ⟨doc_, hk, hct, hpp, hcb, hcontent⟩
    · rcases List.nodup_cons.mp hnd with ⟨hpni, hndps⟩
      have hqp : q ≠ p := fun hqe => hpni (hqe ▸ hqs)
      have hstab := processProject_stable ai fmtTime fetchErr now today
        db p hn q hqp now
      rw [hstep] at hstab
      replace hstab : getRecentJournalEntries now dbM q =
        getRecentJournalEntries now db q := hstab
      obtain ⟨⟨r, hrmem, hrp, hrids⟩, hfall⟩ := runProjectsGo_process ai
        fmtTime fetchErr now today ps dbM hn1 hf1 hndps q hqs hfe
        (by rw [hstab]; exact hne)
      rw [hstab] at hrids
      rw [hrun] at hrmem
      replace hrmem : r ∈ rs := hrmem
      have hdocpart : ∀ c ∈ summaryCategories,
          (getRecentJournalEntries now db q).filter
            (fun e => decide (e.entry_type = c)) ≠ [] →
          ai (categoryPrompt ((q.splitOn "/").getLastD "") c today
            (formattedEntries fmtTime ((getRecentJournalEntries now db
              q).filter (fun e => decide (e.entry_type = c))))) =
            .error () →
          ∃ doc_, doc_ ∈ dbF.journal ∧ doc_.entry_type = c ∧
            doc_.project_path = q ∧
            doc_.created_by = some summaryCreator ∧
            doc_.content = formattedEntries fmtTime
              ((getRecentJournalEntries now db q).filter
                (fun e => decide (e.entry_type = c))) := by
        intro c hc hcne hfail
        rw [← hstab] at hcne hfail
        obtain ⟨doc_, hmem, hct, hpp, hcb, hcontent⟩ :=
          hfall c hc hcne hfail
        rw [hrun] at hmem
        replace hmem : doc_ ∈ dbF.journal := hmem
        rw [hstab] at hcontent
        exact ⟨doc_, hmem, hct, hpp, hcb, hcontent⟩
      cases r? with
      | none =>
        have h0 : runProjectsGo ai fmtTime fetchErr now today (p :: ps)
            db = (dbF, rs) := by
          simp only [runProjectsGo, hstep, hrun]
        rw [h0]
        exact ⟨⟨r, hrmem, hrp, hrids⟩, hdocpart⟩
      | some r0 =>
        have h0 : runProjectsGo ai fmtTime fetchErr now today (p :: ps)
            db = (dbF, r0 :: rs) := by
          simp only [runProjectsGo, hstep, hrun]
        rw [h0]
        exact ⟨⟨r, List.mem_cons_of_mem r0 hrmem, hrp, hrids⟩, hdocpart⟩


/-! ## C3, C4, C5, C9 — compilation engine claims -/

/-- C3: refuted on the code — a nightly compilation run returns the
snippet table exactly as it received it.  No captured snippet is ever
mutated, so its `is_compiled` flag is never set and `compiled_into`
never receives a back-reference to the generated document. -/
theorem compile_never_stamps_snippets (ai : String → Except Unit String)
    (fmtTime : Int → String) (fetchErr : String → Bool) (now : Int)
    (today : String) (db : SummaryDB) :
    (runDailySummary ai fmtTime fetchErr now today db).1.snippets =
      db.snippets := by
  rw [runDailySummary]
  exact runProjectsGo_snippets ai fmtTime fetchErr now today
    (getActiveProjects now db) db

/-- C4: after a compilation run whose report for a project lists a first
created document id `d`: that document survives in the final journal as
a compiler-created row; every consumed entry id still has a row
(nothing is deleted); and every row bearing a consumed id is archived
with `archived_at` set and `archived_into = some d` — one anchor shared
by all categories. -/
theorem compile_archives_consumed (ai : String → Except Unit String)
    (fmtTime : Int → String) (fetchErr : String → Bool) (now : Int)
    (today : String) (db : SummaryDB)
    (hn : (db.journal.map (fun e => e.id)).Nodup)
    (hf : ∀ e ∈ db.journal, e.id < db.nextId)
    (r : ProjReport)
    (hr : r ∈ (runDailySummary ai fmtTime fetchErr now today db).2)
    (d : Nat) (rest : List Nat) (hd : r.docIds = d :: rest) :
    (∃ doc_, doc_ ∈ (runDailySummary ai fmtTime fetchErr now today
        db).1.journal ∧ doc_.id = d ∧
      doc_.created_by = some summaryCreator) ∧
    ∀ i ∈ r.entryIds,
      (∃ e', e' ∈ (runDailySummary ai fmtTime fetchErr now today
          db).1.journal ∧ e'.id = i) ∧
      ∀ e', e' ∈ (runDailySummary ai fmtTime fetchErr now today
          db).1.journal → e'.id = i →
        e'.is_archived = some true ∧ e'.archived_at = some now ∧
        e'.archived_into = some d := by
  obtain ⟨hdoc, hall⟩ := runProjectsGo_archives ai fmtTime fetchErr now
    today (getActiveProjects now db) db hn hf r hr d rest hd
  obtain ⟨hnF, _, _⟩ := runProjectsGo_inv ai fmtTime fetchErr now today
    (getActiveProjects now db) db hn hf
  refine ⟨hdoc, fun i hi => ?_⟩
  obtain ⟨e', hemem, heid, hea, heat, heinto⟩ := hall i hi
  refine ⟨⟨e', hemem, heid⟩, fun x hx hxid => ?_⟩
  have hxe : x = e' := journal_id_inj hnF hx hemem (by rw [hxid, heid])
  rw [hxe]
  exact ⟨hea, heat, heinto⟩

/-- Closed instance of `compile_archives_consumed`: one fresh entry, a
succeeding collaborator, report `⟨"/proj/alpha", [1], [10]⟩`. -/
theorem compile_archives_consumed_witness :
    (wSummaryDB.journal.map (fun e => e.id)).Nodup ∧
    (∀ e ∈ wSummaryDB.journal, e.id < wSummaryDB.nextId) ∧
    wReport ∈ (runDailySummary wAiOk wFmt noFetchErr 0 "D" wSummaryDB).2 ∧
    wReport.docIds = 10 :: [] ∧
    ((∃ doc_, doc_ ∈ (runDailySummary wAiOk wFmt noFetchErr 0 "D"
        wSummaryDB).1.journal ∧ doc_.id = 10 ∧
      doc_.created_by = some summaryCreator) ∧
    ∀ i ∈ wReport.entryIds,
      (∃ e', e' ∈ (runDailySummary wAiOk wFmt noFetchErr 0 "D"
          wSummaryDB).1.journal ∧ e'.id = i) ∧
      ∀ e', e' ∈ (runDailySummary wAiOk wFmt noFetchErr 0 "D"
          wSummaryDB).1.journal → e'.id = i →
        e'.is_archived = some true ∧ e'.archived_at = some (0 : Int) ∧
        e'.archived_into = some 10) :=
  ⟨by decide, by decide, by decide, by decide,
    compile_archives_consumed wAiOk wFmt noFetchErr 0 "D" wSummaryDB
      (by decide) (by decide) wReport (by decide) 10 [] (by decide)⟩

/-- C5 (amended): provided every successful synthesis call of the first
run returned nonempty text, running the compiler twice in a row with no
writes in between creates nothing the second time — the second run
leaves the store exactly as the first run left it, and every second-run
report carries an empty document list.  The proviso is needed: see
`c5_counterexample` for the empty-but-successful response that escapes
both the document creation and the archiving. -/
theorem second_run_creates_nothing (ai1 ai2 : String → Except Unit String)
    (fmtTime1 fmtTime2 : Int → String) (now1 now2 : Int)
    (today1 today2 : String) (db : SummaryDB)
    (hai : ∀ s r, ai1 s = .ok r → r ≠ "") (h12 : now1 ≤ now2) :
    (runDailySummary ai2 fmtTime2 (fun _ => false) now2 today2
        (runDailySummary ai1 fmtTime1 (fun _ => false) now1 today1
          db).1).1 =
      (runDailySummary ai1 fmtTime1 (fun _ => false) now1 today1 db).1 ∧
    ∀ r ∈ (runDailySummary ai2 fmtTime2 (fun _ => false) now2 today2
        (runDailySummary ai1 fmtTime1 (fun _ => false) now1 today1
          db).1).2, r.docIds = [] := by
  have hkey : ∀ (p c : String), c ∈ summaryCategories →
      (getRecentJournalEntries now2 (runDailySummary ai1 fmtTime1
        (fun _ => false) now1 today1 db).1 p).filter
        (fun e => decide (e.entry_type = c)) = [] := by
    intro p c hc
    refine List.eq_nil_iff_forall_not_mem.mpr fun e hmem => ?_
    obtain ⟨hgr, htype⟩ := List.mem_filter.mp hmem
    rw [mem_getRecent_iff] at hgr
    obtain ⟨hedb1, hsel⟩ := hgr
    obtain ⟨hproj, hrec2, hcb, hunar⟩ :=
      (journalSel_true_iff now2 p e).mp hsel
    have har : e.is_archived ≠ some true := by
      intro hx
      rw [hx] at hunar
      rcases hunar with h | h
      · exact Option.noConfusion h
      · exact Bool.noConfusion (Option.some.inj h)
    have hcat : e.entry_type ∈ summaryCategories := by
      have hts : e.entry_type = c := by simpa using htype
      rw [hts]
      exact hc
    have hrec1 : now1 - twentyFourHours ≤ e.created_at := by omega
    have hmem1 : e ∈ (runProjectsGo ai1 fmtTime1 (fun _ => false) now1
        today1 (getActiveProjects now1 db) db).1.journal := hedb1
    have hcons := runProjectsGo_consumes ai1 fmtTime1 now1 today1 hai
      (getActiveProjects now1 db) db e hmem1 hcb har hcat hrec1
    have horig : e ∈ db.journal := runProjectsGo_origin ai1 fmtTime1
      (fun _ => false) now1 today1 (getActiveProjects now1 db) db e hmem1
      hcb har
    have hact : activeSel now1 e = true := by
      rcases hunar with h | h <;> simp [activeSel, hrec1, hcb, h]
    exact hcons (mem_getActiveProjects now1 db e horig hact)
  obtain ⟨h1, h2⟩ := runProjectsGo_inert ai2 fmtTime2 (fun _ => false)
    now2 today2 (runDailySummary ai1 fmtTime1 (fun _ => false) now1
      today1 db).1 hkey
    (getActiveProjects now2 (runDailySummary ai1 fmtTime1 (fun _ => false)
      now1 today1 db).1)
  exact ⟨h1, h2⟩

/-- Closed instance of `second_run_creates_nothing`: the one-entry store,
both passes at time 0 with a failing collaborator (run 1 falls back and
still archives everything). -/
theorem second_run_creates_nothing_witness :
    (∀ s r, wAiFail s = .ok r → r ≠ "") ∧ ((0 : Int) ≤ 0) ∧
    ((runDailySummary wAiFail wFmt (fun _ => false) 0 "E"
        (runDailySummary wAiFail wFmt (fun _ => false) 0 "D"
          wSummaryDB).1).1 =
      (runDailySummary wAiFail wFmt (fun _ => false) 0 "D"
        wSummaryDB).1 ∧
    ∀ r ∈ (runDailySummary wAiFail wFmt (fun _ => false) 0 "E"
        (runDailySummary wAiFail wFmt (fun _ => false) 0 "D"
          wSummaryDB).1).2, r.docIds = []) :=
  ⟨fun s r h => Except.noConfusion h, by decide,
    second_run_creates_nothing wAiFail wAiFail wFmt wFmt 0 0 "D" "E"
      wSummaryDB (fun s r h => Except.noConfusion h) (by decide)⟩

/-- C9: with unique fresh ids, a project whose fetch works and has
pending entries is processed no matter which other projects' fetches
fail — its report lists exactly its fetched entry ids — and every
category whose synthesis call throws still gets its document, whose
content is the timestamp-ordered raw concatenation of the category's
entries verbatim. -/
theorem synthesis_fallback_and_continuation
    (ai : String → Except Unit String) (fmtTime : Int → String)
    (fetchErr : String → Bool) (now : Int) (today : String)
    (db : SummaryDB)
    (hn : (db.journal.map (fun e => e.id)).Nodup)
    (hf : ∀ e ∈ db.journal, e.id < db.nextId)
    (q : String) (hq : fetchErr q = false)
    (hne : getRecentJournalEntries now db q ≠ []) :
    (∃ r, r ∈ (runDailySummary ai fmtTime fetchErr now today db).2 ∧
      r.project = q ∧
      r.entryIds = (getRecentJournalEntries now db q).map
        (fun e => e.id)) ∧
    (∀ c ∈ summaryCategories,
      (getRecentJournalEntries now db q).filter
        (fun e => decide (e.entry_type = c)) ≠ [] →
      ai (categoryPrompt ((q.splitOn "/").getLastD "") c today
        (formattedEntries fmtTime ((getRecentJournalEntries now db
          q).filter (fun e => decide (e.entry_type = c))))) =
        .error () →
      ∃ doc_, doc_ ∈ (runDailySummary ai fmtTime fetchErr now today
          db).1.journal ∧
        doc_.entry_type = c ∧ doc_.project_path = q ∧
        doc_.created_by = some summaryCreator ∧
        doc_.content = formattedEntries fmtTime
          ((getRecentJournalEntries now db q).filter
            (fun e => decide (e.entry_type = c)))) := by
  have hqact : q ∈ getActiveProjects now db := by
    obtain ⟨e, he⟩ := List.exists_mem_of_ne_nil _ hne
    rw [mem_getRecent_iff] at he
    obtain ⟨hedb, hsel⟩ := he
    obtain ⟨hproj, hrec, hcb, hunar⟩ :=
      (journalSel_true_iff now q e).mp hsel
    have hact : activeSel now e = true := by
      rcases hunar with h | h <;> simp [activeSel, hrec, hcb, h]
    have hmm := mem_getActiveProjects now db e hedb hact
    rw [hproj] at hmm
    exact hmm
  exact runProjectsGo_process ai fmtTime fetchErr now today
    (getActiveProjects now db) db hn hf (jsSetDedup_nodup _) q hqact hq
    hne

/-- Closed instance of `synthesis_fallback_and_continuation`: the
one-entry store, an always-failing collaborator, no fetch failures. -/
theorem synthesis_fallback_witness :
    (wSummaryDB.journal.map (fun e => e.id)).Nodup ∧
    (∀ e ∈ wSummaryDB.journal, e.id < wSummaryDB.nextId) ∧
    ((fun _ => false : String → Bool) "/proj/alpha" = false) ∧
    getRecentJournalEntries 0 wSummaryDB "/proj/alpha" ≠ [] ∧
    ((∃ r, r ∈ (runDailySummary wAiFail wFmt (fun _ => false) 0 "D"
        wSummaryDB).2 ∧ r.project = "/proj/alpha" ∧
      r.entryIds = (getRecentJournalEntries 0 wSummaryDB
        "/proj/alpha").map (fun e => e.id)) ∧
    (∀ c ∈ summaryCategories,
      (getRecentJournalEntries 0 wSummaryDB "/proj/alpha").filter
        (fun e => decide (e.entry_type = c)) ≠ [] →
      wAiFail (categoryPrompt (("/proj/alpha".splitOn "/").getLastD "") c
        "D" (formattedEntries wFmt ((getRecentJournalEntries 0 wSummaryDB
          "/proj/alpha").filter (fun e => decide (e.entry_type = c))))) =
        .error () →
      ∃ doc_, doc_ ∈ (runDailySummary wAiFail wFmt (fun _ => false) 0 "D"
          wSummaryDB).1.journal ∧
        doc_.entry_type = c ∧ doc_.project_path = "/proj/alpha" ∧
        doc_.created_by = some summaryCreator ∧
        doc_.content = formattedEntries wFmt
          ((getRecentJournalEntries 0 wSummaryDB "/proj/alpha").filter
            (fun e => decide (e.entry_type = c))))) :=
  ⟨by decide, by decide, rfl, by decide,
    synthesis_fallback_and_continuation wAiFail wFmt (fun _ => false) 0
      "D" wSummaryDB (by decide) (by decide) "/proj/alpha" rfl
      (by decide)⟩


/-- C5 fails as frozen: a first run whose synthesis succeeds with empty
text creates no document (`if (!docContent) continue`) and therefore
archives nothing (archiving runs only when a document was created), so
the store is left untouched and a second run over it — with a
collaborator that does return text — creates a document. -/
theorem c5_counterexample :
    (runDailySummary wAiEmpty wFmt (fun _ => false) 0 "D"
        wSummaryDB).1 = wSummaryDB ∧
    (∃ r ∈ (runDailySummary wAiOk wFmt (fun _ => false) 0 "E"
        (runDailySummary wAiEmpty wFmt (fun _ => false) 0 "D"
          wSummaryDB).1).2, r.docIds = [10]) := by
  decide

end Clair
